import Mathlib

/-!
# beonode/date: a civil date value type

Shallow embedding of `date.go` and of the parts of Go's standard `time` and
`fmt` packages that `date.go` calls.

* Go `int` and `time.Month` are 64-bit signed integers.  They are embedded as
  `Int`; every arithmetic operation that Go performs on them is followed by
  `wrap64` (two's complement wrap-around).  `uint64` values are embedded as
  `Int` reduced by `u64`.
* Go `/` and `%` on signed integers truncate towards zero: `Int.tdiv`,
  `Int.tmod`.
* Go strings are byte sequences: `List Nat`.
* Fallible functions return `Except`.
-/

set_option maxRecDepth 4000

/-! ## Machine integers -/

/-- Two's complement wrap-around of Go's `int` / `int64`. -/
def wrap64 (x : Int) : Int := (x + 9223372036854775808) % 18446744073709551616 - 9223372036854775808

/-- Conversion to Go's `uint64` (also the wrap-around of `uint64` arithmetic). -/
def u64 (x : Int) : Int := x % 18446744073709551616

/-- Membership in the range of Go's `int` on a 64-bit platform. -/
def isInt64 (x : Int) : Prop := -9223372036854775808 ≤ x ∧ x ≤ 9223372036854775807

instance (x : Int) : Decidable (isInt64 x) := by unfold isInt64; infer_instance

deriving instance DecidableEq for Except

/-! ## Go's package `time` (the functions `date.go` reaches)

Transcribed from `time/time.go` (go1.20 – go1.22, the releases that first have the
constant `time.DateOnly` that `date.go` uses).  Only the location `time.UTC` is
embedded: `Date.Time` and `Date.add` are always called with it, and
`time.Parse` falls back to it.  Every Go assignment is followed by one wrap of
its result; the operands of a division or of a comparison are wrapped values.
Inside `absDate` the unsigned intermediate values cannot leave the range of
`uint64` (they only decrease), so no wrap is written there. -/

namespace time

def secondsPerMinute : Int := 60
def secondsPerHour : Int := 3600
def secondsPerDay : Int := 86400
def daysPer400Years : Int := 146097
def daysPer100Years : Int := 36524
def daysPer4Years : Int := 1461

/-- The year of the zero point of the absolute seconds counter. -/
def absoluteZeroYear : Int := -292277022399

/-- The constant `(absoluteZeroYear - internalYear) * 365.2425 * secondsPerDay`. -/
def absoluteToInternal : Int := -9223371966579724800
def internalToAbsolute : Int := 9223371966579724800

/-- The constant `(1969*365 + 1969/4 - 1969/100 + 1969/400) * secondsPerDay`. -/
def unixToInternal : Int := 62135596800
def internalToUnix : Int := -62135596800

/-- The array `daysBefore`: `daysBefore[m]` counts the days of a non-leap year
before month `m+1`.  It has 13 entries; it is only ever indexed with 0..12. -/
def daysBefore (i : Int) : Int :=
  if i = 0 then 0 else if i = 1 then 31 else if i = 2 then 59 else if i = 3 then 90
  else if i = 4 then 120 else if i = 5 then 151 else if i = 6 then 181 else if i = 7 then 212
  else if i = 8 then 243 else if i = 9 then 273 else if i = 10 then 304 else if i = 11 then 334
  else if i = 12 then 365 else 0

/-- Function `isLeap` of `time.go`. -/
def isLeap (year : Int) : Bool :=
  year.tmod 4 = 0 ∧ (year.tmod 100 ≠ 0 ∨ year.tmod 400 = 0)

/-- Function `daysIn` of `time.go`. -/
def daysIn (m year : Int) : Int :=
  if m = 2 ∧ isLeap year then 29 else daysBefore m - daysBefore (m - 1)

/-- Function `norm` of `time.go`: `(hi, lo)` with `lo` brought into `0..base-1`. -/
def norm (hi lo base : Int) : Int × Int :=
  let p : Int × Int :=
    if lo < 0 then
      let n := wrap64 ((wrap64 (-lo - 1)).tdiv base + 1)
      (wrap64 (hi - n), wrap64 (lo + n * base))
    else (hi, lo)
  if p.2 ≥ base then
    let n := p.2.tdiv base
    (wrap64 (p.1 + n), wrap64 (p.2 - n * base))
  else p

/-- Function `daysSinceEpoch` of `time.go` (result: `uint64`). -/
def daysSinceEpoch (year : Int) : Int :=
  let y := u64 (year - absoluteZeroYear)
  let n := y / 400
  let y := y - 400 * n
  let d := u64 (daysPer400Years * n)
  let n := y / 100
  let y := y - 100 * n
  let d := u64 (d + daysPer100Years * n)
  let n := y / 4
  let y := y - 4 * n
  let d := u64 (d + daysPer4Years * n)
  let n := y
  u64 (d + 365 * n)

/-- A `time.Time` without monotonic clock reading: `wall` holds the nanoseconds, `ext`
the seconds since January 1 of year 1.  (A `Time` with a monotonic clock reading keeps
the same seconds in `wall`; the methods embedded here read them through `sec` and `nsec`
only, so it is the `Time` with those seconds in `ext`.)  The field `loc` is not part of the structure: the
methods below without a location argument are those of a `Time` in the location UTC, which
is what `date.go` passes wherever it builds a `Time` itself, and the methods that read a
`Time` that comes from outside (`Time.absIn`, `Time.Year`, `Time.Month`, `Time.Day`) take
the location as an argument. -/
structure Time where
  wall : Int
  ext : Int
deriving DecidableEq, Repr

/-- Function `unixTime` of `time.go`. -/
def unixTime (sec nsec : Int) : Time := ⟨u64 nsec, wrap64 (sec + unixToInternal)⟩

/-- Function `time.Date`, for the location UTC (whose zone offset is zero, so
no adjustment follows the computation of `unix`). -/
def Date (year month day hour min sec nsec : Int) : Time :=
  let m := wrap64 (month - 1)
  let ym := norm year m 12
  let year := ym.1
  let month := wrap64 (ym.2 + 1)
  let sn := norm sec nsec 1000000000
  let ms := norm min sn.1 60
  let hm := norm hour ms.1 60
  let dh := norm day hm.1 24
  let day := dh.1
  let hour := dh.2
  let min := hm.2
  let sec := ms.2
  let nsec := sn.2
  let d := daysSinceEpoch year
  let d := u64 (d + daysBefore (month - 1))
  let d := if isLeap year ∧ month ≥ 3 then u64 (d + 1) else d
  let d := u64 (d + (day - 1))
  let abs := u64 (d * secondsPerDay)
  let abs := u64 (abs + (hour * secondsPerHour + min * secondsPerMinute + sec))
  let unix := wrap64 (abs + (absoluteToInternal + internalToUnix))
  unixTime unix nsec

/-- Method `Time.abs`, for the location UTC. -/
def Time.abs (t : Time) : Int :=
  let sec := wrap64 (t.ext + internalToUnix)
  u64 (sec + (unixToInternal + internalToAbsolute))

/-- Function `absDate` of `time.go` with `full = true`:
the result is `(year, month, day, yday)`. -/
def absDate (abs : Int) : Int × Int × Int × Int :=
  let d := abs / secondsPerDay
  let n := d / daysPer400Years
  let y := 400 * n
  let d := d - daysPer400Years * n
  let n := d / daysPer100Years
  let n := n - n / 4
  let y := y + 100 * n
  let d := d - daysPer100Years * n
  let n := d / daysPer4Years
  let y := y + 4 * n
  let d := d - daysPer4Years * n
  let n := d / 365
  let n := n - n / 4
  let y := y + n
  let d := d - 365 * n
  let year := wrap64 (y + absoluteZeroYear)
  let yday := d
  let day := yday
  if isLeap year ∧ day = 31 + 29 - 1 then (year, 2, 29, yday)
  else
    let day := if isLeap year ∧ day > 31 + 29 - 1 then day - 1 else day
    let month := day.tdiv 31
    let endDay := daysBefore (month + 1)
    let mb : Int × Int := if day ≥ endDay then (month + 1, endDay) else (month, daysBefore month)
    (year, mb.1 + 1, day - mb.2 + 1, yday)

/-- Function `absClock` of `time.go`: `(hour, min, sec)`. -/
def absClock (abs : Int) : Int × Int × Int :=
  let sec := abs % secondsPerDay
  let hour := sec.tdiv secondsPerHour
  let sec := sec - hour * secondsPerHour
  let min := sec.tdiv secondsPerMinute
  let sec := sec - min * secondsPerMinute
  (hour, min, sec)

/-- Method `Time.Date`, for the location UTC: `(year, month, day)`. -/
def Time.Date (t : Time) : Int × Int × Int :=
  let r := absDate t.abs
  (r.1, r.2.1, r.2.2.1)

/-- A `*time.Location`, as far as `Time.abs` reads it: the zone offset, in seconds east
of UTC, that the location has in force at a Unix time (method `lookup`, or the cached
zone).  For `time.UTC`, and for the nil location, which stands for UTC, the offset is 0
at every instant. -/
structure Location where
  offset : Int → Int

/-- The location `time.UTC`. -/
def UTC : Location := ⟨fun _ => 0⟩

/-- Function `time.FixedZone`: the location that has the offset `offset` at every
instant. -/
def FixedZone (offset : Int) : Location := ⟨fun _ => offset⟩

/-- Method `Time.abs` for a `Time` whose field `loc` is `l`: the zone offset in force at
the instant is added to the Unix seconds.  (For `time.UTC` the code skips the addition
of the offset, which is 0.) -/
def Time.absIn (t : Time) (l : Location) : Int :=
  let sec := wrap64 (t.ext + internalToUnix)
  let sec := wrap64 (sec + l.offset sec)
  u64 (sec + (unixToInternal + internalToAbsolute))

/-- Method `Time.Year` for a `Time` whose field `loc` is `l`. -/
def Time.Year (t : Time) (l : Location) : Int := (absDate (t.absIn l)).1

/-- Method `Time.Month` for a `Time` whose field `loc` is `l`. -/
def Time.Month (t : Time) (l : Location) : Int := (absDate (t.absIn l)).2.1

/-- Method `Time.Day` for a `Time` whose field `loc` is `l`. -/
def Time.Day (t : Time) (l : Location) : Int := (absDate (t.absIn l)).2.2.1

/-- Method `Time.Clock`. -/
def Time.Clock (t : Time) : Int × Int × Int := absClock t.abs

/-- Method `Time.nsec`: the low 30 bits of `wall`. -/
def Time.nsec (t : Time) : Int := t.wall % 1073741824

/-- Method `Time.AddDate`. -/
def Time.AddDate (t : Time) (years months days : Int) : Time :=
  let ymd := t.Date
  let hms := t.Clock
  time.Date (wrap64 (ymd.1 + years)) (wrap64 (ymd.2.1 + months)) (wrap64 (ymd.2.2 + days))
    hms.1 hms.2.1 hms.2.2 t.nsec

def secondsPerWeek : Int := 604800

/-- Function `absWeekday` of `time.go`: Sunday is 0, Monday is 1, ..., Saturday is 6.
January 1 of the absolute year was a Monday. -/
def absWeekday (abs : Int) : Int :=
  let sec := u64 (abs + 1 * secondsPerDay) % secondsPerWeek
  sec.tdiv secondsPerDay

/-- Method `Time.Weekday`. -/
def Time.Weekday (t : Time) : Int := absWeekday t.abs

/-! ### Durations: `Time.Sub` and the methods it calls

A `time.Duration` is an `int64` count of nanoseconds. -/

def minDuration : Int := -9223372036854775808
def maxDuration : Int := 9223372036854775807
def Second : Int := 1000000000
def Hour : Int := 3600000000000

/-- Method `Time.sec`: the seconds since January 1 of year 1. -/
def Time.sec (t : Time) : Int := t.ext

/-- Method `Time.addSec`: `d` seconds later, saturating when the sum leaves `int64`. -/
def Time.addSec (t : Time) (d : Int) : Time :=
  let sum := wrap64 (t.ext + d)
  if decide (sum > t.ext) = decide (d > 0) then { t with ext := sum }
  else if d > 0 then { t with ext := 9223372036854775807 }
  else { t with ext := -9223372036854775807 }

/-- Method `Time.Add`.  The sum `nsec` is an `int32`; both terms are below 2^30 in
absolute value, so it does not wrap. -/
def Time.Add (t : Time) (d : Int) : Time :=
  let dsec := d.tdiv 1000000000
  let nsec := t.nsec + d.tmod 1000000000
  let p : Int × Int :=
    if nsec ≥ 1000000000 then (wrap64 (dsec + 1), nsec - 1000000000)
    else if nsec < 0 then (wrap64 (dsec - 1), nsec + 1000000000)
    else (dsec, nsec)
  Time.addSec { t with wall := t.wall / 1073741824 * 1073741824 + p.2 } p.1

/-- Method `Time.Equal`. -/
def Time.Equal (t u : Time) : Bool := t.sec = u.sec ∧ t.nsec = u.nsec

/-- Method `Time.Before`. -/
def Time.Before (t u : Time) : Bool := t.sec < u.sec ∨ (t.sec = u.sec ∧ t.nsec < u.nsec)

/-- Method `Time.Sub`: the duration `t - u`, or the minimum or maximum duration when the
difference does not fit. -/
def Time.Sub (t u : Time) : Int :=
  let d := wrap64 (wrap64 (wrap64 (t.sec - u.sec) * Second) + (t.nsec - u.nsec))
  if (u.Add d).Equal t then d
  else if t.Before u then minDuration
  else maxDuration

/-- Method `Duration.Abs`. -/
def Duration.Abs (d : Int) : Int :=
  if d ≥ 0 then d
  else if d = minDuration then maxDuration
  else wrap64 (-d)

/-! ### `time.Parse` with the layout `time.DateOnly`

The layout `"2006-01-02"` splits (function `nextStdChunk`) into the chunks
`stdLongYear`, `"-"` `stdZeroMonth`, `"-"` `stdZeroDay` and the empty rest; the loop of
`parse` (`time/format.go`) is written out for these four chunks.  `Parse` calls `parse`
with the default location UTC. -/

/-- Errors of `parse`: a chunk does not match (`errBad`), the month is out of range,
text is left over, or the day does not exist in the month. -/
inductive ParseError where
  | bad
  | monthOutOfRange
  | extraText
  | dayOutOfRange
deriving DecidableEq, Repr

/-- Function `isDigit` of `format.go`: is byte `i` of `s` present and a decimal digit. -/
def isDigit (s : List Nat) (i : Nat) : Bool :=
  match s.get? i with
  | none => false
  | some c => 48 ≤ c ∧ c ≤ 57

/-- Function `leadingInt` of `format.go`, with the value `x` read so far: the leading
decimal digits of `s` as a `uint64`, and the rest of `s`; an error on overflow. -/
def leadingInt : List Nat → Int → Except Unit (Int × List Nat)
  | [], x => .ok (x, [])
  | c :: s, x =>
    if c < 48 ∨ c > 57 then .ok (x, c :: s)
    else if x > 9223372036854775808 / 10 then .error ()
    else
      let x := u64 (x * 10 + c - 48)
      if x > 9223372036854775808 then .error () else leadingInt s x

/-- Function `atoi` of `format.go`. -/
def atoi (s : List Nat) : Except Unit Int :=
  let neg : Bool := match s with
    | c :: _ => c = 45
    | [] => false
  let s := match s with
    | c :: r => if c = 45 ∨ c = 43 then r else c :: r
    | [] => []
  match leadingInt s 0 with
  | .error _ => .error ()
  | .ok (q, rem) =>
    if rem.length > 0 then .error ()
    else
      let x := wrap64 q
      .ok (if neg then wrap64 (-x) else x)

/-- Function `getnum` of `format.go`: a number of one or two digits, of exactly two
digits if `fixed`, and the rest of `s`. -/
def getnum (s : List Nat) (fixed : Bool) : Except Unit (Int × List Nat) :=
  if !isDigit s 0 then .error ()
  else if !isDigit s 1 then
    if fixed then .error () else .ok ((s.getD 0 0 : Nat) - 48, s.drop 1)
  else .ok (((s.getD 0 0 : Nat) - 48) * 10 + ((s.getD 1 0 : Nat) - 48), s.drop 2)

/-- Function `skip` of `format.go` for a literal text `pfx` without a space (the layout
has none): `value` without its leading `pfx`. -/
def skip : List Nat → List Nat → Except Unit (List Nat)
  | value, [] => .ok value
  | [], _ :: _ => .error ()
  | v :: value, p :: pfx => if v ≠ p then .error () else skip value pfx

/-- Function `time.Parse` at the layout `time.DateOnly`.  The fields `month` and `day`
are set by their chunks, no day of the year is parsed, and no zone: the result is
`Date(year, month, day, 0, 0, 0, 0, UTC)` after the check of the day of the month. -/
def ParseDateOnly (value : List Nat) : Except ParseError Time :=
  if value.length < 4 ∨ !isDigit value 0 then .error .bad
  else
    match atoi (value.take 4) with
    | .error _ => .error .bad
    | .ok year =>
      match skip (value.drop 4) [45] with
      | .error _ => .error .bad
      | .ok value =>
        match getnum value true with
        | .error _ => .error .bad
        | .ok (month, value) =>
          if month ≤ 0 ∨ 12 < month then .error .monthOutOfRange
          else
            match skip value [45] with
            | .error _ => .error .bad
            | .ok value =>
              match getnum value true with
              | .error _ => .error .bad
              | .ok (day, value) =>
                if value.length ≠ 0 then .error .extraText
                else if day < 1 ∨ day > daysIn month year then .error .dayOutOfRange
                else .ok (time.Date year month day 0 0 0 0)

end time

/-! ## Go's package `fmt`: the verb `%0Nd` on a signed integer

Transcribed from `(*fmt).fmtInteger` in `fmt/format.go`, for base 10 with the flag `0`
and a width, without a precision and without the flags `+`, `-` and space. -/

namespace fmt

/-- The loop `for u >= 10` of `fmtInteger`, which writes the decimal digits of `u` from
right to left in front of `buf`, and the write of the last digit after it.  A `uint64`
has at most 20 digits, so the body runs at most 19 times: `fuel` is 20. -/
def fmtDigits : Nat → Nat → List Nat → List Nat
  | 0, u, buf => (48 + u) :: buf
  | fuel + 1, u, buf =>
    if u ≥ 10 then
      let next := u / 10
      fmtDigits fuel next ((48 + u - next * 10) :: buf)
    else (48 + u) :: buf

/-- Method `fmtInteger` for `%0Nd` with `N = wid`: the digits of the absolute value,
zeros in front up to `prec` digits (`wid`, or `wid - 1` for a negative number, to leave
room for the sign), then the sign. -/
def fmtInteger (wid : Nat) (x : Int) : List Nat :=
  let negative : Bool := x < 0
  let u : Nat := if negative then (-x).toNat else x.toNat
  let prec : Nat := if negative then wid - 1 else wid
  let buf := fmtDigits 20 u []
  let buf := List.replicate (prec - buf.length) 48 ++ buf
  if negative then 45 :: buf else buf

end fmt

/-! ## Go's package `encoding/json`, as an interface

`date.go` calls `json.Marshal` on a string and `json.Unmarshal` with a pointer to an empty
string variable.  The two functions are taken as parameters; what is assumed of them is
stated where it is used (`Json.Lawful`). -/

/-- The two calls of `encoding/json` in `date.go`: `Marshal s` is `json.Marshal(s)` for a
string `s`, and `Unmarshal data` is `json.Unmarshal(data, &str)` for a variable `str` that
holds the empty string: the error, or the string that `str` holds afterwards. -/
structure Json where
  Marshal : List Nat → Except Unit (List Nat)
  Unmarshal : List Nat → Except Unit (List Nat)

namespace date

/-! ## `date.go`: data model, validation, comparison -/

/-- The struct `Date` of `date.go`; `Month` is a `time.Month`, an `int`. -/
structure Date where
  Year : Int
  Month : Int
  Day : Int
deriving DecidableEq, Repr

/-- Errors that `New` reports (the arguments of its three `fmt.Errorf` calls). -/
inductive NewError where
  | monthOutOfRange (month : Int)
  | dayTooLow (day : Int)
  | dayTooHigh (year month lastDayOfMonth day : Int)
deriving DecidableEq, Repr

/-- The map `monthDays`; a key that is absent reads as the zero value. -/
def monthDays (k : Int) : Int :=
  if k = 1 then 31 else if k = 2 then 28 else if k = 3 then 31 else if k = 4 then 30
  else if k = 5 then 31 else if k = 6 then 30 else if k = 7 then 31 else if k = 8 then 31
  else if k = 9 then 30 else if k = 10 then 31 else if k = 11 then 30 else if k = 12 then 31
  else 0

/-- Function `isLeapYear` of `date.go`. -/
def isLeapYear (year : Int) : Bool :=
  if year.tmod 400 = 0 then true
  else if year.tmod 100 = 0 then false
  else year.tmod 4 = 0

/-- Function `daysInMonth` of `date.go`. -/
def daysInMonth (year month : Int) : Int :=
  if month = 2 ∧ isLeapYear year then 29 else monthDays month

/-- Function `New` of `date.go`. -/
def New (year month day : Int) : Except NewError Date :=
  if month > 12 ∨ month < 1 then .error (.monthOutOfRange month)
  else if day < 1 then .error (.dayTooLow day)
  else
    let lastDayOfMonth := daysInMonth year month
    if day > lastDayOfMonth then .error (.dayTooHigh year month lastDayOfMonth day)
    else .ok ⟨year, month, day⟩

/-- Method `Date.IsBefore`. -/
def Date.IsBefore (d o : Date) : Bool :=
  if d.Year < o.Year then true
  else if d.Year = o.Year ∧ d.Month < o.Month then true
  else if d.Year = o.Year ∧ d.Month = o.Month ∧ d.Day < o.Day then true
  else false

/-- Method `Date.IsAfter`. -/
def Date.IsAfter (d o : Date) : Bool :=
  if d.Year > o.Year then true
  else if d.Year = o.Year ∧ d.Month > o.Month then true
  else if d.Year = o.Year ∧ d.Month = o.Month ∧ d.Day > o.Day then true
  else false

/-- Method `Date.Equal`. -/
def Date.Equal (d o : Date) : Bool :=
  d.Year = o.Year ∧ d.Month = o.Month ∧ d.Day = o.Day

/-- Modelled from the spec: the method `Date.Compare`, which `date_test.go` calls and
`date.go` does not contain.  The spec words it as `compare(other) → {-1,0,1}`: the total
order by (year, month, day) lexicographically, returning exactly -1, 0 or 1. -/
def Date.Compare (d o : Date) : Int :=
  if d.Year < o.Year ∨ (d.Year = o.Year ∧ (d.Month < o.Month ∨ (d.Month = o.Month ∧ d.Day < o.Day)))
  then -1
  else if o.Year < d.Year ∨
      (o.Year = d.Year ∧ (o.Month < d.Month ∨ (o.Month = d.Month ∧ o.Day < d.Day)))
  then 1
  else 0

/-- Method `Date.FirstOfMonth`. -/
def Date.FirstOfMonth (d : Date) : Date := ⟨d.Year, d.Month, 1⟩

/-- Method `Date.LastOfMonth`. -/
def Date.LastOfMonth (d : Date) : Date := ⟨d.Year, d.Month, daysInMonth d.Year d.Month⟩

/-- Function `FromISO8601` of `date.go`. -/
def FromISO8601 (date : List Nat) : Except time.ParseError Date :=
  match time.ParseDateOnly date with
  | .error err => .error err
  | .ok t => .ok ⟨t.Date.1, t.Date.2.1, t.Date.2.2⟩

/-- Function `FromTime` of `date.go`, for a `Time` in the location UTC, which is what
`date.go` itself passes to it. -/
def FromTime (t : time.Time) : Date :=
  let ymd := t.Date
  ⟨ymd.1, ymd.2.1, ymd.2.2⟩

/-- Function `startOfDay` of `date.go`, for the location UTC. -/
def startOfDay (y m d : Int) : time.Time := time.Date y m d 0 0 0 0

/-- Method `Date.Time`, for the location UTC. -/
def Date.Time (d : Date) : time.Time := startOfDay d.Year d.Month d.Day

/-- Method `Date.add`. -/
def Date.add (d : Date) (years months days : Int) : Date :=
  FromTime (d.Time.AddDate years months days)

/-- Method `Date.AddDays`. -/
def Date.AddDays (d : Date) (days : Int) : Date := d.add 0 0 days

/-- Method `Date.AddMonths`. -/
def Date.AddMonths (d : Date) (months : Int) : Date := d.add 0 months 0

/-- Method `Date.AddYears`. -/
def Date.AddYears (d : Date) (years : Int) : Date := d.add years 0 0

/-- Function `FirstOfWeek` of `date.go`, on an instant. -/
def FirstOfWeek (t : time.Time) : time.Time :=
  let wd := t.Weekday
  if wd = 1 then t
  else if wd = 0 then t.AddDate 0 0 (-6)
  else t.AddDate 0 0 (wrap64 (wrap64 (-wd) + 1))

/-- Method `Date.FirstOfWeek`. -/
def Date.FirstOfWeek (d : Date) : Date := FromTime (date.FirstOfWeek d.Time)

/-- Function `LastOfWeek` of `date.go`, on an instant. -/
def LastOfWeek (t : time.Time) : time.Time :=
  let wd := t.Weekday
  if wd = 0 then t
  else t.AddDate 0 0 (wrap64 (7 - wd))

/-- Method `Date.LastOfWeek`. -/
def Date.LastOfWeek (d : Date) : Date := FromTime (date.LastOfWeek d.Time)

/-- Function `DiffInDays` of `date.go`. -/
def DiffInDays (d1 d2 : Date) : Int :=
  let diff := d1.Time.Sub d2.Time
  (time.Duration.Abs diff).tdiv (24 * time.Hour)

/-- Method `Date.StartOfMonth`. -/
def Date.StartOfMonth (d : Date) : Date := d.add 0 0 (wrap64 (wrap64 (-d.Day) + 1))

/-- Method `Date.EndOfMonth`. -/
def Date.EndOfMonth (d : Date) : Date := d.add 0 1 (wrap64 (-d.Day))

/-- Method `Date.String`: `fmt.Sprintf("%04d-%02d-%02d", d.Year, d.Month, d.Day)`.
The verb `%d` prints a `time.Month` as its integer. -/
def Date.String (d : Date) : List Nat :=
  fmt.fmtInteger 4 d.Year ++ [45] ++ fmt.fmtInteger 2 d.Month ++ [45] ++ fmt.fmtInteger 2 d.Day

/-- Method `Date.ShortString`: `fmt.Sprintf("%02d%02d%02d", d.Year%100, d.Month, d.Day)`. -/
def Date.ShortString (d : Date) : List Nat :=
  fmt.fmtInteger 2 (d.Year.tmod 100) ++ fmt.fmtInteger 2 d.Month ++ fmt.fmtInteger 2 d.Day

/-- Method `Date.MarshalJSON`: `json.Marshal(d.String())`. -/
def Date.MarshalJSON (j : Json) (d : Date) : Except Unit (List Nat) := j.Marshal d.String

/-- Errors of `Date.UnmarshalJSON`: that of `json.Unmarshal` or that of `FromISO8601`. -/
inductive UnmarshalError where
  | json
  | parse (err : time.ParseError)
deriving DecidableEq, Repr

/-- Method `Date.UnmarshalJSON`, with a pointer receiver: the receiver after the call and
the error. -/
def Date.UnmarshalJSON (j : Json) (d : Date) (data : List Nat) : Date × Option UnmarshalError :=
  match j.Unmarshal data with
  | .error _ => (d, some .json)
  | .ok str =>
    match FromISO8601 str with
    | .error err => (d, some (.parse err))
    | .ok date => (⟨date.Year, date.Month, date.Day⟩, none)

/-- A Go value of the interface type `any`, as far as `Scan` tells values apart: the nil
interface, a `time.Time`, given by its seconds and nanoseconds `t` and its location
`loc`, or a value of another dynamic type, of which only the text that the verb `%T`
prints is kept. -/
inductive Value where
  | nil
  | time (t : time.Time) (loc : time.Location)
  | other (typeName : String)

/-- What the verb `%T` of `fmt` prints for a value. -/
def Value.typeName : Value → String
  | .nil => "<nil>"
  | .time _ _ => "time.Time"
  | .other n => n

/-- The error `fmt.Errorf("cannot scan type %T into ...", value)` of the two `Scan`
methods: the type of the value and the name after `into`. -/
inductive ScanError where
  | cannotScan (typeName : String) (into : String)
deriving DecidableEq, Repr

/-- Method `Date.Scan`, with a pointer receiver: the receiver after the call and the
error.  The year, month and day of a `time.Time` are read in the location of that
`Time`. -/
def Date.Scan (d : Date) (value : Value) : Date × Option ScanError :=
  match value with
  | .time t loc => (⟨t.Year loc, t.Month loc, t.Day loc⟩, none)
  | v => (d, some (.cannotScan v.typeName "Date"))

/-! ## `null.go` -/

/-- The variable `nullBytes`. -/
def nullBytes : List Nat := [110, 117, 108, 108]

/-- The struct `NullDate`. -/
structure NullDate where
  Valid : Bool
  Date : Date
deriving DecidableEq, Repr

/-- Function `NullDateFrom`. -/
def NullDateFrom (date : Date) : NullDate := ⟨true, date⟩

/-- Method `NullDate.MarshalJSON`. -/
def NullDate.MarshalJSON (j : Json) (d : NullDate) : Except Unit (List Nat) :=
  if !d.Valid then .ok nullBytes
  else d.Date.MarshalJSON j

/-- Method `NullDate.UnmarshalJSON`, with a pointer receiver: the receiver after the call
and the error. -/
def NullDate.UnmarshalJSON (j : Json) (d : NullDate) (data : List Nat) :
    NullDate × Option UnmarshalError :=
  if data = nullBytes then (⟨false, ⟨0, 0, 0⟩⟩, none)
  else
    let r := d.Date.UnmarshalJSON j data
    match r.2 with
    | some err => (⟨d.Valid, r.1⟩, some err)
    | none => (⟨true, r.1⟩, none)

/-- Method `NullDate.Scan`, with a pointer receiver: the receiver after the call and the
error. -/
def NullDate.Scan (d : NullDate) (value : Value) : NullDate × Option ScanError :=
  match value with
  | .nil => (⟨false, d.Date⟩, none)
  | .time t loc =>
    let r := d.Date.Scan (.time t loc)
    match r.2 with
    | some err => (⟨d.Valid, r.1⟩, some err)
    | none => (⟨true, r.1⟩, none)
  | v => (d, some (.cannotScan v.typeName "NullTime"))

/-- The bytes of an ASCII text. -/
def ascii (s : String) : List Nat := s.toList.map Char.toNat

/-- The validity invariant of the data model: the month is 1..12 and the day
is 1..`daysInMonth`. -/
def Date.Valid (d : Date) : Prop :=
  1 ≤ d.Month ∧ d.Month ≤ 12 ∧ 1 ≤ d.Day ∧ d.Day ≤ daysInMonth d.Year d.Month

instance (d : Date) : Decidable d.Valid := by unfold Date.Valid; infer_instance

/-- Lexicographic order on triples (year, month, day), written out. -/
def lexLt (a b : Int × Int × Int) : Prop :=
  a.1 < b.1 ∨ (a.1 = b.1 ∧ (a.2.1 < b.2.1 ∨ (a.2.1 = b.2.1 ∧ a.2.2 < b.2.2)))

instance (a b : Int × Int × Int) : Decidable (lexLt a b) := by unfold lexLt; infer_instance

end date

/-! ## Definitions used only in statements and proofs -/

namespace time

/-- First year whose days the absolute seconds counter holds. -/
def minYear : Int := -292277022399

/-- Last year whose days the 64-bit absolute seconds counter holds completely. -/
def maxYear : Int := 292277026853

/-- Unwrapped day count of January 1 of year `absoluteZeroYear + Y`:
what `daysSinceEpoch` computes when nothing wraps. -/
def yearDays (Y : Int) : Int :=
  146097 * (Y / 400) + 36524 * (Y % 400 / 100) + 1461 * (Y % 100 / 4) + 365 * (Y % 4)

/-- The first half of `absDate`: year offset and day of the year from the day count. -/
def cycleYear (N : Int) : Int × Int :=
  let n := N / 146097
  let y := 400 * n
  let d := N - 146097 * n
  let n := d / 36524
  let n := n - n / 4
  let y := y + 100 * n
  let d := d - 36524 * n
  let n := d / 1461
  let y := y + 4 * n
  let d := d - 1461 * n
  let n := d / 365
  let n := n - n / 4
  let y := y + n
  let d := d - 365 * n
  (y, d)

/-- Year offsets `Y` for which `absoluteZeroYear + Y` is a leap year. -/
def leapOff (Y : Int) : Prop := (Y + 1) % 4 = 0 ∧ ((Y + 1) % 100 ≠ 0 ∨ (Y + 1) % 400 = 0)

/-- The second half of `absDate`: month and day of the month from the day of the year. -/
def monthDay (leap : Bool) (yday : Int) : Int × Int :=
  if leap ∧ yday = 31 + 29 - 1 then (2, 29)
  else
    let day := if leap ∧ yday > 31 + 29 - 1 then yday - 1 else yday
    let month := day.tdiv 31
    let endDay := daysBefore (month + 1)
    let mb : Int × Int := if day ≥ endDay then (month + 1, endDay) else (month, daysBefore month)
    (mb.1 + 1, day - mb.2 + 1)

/-- Length of month `m`, given whether the year is a leap year. -/
def monthLen (leap : Bool) (m : Int) : Int :=
  if m = 2 ∧ leap then 29 else daysBefore m - daysBefore (m - 1)

/-- Day of the year (counted from 0) of day `d` of month `m`. -/
def ydayOf (leap : Bool) (m d : Int) : Int :=
  daysBefore (m - 1) + (if leap ∧ m ≥ 3 then 1 else 0) + (d - 1)

/-- Unwrapped count of days from January 1 of `absoluteZeroYear` to the date. -/
def dayNumber (y m d : Int) : Int :=
  yearDays (y - absoluteZeroYear) + ydayOf (isLeap y) m d

end time

namespace date

/-- The date that `FromTime` reads from a value of the absolute seconds counter. -/
def ofAbs (a : Int) : Date := ⟨(time.absDate a).1, (time.absDate a).2.1, (time.absDate a).2.2.1⟩

/-- The roll-forward rule in the words of the specification: day `d` of month `m` of
year `y` if that month has such a day, else day `d - daysInMonth y m` of the month that
immediately follows. -/
def rollForward (y m d : Int) : Date :=
  if d ≤ daysInMonth y m then ⟨y, m, d⟩
  else if m = 12 then ⟨y + 1, 1, d - daysInMonth y m⟩
  else ⟨y, m + 1, d - daysInMonth y m⟩

/-- Years whose days the absolute seconds counter of `time.Time` holds. -/
def representable (y : Int) : Prop := time.minYear ≤ y ∧ y ≤ time.maxYear

instance (y : Int) : Decidable (representable y) := by unfold representable; infer_instance

/-- A decimal digit, as a byte. -/
def digitByte (c : Nat) : Prop := 48 ≤ c ∧ c ≤ 57

instance (c : Nat) : Decidable (digitByte c) := by unfold digitByte; infer_instance

/-- The fixed-width form `DDDD-DD-DD` in the words of the specification: text `s` is
exactly ten bytes, four digits, a hyphen, two digits, a hyphen and two digits, and `y`,
`m`, `d` are the values of its three fields. -/
def isoForm (s : List Nat) (y m d : Int) : Prop :=
  ∃ y1 y2 y3 y4 m1 m2 d1 d2 : Nat,
    digitByte y1 ∧ digitByte y2 ∧ digitByte y3 ∧ digitByte y4 ∧
    digitByte m1 ∧ digitByte m2 ∧ digitByte d1 ∧ digitByte d2 ∧
    s = [y1, y2, y3, y4, 45, m1, m2, 45, d1, d2] ∧
    y = 1000 * ((y1 : Int) - 48) + 100 * ((y2 : Int) - 48) + 10 * ((y3 : Int) - 48)
      + ((y4 : Int) - 48) ∧
    m = 10 * ((m1 : Int) - 48) + ((m2 : Int) - 48) ∧
    d = 10 * ((d1 : Int) - 48) + ((d2 : Int) - 48)

end date

namespace fmt

/-- The decimal expansion of a natural number as bytes, the most significant digit
first; the expansion of 0 is the one digit `0`. -/
def decimal (n : Nat) : List Nat :=
  if n = 0 then [48] else (Nat.digits 10 n).reverse.map (fun k => 48 + k)

/-- A text with zeros put in front until it has at least `w` bytes. -/
def zeroPad (w : Nat) (l : List Nat) : List Nat := List.replicate (w - l.length) 48 ++ l

end fmt

namespace time

/-- The unwrapped day count of 31 December of `maxYear`, the last day of the last year
that the absolute seconds counter holds completely. -/
def lastDay : Int := 213503982334288

end time

namespace date

/-- The number of days from the Monday of a week to the day with Go weekday `wd`
(Sunday 0, Monday 1, ..., Saturday 6): 6 for a Sunday, else the Monday-based index
minus 1. -/
def weekOffset (wd : Int) : Int := if wd = 0 then 6 else wd - 1

end date

/-- A text of decimal digits and hyphens. -/
def plainText (s : List Nat) : Prop := ∀ b ∈ s, b = 45 ∨ (48 ≤ b ∧ b ≤ 57)

instance (s : List Nat) : Decidable (plainText s) := by unfold plainText; infer_instance

/-- What is assumed of `encoding/json`: a text of digits and hyphens needs no escape, so
`json.Marshal` writes it between two double quotes, and `json.Unmarshal` reads such a
quoted text back into the string variable. -/
def Json.Lawful (j : Json) : Prop :=
  ∀ s : List Nat, plainText s →
    j.Marshal s = .ok ([34] ++ s ++ [34]) ∧ j.Unmarshal ([34] ++ s ++ [34]) = .ok s

/-- An implementation of the interface that is lawful.  It stands for `encoding/json` at
the concrete inputs of this development, which are texts of digits and hyphens:
`Marshal` puts the text between double quotes, and `Unmarshal` accepts exactly a text of
digits and hyphens between double quotes. -/
def Json.plain : Json where
  Marshal := fun s => .ok ([34] ++ s ++ [34])
  Unmarshal := fun data =>
    match data with
    | 34 :: rest =>
      if rest.getLast? = some 34 ∧ plainText rest.dropLast then .ok rest.dropLast
      else .error ()
    | _ => .error ()

/-- The order `<` of Go on strings: byte-wise lexicographic, a proper initial part of a
text being smaller than the text. -/
def bytesLt : List Nat → List Nat → Bool
  | _, [] => false
  | [], _ :: _ => true
  | a :: s, b :: t => a < b || (a == b && bytesLt s t)

/-! ## Lemmas: machine integers and the calendar computations of package `time` -/

namespace time

theorem tmod_zero_iff_emod (x k : Int) : x.tmod k = 0 ↔ x % k = 0 := by
  constructor
  · intro h; exact Int.emod_eq_zero_of_dvd (Int.dvd_of_tmod_eq_zero h)
  · intro h; exact Int.tmod_eq_zero_of_dvd (Int.dvd_of_emod_eq_zero h)

theorem isLeap_iff (y : Int) :
    isLeap y = true ↔ (y % 4 = 0 ∧ (y % 100 ≠ 0 ∨ y % 400 = 0)) := by
  unfold isLeap
  simp only [decide_eq_true_eq, ne_eq, tmod_zero_iff_emod]

theorem yearDays_digits (q c i k : Int) (hc : 0 ≤ c ∧ c ≤ 3) (hi : 0 ≤ i ∧ i ≤ 24)
    (hk : 0 ≤ k ∧ k ≤ 3) :
    yearDays (400 * q + 100 * c + 4 * i + k) = 146097 * q + 36524 * c + 1461 * i + 365 * k := by
  have h1 : (400 * q + 100 * c + 4 * i + k) / 400 = q := by omega
  have h2 : (400 * q + 100 * c + 4 * i + k) % 400 / 100 = c := by omega
  have h3 : (400 * q + 100 * c + 4 * i + k) % 100 / 4 = i := by omega
  have h4 : (400 * q + 100 * c + 4 * i + k) % 4 = k := by omega
  simp only [yearDays, h1, h2, h3, h4]

theorem leapOff_digits (q c i k : Int) (hc : 0 ≤ c ∧ c ≤ 3) (hi : 0 ≤ i ∧ i ≤ 24)
    (hk : 0 ≤ k ∧ k ≤ 3) :
    leapOff (400 * q + 100 * c + 4 * i + k) ↔ (k = 3 ∧ (i < 24 ∨ c = 3)) := by
  unfold leapOff
  omega

theorem digits_exist (Y : Int) :
    ∃ q c i k : Int, (0 ≤ c ∧ c ≤ 3) ∧ (0 ≤ i ∧ i ≤ 24) ∧ (0 ≤ k ∧ k ≤ 3) ∧
      Y = 400 * q + 100 * c + 4 * i + k :=
  ⟨Y / 400, Y % 400 / 100, Y % 100 / 4, Y % 4, by omega, by omega, by omega, by omega⟩

theorem cycleYear_digits (q c i k yd : Int) (hc : 0 ≤ c ∧ c ≤ 3) (hi : 0 ≤ i ∧ i ≤ 24)
    (hk : 0 ≤ k ∧ k ≤ 3) (h0 : 0 ≤ yd)
    (h1 : yd < 365 ∨ (yd = 365 ∧ k = 3 ∧ (i < 24 ∨ c = 3))) :
    cycleYear (146097 * q + 36524 * c + 1461 * i + 365 * k + yd)
      = (400 * q + 100 * c + 4 * i + k, yd) := by
  have e1 : (146097 * q + 36524 * c + 1461 * i + 365 * k + yd) / 146097 = q := by omega
  have e2 : (146097 * q + 36524 * c + 1461 * i + 365 * k + yd - 146097 * q) = 36524 * c + 1461 * i + 365 * k + yd := by omega
  have e3 : (36524 * c + 1461 * i + 365 * k + yd) / 36524 - (36524 * c + 1461 * i + 365 * k + yd) / 36524 / 4 = c := by
    by_cases hlast : c = 3 ∧ i = 24 ∧ k = 3 ∧ yd = 365
    · obtain ⟨rfl, rfl, rfl, rfl⟩ := hlast
      decide
    · have e3a : (36524 * c + 1461 * i + 365 * k + yd) / 36524 = c := by omega
      rw [e3a]; omega
  have e4 : (36524 * c + 1461 * i + 365 * k + yd - 36524 * c) = 1461 * i + 365 * k + yd := by omega
  have e5 : (1461 * i + 365 * k + yd) / 1461 = i := by omega
  have e6 : (1461 * i + 365 * k + yd - 1461 * i) = 365 * k + yd := by omega
  have e7 : (365 * k + yd) / 365 - (365 * k + yd) / 365 / 4 = k := by
    rcases h1 with h1 | h1
    · have e7a : (365 * k + yd) / 365 = k := by omega
      rw [e7a]; omega
    · have e7a : (365 * k + yd) / 365 = 4 := by omega
      rw [e7a]; omega
  have e8 : (365 * k + yd - 365 * k) = yd := by omega
  simp only [cycleYear, e1, e2, e3, e4, e5, e6, e7, e8]


theorem digits_of_days (N : Int) :
    ∃ q c i k yd : Int, (0 ≤ c ∧ c ≤ 3) ∧ (0 ≤ i ∧ i ≤ 24) ∧ (0 ≤ k ∧ k ≤ 3) ∧ 0 ≤ yd ∧
      (yd < 365 ∨ (yd = 365 ∧ k = 3 ∧ (i < 24 ∨ c = 3))) ∧
      N = 146097 * q + 36524 * c + 1461 * i + 365 * k + yd := by
  obtain ⟨c, r1, hc, hr1, hr1', hN1⟩ : ∃ c r1 : Int, (0 ≤ c ∧ c ≤ 3) ∧ 0 ≤ r1 ∧
      (r1 < 36524 ∨ (r1 = 36524 ∧ c = 3)) ∧ N % 146097 = 36524 * c + r1 := by
    by_cases h : N % 146097 ≥ 109572
    · exact ⟨3, N % 146097 - 109572, by omega, by omega, by omega, by omega⟩
    · exact ⟨N % 146097 / 36524, N % 146097 % 36524, by omega, by omega, by omega, by omega⟩
  obtain ⟨i, r2, hi, hr2, hr2', hN2⟩ : ∃ i r2 : Int, (0 ≤ i ∧ i ≤ 24) ∧ 0 ≤ r2 ∧
      (r2 < 1460 ∨ (r2 = 1460 ∧ (i < 24 ∨ c = 3))) ∧ r1 = 1461 * i + r2 := by
    by_cases h : r1 ≥ 35064
    · exact ⟨24, r1 - 35064, by omega, by omega, by omega, by omega⟩
    · exact ⟨r1 / 1461, r1 % 1461, by omega, by omega, by omega, by omega⟩
  obtain ⟨k, yd, hk, hyd, hyd', hN3⟩ : ∃ k yd : Int, (0 ≤ k ∧ k ≤ 3) ∧ 0 ≤ yd ∧
      (yd < 365 ∨ (yd = 365 ∧ k = 3 ∧ (i < 24 ∨ c = 3))) ∧ r2 = 365 * k + yd := by
    by_cases h : r2 ≥ 1095
    · exact ⟨3, r2 - 1095, by omega, by omega, by omega, by omega⟩
    · exact ⟨r2 / 365, r2 % 365, by omega, by omega, by omega, by omega⟩
  exact ⟨N / 146097, c, i, k, yd, hc, hi, hk, hyd, hyd', by omega⟩

theorem absDate_eq (a : Int) :
    absDate a =
      (wrap64 ((cycleYear (a / 86400)).1 + absoluteZeroYear),
       (monthDay (isLeap (wrap64 ((cycleYear (a / 86400)).1 + absoluteZeroYear)))
          (cycleYear (a / 86400)).2).1,
       (monthDay (isLeap (wrap64 ((cycleYear (a / 86400)).1 + absoluteZeroYear)))
          (cycleYear (a / 86400)).2).2,
       (cycleYear (a / 86400)).2) := by
  simp only [absDate, monthDay, cycleYear, secondsPerDay, daysPer400Years, daysPer100Years,
    daysPer4Years]
  split_ifs <;> rfl

theorem daysBefore_vals :
    daysBefore 0 = 0 ∧ daysBefore 1 = 31 ∧ daysBefore 2 = 59 ∧ daysBefore 3 = 90 ∧ daysBefore 4 = 120 ∧ daysBefore 5 = 151 ∧ daysBefore 6 = 181 ∧ daysBefore 7 = 212 ∧ daysBefore 8 = 243 ∧ daysBefore 9 = 273 ∧ daysBefore 10 = 304 ∧ daysBefore 11 = 334 ∧ daysBefore 12 = 365 := by
  decide

theorem month_estimate (day k : Int) (hk : 0 ≤ k ∧ k ≤ 11) (h1 : daysBefore k ≤ day)
    (h2 : day < daysBefore (k + 1)) :
    (if day ≥ daysBefore (day.tdiv 31 + 1) then (day.tdiv 31 + 1, daysBefore (day.tdiv 31 + 1))
      else (day.tdiv 31, daysBefore (day.tdiv 31))) = (k, daysBefore k) := by
  obtain ⟨hk1, hk2⟩ := hk
  obtain ⟨v0, v1, v2, v3, v4, v5, v6, v7, v8, v9, v10, v11, v12⟩ := daysBefore_vals
  have hb : 31 * k - 7 ≤ daysBefore k ∧ daysBefore (k + 1) ≤ 31 * (k + 1) ∧ 0 ≤ daysBefore k := by
    interval_cases k <;>
      simp only [Int.reduceAdd, v0, v1, v2, v3, v4, v5, v6, v7, v8, v9, v10, v11, v12] <;> omega
  rw [Int.tdiv_eq_ediv (by omega) (by decide)]
  have hq : day / 31 = k ∨ day / 31 = k - 1 := by omega
  rcases hq with hq | hq
  · rw [hq, if_neg (by omega)]
  · rw [hq, if_pos (by simp only [sub_add_cancel]; omega)]
    simp only [sub_add_cancel]

theorem ydayOf_bounds (leap : Bool) (m d : Int) (hm : 1 ≤ m ∧ m ≤ 12)
    (hd : 1 ≤ d ∧ d ≤ monthLen leap m) :
    (leap = true ∧ ydayOf leap m d = 59 ∧ m = 2 ∧ d = 29) ∨
    (¬ (leap = true ∧ ydayOf leap m d = 59) ∧
      daysBefore (m - 1) ≤ (if leap = true ∧ ydayOf leap m d > 59 then ydayOf leap m d - 1
        else ydayOf leap m d) ∧
      (if leap = true ∧ ydayOf leap m d > 59 then ydayOf leap m d - 1 else ydayOf leap m d)
        < daysBefore (m - 1 + 1) ∧
      (if leap = true ∧ ydayOf leap m d > 59 then ydayOf leap m d - 1 else ydayOf leap m d)
        - daysBefore (m - 1) + 1 = d) := by
  obtain ⟨hm1, hm2⟩ := hm
  obtain ⟨v0, v1, v2, v3, v4, v5, v6, v7, v8, v9, v10, v11, v12⟩ := daysBefore_vals
  cases leap <;> interval_cases m <;>
    simp [monthLen, ydayOf, v0, v1, v2, v3, v4, v5, v6, v7, v8, v9, v10, v11, v12] at hd ⊢ <;>
    omega

theorem monthDay_ydayOf (leap : Bool) (m d : Int) (hm : 1 ≤ m ∧ m ≤ 12)
    (hd : 1 ≤ d ∧ d ≤ monthLen leap m) : monthDay leap (ydayOf leap m d) = (m, d) := by
  unfold monthDay
  rcases ydayOf_bounds leap m d hm hd with ⟨hl, hy, rfl, rfl⟩ | ⟨hs, h1, h2, h3⟩
  · rw [if_pos ⟨hl, by rw [hy]; rfl⟩]
  · rw [if_neg (by simpa using hs)]
    have key := month_estimate _ (m - 1) (by omega) h1 h2
    simp only [Int.reduceAdd, Int.reduceSub] at key ⊢
    rw [key]
    simp only [sub_add_cancel, h3]

theorem ydayOf_surj (leap : Bool) (yd : Int) (h0 : 0 ≤ yd)
    (h1 : yd < 365 ∨ (yd = 365 ∧ leap = true)) :
    ∃ m d : Int, (1 ≤ m ∧ m ≤ 12) ∧ (1 ≤ d ∧ d ≤ monthLen leap m) ∧ ydayOf leap m d = yd := by
  obtain ⟨v0, v1, v2, v3, v4, v5, v6, v7, v8, v9, v10, v11, v12⟩ := daysBefore_vals
  cases leap
  · have h1 : yd < 365 := by simpa using h1
    have h : (0 ≤ yd ∧ yd < 31) ∨ (31 ≤ yd ∧ yd < 59) ∨ (59 ≤ yd ∧ yd < 90) ∨ (90 ≤ yd ∧ yd < 120) ∨ (120 ≤ yd ∧ yd < 151) ∨ (151 ≤ yd ∧ yd < 181) ∨ (181 ≤ yd ∧ yd < 212) ∨ (212 ≤ yd ∧ yd < 243) ∨ (243 ≤ yd ∧ yd < 273) ∨ (273 ≤ yd ∧ yd < 304) ∨ (304 ≤ yd ∧ yd < 334) ∨ (334 ≤ yd ∧ yd < 365) := by omega
    rcases h with h | h | h | h | h | h | h | h | h | h | h | h
    · exact ⟨1, yd - 0 + 1, by decide,
        by simp [monthLen, v0, v1, v2, v3, v4, v5, v6, v7, v8, v9, v10, v11, v12]; omega,
        by simp [ydayOf, v0, v1, v2, v3, v4, v5, v6, v7, v8, v9, v10, v11, v12]⟩
    · exact ⟨2, yd - 31 + 1, by decide,
        by simp [monthLen, v0, v1, v2, v3, v4, v5, v6, v7, v8, v9, v10, v11, v12]; omega,
        by simp [ydayOf, v0, v1, v2, v3, v4, v5, v6, v7, v8, v9, v10, v11, v12]⟩
    · exact ⟨3, yd - 59 + 1, by decide,
        by simp [monthLen, v0, v1, v2, v3, v4, v5, v6, v7, v8, v9, v10, v11, v12]; omega,
        by simp [ydayOf, v0, v1, v2, v3, v4, v5, v6, v7, v8, v9, v10, v11, v12]⟩
    · exact ⟨4, yd - 90 + 1, by decide,
        by simp [monthLen, v0, v1, v2, v3, v4, v5, v6, v7, v8, v9, v10, v11, v12]; omega,
        by simp [ydayOf, v0, v1, v2, v3, v4, v5, v6, v7, v8, v9, v10, v11, v12]⟩
    · exact ⟨5, yd - 120 + 1, by decide,
        by simp [monthLen, v0, v1, v2, v3, v4, v5, v6, v7, v8, v9, v10, v11, v12]; omega,
        by simp [ydayOf, v0, v1, v2, v3, v4, v5, v6, v7, v8, v9, v10, v11, v12]⟩
    · exact ⟨6, yd - 151 + 1, by decide,
        by simp [monthLen, v0, v1, v2, v3, v4, v5, v6, v7, v8, v9, v10, v11, v12]; omega,
        by simp [ydayOf, v0, v1, v2, v3, v4, v5, v6, v7, v8, v9, v10, v11, v12]⟩
    · exact ⟨7, yd - 181 + 1, by decide,
        by simp [monthLen, v0, v1, v2, v3, v4, v5, v6, v7, v8, v9, v10, v11, v12]; omega,
        by simp [ydayOf, v0, v1, v2, v3, v4, v5, v6, v7, v8, v9, v10, v11, v12]⟩
    · exact ⟨8, yd - 212 + 1, by decide,
        by simp [monthLen, v0, v1, v2, v3, v4, v5, v6, v7, v8, v9, v10, v11, v12]; omega,
        by simp [ydayOf, v0, v1, v2, v3, v4, v5, v6, v7, v8, v9, v10, v11, v12]⟩
    · exact ⟨9, yd - 243 + 1, by decide,
        by simp [monthLen, v0, v1, v2, v3, v4, v5, v6, v7, v8, v9, v10, v11, v12]; omega,
        by simp [ydayOf, v0, v1, v2, v3, v4, v5, v6, v7, v8, v9, v10, v11, v12]⟩
    · exact ⟨10, yd - 273 + 1, by decide,
        by simp [monthLen, v0, v1, v2, v3, v4, v5, v6, v7, v8, v9, v10, v11, v12]; omega,
        by simp [ydayOf, v0, v1, v2, v3, v4, v5, v6, v7, v8, v9, v10, v11, v12]⟩
    · exact ⟨11, yd - 304 + 1, by decide,
        by simp [monthLen, v0, v1, v2, v3, v4, v5, v6, v7, v8, v9, v10, v11, v12]; omega,
        by simp [ydayOf, v0, v1, v2, v3, v4, v5, v6, v7, v8, v9, v10, v11, v12]⟩
    · exact ⟨12, yd - 334 + 1, by decide,
        by simp [monthLen, v0, v1, v2, v3, v4, v5, v6, v7, v8, v9, v10, v11, v12]; omega,
        by simp [ydayOf, v0, v1, v2, v3, v4, v5, v6, v7, v8, v9, v10, v11, v12]⟩
  · have h1 : yd < 366 := by omega
    have h : (0 ≤ yd ∧ yd < 31) ∨ (31 ≤ yd ∧ yd < 60) ∨ (60 ≤ yd ∧ yd < 91) ∨ (91 ≤ yd ∧ yd < 121) ∨ (121 ≤ yd ∧ yd < 152) ∨ (152 ≤ yd ∧ yd < 182) ∨ (182 ≤ yd ∧ yd < 213) ∨ (213 ≤ yd ∧ yd < 244) ∨ (244 ≤ yd ∧ yd < 274) ∨ (274 ≤ yd ∧ yd < 305) ∨ (305 ≤ yd ∧ yd < 335) ∨ (335 ≤ yd ∧ yd < 366) := by omega
    rcases h with h | h | h | h | h | h | h | h | h | h | h | h
    · exact ⟨1, yd - 0 + 1, by decide,
        by simp [monthLen, v0, v1, v2, v3, v4, v5, v6, v7, v8, v9, v10, v11, v12]; omega,
        by simp [ydayOf, v0, v1, v2, v3, v4, v5, v6, v7, v8, v9, v10, v11, v12]⟩
    · exact ⟨2, yd - 31 + 1, by decide,
        by simp [monthLen, v0, v1, v2, v3, v4, v5, v6, v7, v8, v9, v10, v11, v12]; omega,
        by simp [ydayOf, v0, v1, v2, v3, v4, v5, v6, v7, v8, v9, v10, v11, v12]⟩
    · exact ⟨3, yd - 60 + 1, by decide,
        by simp [monthLen, v0, v1, v2, v3, v4, v5, v6, v7, v8, v9, v10, v11, v12]; omega,
        by simp [ydayOf, v0, v1, v2, v3, v4, v5, v6, v7, v8, v9, v10, v11, v12]⟩
    · exact ⟨4, yd - 91 + 1, by decide,
        by simp [monthLen, v0, v1, v2, v3, v4, v5, v6, v7, v8, v9, v10, v11, v12]; omega,
        by simp [ydayOf, v0, v1, v2, v3, v4, v5, v6, v7, v8, v9, v10, v11, v12]⟩
    · exact ⟨5, yd - 121 + 1, by decide,
        by simp [monthLen, v0, v1, v2, v3, v4, v5, v6, v7, v8, v9, v10, v11, v12]; omega,
        by simp [ydayOf, v0, v1, v2, v3, v4, v5, v6, v7, v8, v9, v10, v11, v12]⟩
    · exact ⟨6, yd - 152 + 1, by decide,
        by simp [monthLen, v0, v1, v2, v3, v4, v5, v6, v7, v8, v9, v10, v11, v12]; omega,
        by simp [ydayOf, v0, v1, v2, v3, v4, v5, v6, v7, v8, v9, v10, v11, v12]⟩
    · exact ⟨7, yd - 182 + 1, by decide,
        by simp [monthLen, v0, v1, v2, v3, v4, v5, v6, v7, v8, v9, v10, v11, v12]; omega,
        by simp [ydayOf, v0, v1, v2, v3, v4, v5, v6, v7, v8, v9, v10, v11, v12]⟩
    · exact ⟨8, yd - 213 + 1, by decide,
        by simp [monthLen, v0, v1, v2, v3, v4, v5, v6, v7, v8, v9, v10, v11, v12]; omega,
        by simp [ydayOf, v0, v1, v2, v3, v4, v5, v6, v7, v8, v9, v10, v11, v12]⟩
    · exact ⟨9, yd - 244 + 1, by decide,
        by simp [monthLen, v0, v1, v2, v3, v4, v5, v6, v7, v8, v9, v10, v11, v12]; omega,
        by simp [ydayOf, v0, v1, v2, v3, v4, v5, v6, v7, v8, v9, v10, v11, v12]⟩
    · exact ⟨10, yd - 274 + 1, by decide,
        by simp [monthLen, v0, v1, v2, v3, v4, v5, v6, v7, v8, v9, v10, v11, v12]; omega,
        by simp [ydayOf, v0, v1, v2, v3, v4, v5, v6, v7, v8, v9, v10, v11, v12]⟩
    · exact ⟨11, yd - 305 + 1, by decide,
        by simp [monthLen, v0, v1, v2, v3, v4, v5, v6, v7, v8, v9, v10, v11, v12]; omega,
        by simp [ydayOf, v0, v1, v2, v3, v4, v5, v6, v7, v8, v9, v10, v11, v12]⟩
    · exact ⟨12, yd - 335 + 1, by decide,
        by simp [monthLen, v0, v1, v2, v3, v4, v5, v6, v7, v8, v9, v10, v11, v12]; omega,
        by simp [ydayOf, v0, v1, v2, v3, v4, v5, v6, v7, v8, v9, v10, v11, v12]⟩

theorem ydayOf_range (leap : Bool) (m d : Int) (hm : 1 ≤ m ∧ m ≤ 12)
    (hd : 1 ≤ d ∧ d ≤ monthLen leap m) :
    0 ≤ ydayOf leap m d ∧ (ydayOf leap m d < 365 ∨ (ydayOf leap m d = 365 ∧ leap = true)) := by
  obtain ⟨hm1, hm2⟩ := hm
  obtain ⟨v0, v1, v2, v3, v4, v5, v6, v7, v8, v9, v10, v11, v12⟩ := daysBefore_vals
  cases leap <;> interval_cases m <;>
    simp [monthLen, ydayOf, v0, v1, v2, v3, v4, v5, v6, v7, v8, v9, v10, v11, v12] at hd ⊢ <;>
    omega

theorem isLeap_leapOff (y : Int) : isLeap y = true ↔ leapOff (y - absoluteZeroYear) := by
  rw [isLeap_iff]
  unfold leapOff absoluteZeroYear
  omega

/-- The first half of `absDate` inverts the unwrapped day count of a year. -/
theorem cycleYear_yearDays (Y yd : Int) (h0 : 0 ≤ yd)
    (h1 : yd < 365 ∨ (yd = 365 ∧ leapOff Y)) : cycleYear (yearDays Y + yd) = (Y, yd) := by
  obtain ⟨q, c, i, k, hc, hi, hk, rfl⟩ := digits_exist Y
  rw [yearDays_digits q c i k hc hi hk]
  rw [leapOff_digits q c i k hc hi hk] at h1
  exact cycleYear_digits q c i k yd hc hi hk h0 h1

/-- Every day count is the unwrapped count of a day of some year. -/
theorem cycleYear_spec (N : Int) :
    ∃ Y yd : Int, cycleYear N = (Y, yd) ∧ N = yearDays Y + yd ∧ 0 ≤ yd ∧
      (yd < 365 ∨ (yd = 365 ∧ leapOff Y)) ∧ 400 * (N / 146097) ≤ Y ∧
      Y ≤ 400 * (N / 146097) + 399 := by
  obtain ⟨q, c, i, k, yd, hc, hi, hk, h0, h1, rfl⟩ := digits_of_days N
  refine ⟨400 * q + 100 * c + 4 * i + k, yd, cycleYear_digits q c i k yd hc hi hk h0 h1, ?_, h0,
    ?_, ?_, ?_⟩
  · rw [yearDays_digits q c i k hc hi hk]
  · rw [leapOff_digits q c i k hc hi hk]; exact h1
  · have : (146097 * q + 36524 * c + 1461 * i + 365 * k + yd) / 146097 = q := by omega
    rw [this]; omega
  · have : (146097 * q + 36524 * c + 1461 * i + 365 * k + yd) / 146097 = q := by omega
    rw [this]; omega

theorem yearDays_lower (Y : Int) (h : 584554049254 ≤ Y) : 213503982334654 ≤ yearDays Y := by
  unfold yearDays
  omega

theorem yearDays_upper (Y : Int) (h : Y ≤ 584554049252) : yearDays Y ≤ 213503982333924 := by
  unfold yearDays
  omega

theorem yearDays_nonneg (Y : Int) (h : 0 ≤ Y) : 0 ≤ yearDays Y := by
  unfold yearDays
  omega

theorem wrap64_of_isInt64 (x : Int) (h : isInt64 x) : wrap64 x = x := by
  unfold isInt64 at h
  unfold wrap64
  omega

theorem u64_of_range (x : Int) (h0 : 0 ≤ x) (h1 : x < 18446744073709551616) : u64 x = x := by
  unfold u64
  omega

theorem u64_range (x : Int) : 0 ≤ u64 x ∧ u64 x < 18446744073709551616 := by
  unfold u64
  omega

theorem u64_add_left (a b : Int) : u64 (u64 a + b) = u64 (a + b) := by
  unfold u64
  exact Int.emod_add_emod a _ b

theorem u64_mul_left (a b : Int) : u64 (u64 a * b) = u64 (a * b) := by
  unfold u64
  rw [Int.mul_emod, Int.emod_emod, ← Int.mul_emod]

/-- Function `absDate` returns, for every value of the absolute seconds counter, a
calendar date, and that date has the day count it was computed from. -/
theorem absDate_spec (a : Int) (h0 : 0 ≤ a) (h1 : a < 18446744073709551616) :
    ∃ y m d : Int, absDate a = (y, m, d, ydayOf (isLeap y) m d) ∧
      (minYear ≤ y ∧ y ≤ maxYear + 1) ∧ (1 ≤ m ∧ m ≤ 12) ∧
      (1 ≤ d ∧ d ≤ monthLen (isLeap y) m) ∧ dayNumber y m d = a / 86400 := by
  obtain ⟨Y, yd, hc, hN, hyd0, hyd1, hY0, hY1⟩ := cycleYear_spec (a / 86400)
  have hw : wrap64 (Y + absoluteZeroYear) = Y + absoluteZeroYear := by
    apply wrap64_of_isInt64
    unfold isInt64 absoluteZeroYear
    omega
  have hleap : isLeap (Y + absoluteZeroYear) = true ↔ leapOff Y := by
    rw [isLeap_leapOff]; simp
  obtain ⟨m, d, hm, hd, hyd⟩ := ydayOf_surj (isLeap (Y + absoluteZeroYear)) yd hyd0
    (by rcases hyd1 with h | ⟨h, h'⟩
        · exact Or.inl h
        · exact Or.inr ⟨h, hleap.mpr h'⟩)
  refine ⟨Y + absoluteZeroYear, m, d, ?_, ?_, hm, hd, ?_⟩
  · rw [absDate_eq, hc, hw]
    simp only []
    rw [← hyd, monthDay_ydayOf _ m d hm hd]
  · have hYmax : Y < 584554049254 := by
      by_contra hcon
      have := yearDays_lower Y (by omega)
      omega
    unfold minYear maxYear absoluteZeroYear
    omega
  · unfold dayNumber
    rw [hyd, hN]; simp

/-- Function `absDate` inverts the unwrapped day count of a calendar date. -/
theorem absDate_dayNumber (y m d s : Int) (hy : isInt64 y) (hm : 1 ≤ m ∧ m ≤ 12)
    (hd : 1 ≤ d ∧ d ≤ monthLen (isLeap y) m) (hs : 0 ≤ s ∧ s < 86400) :
    absDate (86400 * dayNumber y m d + s) = (y, m, d, ydayOf (isLeap y) m d) := by
  have hq : (86400 * dayNumber y m d + s) / 86400 = dayNumber y m d := by omega
  obtain ⟨hr0, hr1⟩ := ydayOf_range (isLeap y) m d hm hd
  have hc : cycleYear (dayNumber y m d) = (y - absoluteZeroYear, ydayOf (isLeap y) m d) := by
    unfold dayNumber
    apply cycleYear_yearDays _ _ hr0
    rcases hr1 with h | ⟨h, h'⟩
    · exact Or.inl h
    · exact Or.inr ⟨h, (isLeap_leapOff y).mp h'⟩
  rw [absDate_eq, hq, hc]
  simp only [sub_add_cancel]
  rw [wrap64_of_isInt64 y hy, monthDay_ydayOf _ m d hm hd]

theorem tdiv_of_nonneg (x k : Int) (hx : 0 ≤ x) (hk : 0 ≤ k) : x.tdiv k = x / k :=
  Int.tdiv_eq_ediv hx hk

theorem norm_id (hi lo base : Int) (h0 : 0 ≤ lo) (h1 : lo < base) : norm hi lo base = (hi, lo) := by
  have hn : ¬ lo < 0 := by omega
  have hb : ¬ lo ≥ base := by omega
  simp only [norm, hn, hb, if_false]

/-- Without overflow `norm` is floor division of the month count by 12. -/
theorem norm_12 (hi lo : Int)
    (hhi : -4611686018427387904 ≤ hi ∧ hi ≤ 4611686018427387904)
    (hlo : -4611686018427387904 ≤ lo ∧ lo ≤ 4611686018427387904) :
    norm hi lo 12 = (hi + lo / 12, lo % 12) := by
  unfold norm
  by_cases hneg : lo < 0
  · rw [if_pos hneg]
    have e1 : wrap64 (-lo - 1) = -lo - 1 := wrap64_of_isInt64 _ (by unfold isInt64; omega)
    have e2 : (-lo - 1).tdiv 12 = (-lo - 1) / 12 := tdiv_of_nonneg _ _ (by omega) (by decide)
    have e3 : wrap64 ((-lo - 1) / 12 + 1) = (-lo - 1) / 12 + 1 :=
      wrap64_of_isInt64 _ (by unfold isInt64; omega)
    have e4 : wrap64 (hi - ((-lo - 1) / 12 + 1)) = hi + lo / 12 := by
      rw [wrap64_of_isInt64 _ (by unfold isInt64; omega)]; omega
    have e5 : wrap64 (lo + ((-lo - 1) / 12 + 1) * 12) = lo % 12 := by
      rw [wrap64_of_isInt64 _ (by unfold isInt64; omega)]; omega
    simp only [e1, e2, e3, e4, e5]
    rw [if_neg (by omega)]
  · rw [if_neg hneg]
    simp only []
    by_cases hge : lo ≥ 12
    · rw [if_pos hge]
      have e2 : lo.tdiv 12 = lo / 12 := tdiv_of_nonneg _ _ (by omega) (by decide)
      have e4 : wrap64 (hi + lo / 12) = hi + lo / 12 :=
        wrap64_of_isInt64 _ (by unfold isInt64; omega)
      have e5 : wrap64 (lo - lo / 12 * 12) = lo % 12 := by
        rw [wrap64_of_isInt64 _ (by unfold isInt64; omega)]; omega
      simp only [e2, e4, e5]
    · rw [if_neg hge]
      have e1 : lo / 12 = 0 := by omega
      have e2 : lo % 12 = lo := by omega
      rw [e1, e2]; simp

theorem abs_unixTime (A ns : Int) (h0 : 0 ≤ A) (h1 : A < 18446744073709551616) :
    (unixTime (wrap64 (A + (absoluteToInternal + internalToUnix))) ns).abs = A := by
  unfold unixTime Time.abs wrap64 u64 absoluteToInternal internalToUnix unixToInternal
    internalToAbsolute
  simp only []
  omega

theorem daysSinceEpoch_eq (y : Int) (h0 : minYear ≤ y) (h1 : y ≤ 4611686018427387904) :
    daysSinceEpoch y = u64 (yearDays (y - absoluteZeroYear)) := by
  have e : u64 (y - absoluteZeroYear) = y - absoluteZeroYear := by
    apply u64_of_range <;> (unfold minYear at h0; unfold absoluteZeroYear; omega)
  unfold daysSinceEpoch
  simp only [e, u64_add_left]
  unfold yearDays daysPer400Years daysPer100Years daysPer4Years
  generalize y - absoluteZeroYear = Y
  congr 1
  omega

/-- The absolute seconds counter of the instant that `time.Date` builds, when the
month normalisation yields year `Y` and month `M` and the clock fields are in range. -/
theorem abs_Date (year month day hour min sec nsec Y M : Int)
    (hn : norm year (wrap64 (month - 1)) 12 = (Y, M - 1))
    (hM : 1 ≤ M ∧ M ≤ 12) (hY : minYear ≤ Y ∧ Y ≤ 4611686018427387904)
    (hh : 0 ≤ hour ∧ hour < 24) (hmi : 0 ≤ min ∧ min < 60) (hs : 0 ≤ sec ∧ sec < 60)
    (hns : 0 ≤ nsec ∧ nsec < 1000000000) :
    (time.Date year month day hour min sec nsec).abs =
      u64 (86400 * dayNumber Y M day + (hour * 3600 + min * 60 + sec)) := by
  have eM : wrap64 (M - 1 + 1) = M := by
    rw [wrap64_of_isInt64 _ (by unfold isInt64; omega)]; omega
  unfold time.Date
  simp only [hn, norm_id sec nsec 1000000000 hns.1 hns.2, norm_id min sec 60 hs.1 hs.2,
    norm_id hour min 60 hmi.1 hmi.2, norm_id day hour 24 hh.1 hh.2, eM,
    daysSinceEpoch_eq Y hY.1 hY.2]
  rw [abs_unixTime _ _ (u64_range _).1 (u64_range _).2]
  unfold dayNumber ydayOf secondsPerDay secondsPerHour secondsPerMinute
  split_ifs <;> simp only [u64_add_left, u64_mul_left] <;> congr 1 <;> ring

theorem dayNumber_bounds (y m d : Int) (hy : minYear ≤ y ∧ y ≤ maxYear) (hm : 1 ≤ m ∧ m ≤ 12)
    (hd : 1 ≤ d ∧ d ≤ 31) :
    0 ≤ dayNumber y m d ∧ 86400 * dayNumber y m d + 86399 < 18446744073709551616 := by
  obtain ⟨hm1, hm2⟩ := hm
  obtain ⟨v0, v1, v2, v3, v4, v5, v6, v7, v8, v9, v10, v11, v12⟩ := daysBefore_vals
  have h1 := yearDays_upper (y - absoluteZeroYear)
    (by unfold maxYear at hy; unfold absoluteZeroYear; omega)
  have h2 := yearDays_nonneg (y - absoluteZeroYear)
    (by unfold minYear at hy; unfold absoluteZeroYear; omega)
  have h3 : 0 ≤ ydayOf (isLeap y) m d ∧ ydayOf (isLeap y) m d ≤ 365 := by
    unfold ydayOf
    interval_cases m <;>
      simp only [Int.reduceSub, v0, v1, v2, v3, v4, v5, v6, v7, v8, v9, v10, v11, v12] <;>
      split_ifs <;> omega
  unfold dayNumber
  omega

end time

namespace date

theorem isLeapYear_eq_isLeap (y : Int) : isLeapYear y = time.isLeap y := by
  have h : isLeapYear y = true ↔ time.isLeap y = true := by
    rw [time.isLeap_iff]
    unfold isLeapYear
    simp only [time.tmod_zero_iff_emod]
    split_ifs <;> simp <;> omega
  cases h1 : isLeapYear y <;> cases h2 : time.isLeap y <;> simp_all

theorem daysInMonth_eq_monthLen (y m : Int) (hm : 1 ≤ m ∧ m ≤ 12) :
    daysInMonth y m = time.monthLen (time.isLeap y) m := by
  obtain ⟨hm1, hm2⟩ := hm
  unfold daysInMonth time.monthLen
  rw [isLeapYear_eq_isLeap]
  interval_cases m <;> rfl

theorem monthDays_vals :
    monthDays 1 = 31 ∧ monthDays 2 = 28 ∧ monthDays 3 = 31 ∧ monthDays 4 = 30 ∧
    monthDays 5 = 31 ∧ monthDays 6 = 30 ∧ monthDays 7 = 31 ∧ monthDays 8 = 31 ∧
    monthDays 9 = 30 ∧ monthDays 10 = 31 ∧ monthDays 11 = 30 ∧ monthDays 12 = 31 := by
  decide

theorem daysInMonth_le (y m : Int) (hm : 1 ≤ m ∧ m ≤ 12) :
    28 ≤ daysInMonth y m ∧ daysInMonth y m ≤ 31 := by
  obtain ⟨hm1, hm2⟩ := hm
  obtain ⟨w1, w2, w3, w4, w5, w6, w7, w8, w9, w10, w11, w12⟩ := monthDays_vals
  unfold daysInMonth
  interval_cases m <;> split_ifs <;>
    (try simp only [w1, w2, w3, w4, w5, w6, w7, w8, w9, w10, w11, w12]) <;> omega

/-- Whatever instant it is given, `FromTime` returns a calendar date. -/
theorem FromTime_valid (t : time.Time) : (FromTime t).Valid := by
  obtain ⟨y, m, d, he, -, hm, hd, -⟩ :=
    time.absDate_spec t.abs (time.u64_range _).1 (time.u64_range _).2
  unfold Date.Valid FromTime time.Time.Date
  simp only [he]
  rw [daysInMonth_eq_monthLen y m hm]
  omega

/-- The instant of a calendar date of a representable year: its counter, date and clock. -/
theorem Time_of_valid (d : Date) (hv : d.Valid)
    (hy : time.minYear ≤ d.Year ∧ d.Year ≤ time.maxYear) :
    d.Time.abs = 86400 * time.dayNumber d.Year d.Month d.Day ∧
    d.Time.Date = (d.Year, d.Month, d.Day) ∧ d.Time.Clock = (0, 0, 0) ∧ d.Time.nsec = 0 := by
  obtain ⟨hm1, hm2, hd1, hd2⟩ := hv
  have hd31 := (daysInMonth_le d.Year d.Month ⟨hm1, hm2⟩).2
  obtain ⟨hb0, hb1⟩ := time.dayNumber_bounds d.Year d.Month d.Day hy ⟨hm1, hm2⟩ ⟨hd1, by omega⟩
  have hn : time.norm d.Year (wrap64 (d.Month - 1)) 12 = (d.Year, d.Month - 1) := by
    rw [time.wrap64_of_isInt64 _ (by unfold isInt64; omega)]
    exact time.norm_id _ _ _ (by omega) (by omega)
  have habs : d.Time.abs = 86400 * time.dayNumber d.Year d.Month d.Day := by
    unfold Date.Time startOfDay
    rw [time.abs_Date d.Year d.Month d.Day 0 0 0 0 d.Year d.Month hn ⟨hm1, hm2⟩
      ⟨hy.1, by unfold time.maxYear at hy; omega⟩ (by decide) (by decide) (by decide) (by decide)]
    rw [time.u64_of_range _ (by omega) (by omega)]
    omega
  refine ⟨habs, ?_, ?_, ?_⟩
  · unfold time.Time.Date
    rw [habs]
    have := time.absDate_dayNumber d.Year d.Month d.Day 0
      (by unfold isInt64; unfold time.minYear time.maxYear at hy; omega) ⟨hm1, hm2⟩
      ⟨hd1, by rw [← daysInMonth_eq_monthLen _ _ ⟨hm1, hm2⟩]; exact hd2⟩ (by decide)
    rw [add_zero] at this
    rw [this]
  · unfold time.Time.Clock time.absClock time.secondsPerDay
    rw [habs]
    have : 86400 * time.dayNumber d.Year d.Month d.Day % 86400 = 0 := by omega
    rw [this]
    rfl
  · rfl

/-- On a calendar date of a representable year `add` is one call of `time.Date` with
the deltas added to the fields. -/
theorem add_eq (d : Date) (years months days : Int) (hv : d.Valid)
    (hy : time.minYear ≤ d.Year ∧ d.Year ≤ time.maxYear) :
    d.add years months days =
      FromTime (time.Date (wrap64 (d.Year + years)) (wrap64 (d.Month + months))
        (wrap64 (d.Day + days)) 0 0 0 0) := by
  obtain ⟨-, h2, h3, h4⟩ := Time_of_valid d hv hy
  unfold Date.add time.Time.AddDate
  simp only [h2, h3, h4]

theorem FromTime_eq_ofAbs (t : time.Time) : FromTime t = ofAbs t.abs := rfl

theorem u64_mul_wrap64 (a e : Int) : u64 (a + 86400 * wrap64 e) = u64 (a + 86400 * e) := by
  unfold u64 wrap64
  omega

theorem ydayOf_rollover (leap : Bool) (m D : Int) (hm : 1 ≤ m ∧ m ≤ 11) :
    time.ydayOf leap (m + 1) (D - time.monthLen leap m) = time.ydayOf leap m D := by
  obtain ⟨hm1, hm2⟩ := hm
  obtain ⟨v0, v1, v2, v3, v4, v5, v6, v7, v8, v9, v10, v11, v12⟩ := time.daysBefore_vals
  cases leap <;> interval_cases m <;>
    simp [time.monthLen, time.ydayOf, v0, v1, v2, v3, v4, v5, v6, v7, v8, v9, v10, v11, v12] <;>
    omega

/-- Reading back the day count of day `D` (1..31) of a month gives the date of the
roll-forward rule. -/
theorem ofAbs_dayNumber (Y M D : Int) (hY : representable Y) (hM : 1 ≤ M ∧ M ≤ 12)
    (hD : 1 ≤ D ∧ D ≤ 31) :
    ofAbs (86400 * time.dayNumber Y M D) = rollForward Y M D := by
  have hYi : isInt64 Y := by
    unfold representable time.minYear time.maxYear at hY; unfold isInt64; omega
  have hlen := daysInMonth_eq_monthLen Y M hM
  have hle := daysInMonth_le Y M hM
  unfold rollForward
  by_cases h : D ≤ daysInMonth Y M
  · rw [if_pos h]
    have := time.absDate_dayNumber Y M D 0 hYi hM ⟨hD.1, by rw [← hlen]; exact h⟩ (by decide)
    rw [add_zero] at this
    unfold ofAbs
    rw [this]
  · rw [if_neg h]
    have hM12 : M ≠ 12 := by
      rintro rfl
      have : daysInMonth Y 12 = 31 := by unfold daysInMonth; rfl
      omega
    rw [if_neg hM12]
    have hM' : 1 ≤ M + 1 ∧ M + 1 ≤ 12 := by omega
    have hle' := daysInMonth_le Y (M + 1) hM'
    have hlen' := daysInMonth_eq_monthLen Y (M + 1) hM'
    have hday : time.dayNumber Y M D = time.dayNumber Y (M + 1) (D - daysInMonth Y M) := by
      unfold time.dayNumber
      rw [hlen, ydayOf_rollover _ M D (by omega)]
    have := time.absDate_dayNumber Y (M + 1) (D - daysInMonth Y M) 0 hYi hM'
      ⟨by omega, by rw [← hlen']; omega⟩ (by decide)
    rw [add_zero, ← hday] at this
    unfold ofAbs
    rw [this]

/-- The counter value from which `add` reads its result, for a calendar date and deltas
that keep the years representable. -/
theorem add_abs (d : Date) (years months days : Int) (hv : d.Valid)
    (hy : representable d.Year) (hyy : representable (d.Year + years))
    (hY : representable (d.Year + years + (d.Month - 1 + months) / 12)) :
    d.add years months days =
      ofAbs (u64 (86400 * (time.dayNumber (d.Year + years + (d.Month - 1 + months) / 12)
        ((d.Month - 1 + months) % 12 + 1) d.Day + days))) := by
  obtain ⟨hm1, hm2, hd1, hd2⟩ := hv
  unfold representable time.minYear time.maxYear at hy hyy hY
  have e1 : wrap64 (d.Year + years) = d.Year + years :=
    time.wrap64_of_isInt64 _ (by unfold isInt64; omega)
  have e2 : wrap64 (d.Month + months) = d.Month + months :=
    time.wrap64_of_isInt64 _ (by unfold isInt64; omega)
  have e3 : wrap64 (d.Month + months - 1) = d.Month - 1 + months := by
    rw [time.wrap64_of_isInt64 _ (by unfold isInt64; omega)]; omega
  have hn : time.norm (wrap64 (d.Year + years)) (wrap64 (wrap64 (d.Month + months) - 1)) 12 =
      (d.Year + years + (d.Month - 1 + months) / 12, (d.Month - 1 + months) % 12 + 1 - 1) := by
    rw [e1, e2, e3, time.norm_12 _ _ (by omega) (by omega)]
    simp
  rw [add_eq d years months days ⟨hm1, hm2, hd1, hd2⟩
    (by unfold time.minYear time.maxYear; exact hy), FromTime_eq_ofAbs,
    time.abs_Date _ _ _ 0 0 0 0 _ _ hn (by omega) (by unfold time.minYear; omega)
      (by decide) (by decide) (by decide) (by decide)]
  congr 1
  have e4 : ∀ Y M x : Int, time.dayNumber Y M x = time.dayNumber Y M d.Day + (x - d.Day) := by
    intro Y M x
    unfold time.dayNumber time.ydayOf
    ring
  rw [e4 _ _ (wrap64 (d.Day + days))]
  have e5 := u64_mul_wrap64 (86400 * (time.dayNumber (d.Year + years + (d.Month - 1 + months) / 12)
        ((d.Month - 1 + months) % 12 + 1) d.Day - d.Day)) (d.Day + days)
  have l : 86400 * (time.dayNumber (d.Year + years + (d.Month - 1 + months) / 12)
        ((d.Month - 1 + months) % 12 + 1) d.Day + (wrap64 (d.Day + days) - d.Day)) + (0 * 3600 + 0 * 60 + 0)
      = 86400 * (time.dayNumber (d.Year + years + (d.Month - 1 + months) / 12)
        ((d.Month - 1 + months) % 12 + 1) d.Day - d.Day) + 86400 * wrap64 (d.Day + days) := by
    ring
  have r : 86400 * (time.dayNumber (d.Year + years + (d.Month - 1 + months) / 12)
        ((d.Month - 1 + months) % 12 + 1) d.Day + days)
      = 86400 * (time.dayNumber (d.Year + years + (d.Month - 1 + months) / 12)
        ((d.Month - 1 + months) % 12 + 1) d.Day - d.Day) + 86400 * (d.Day + days) := by
    ring
  rw [l, r, e5]

theorem rollForward_props (Y M D : Int) (hM : 1 ≤ M ∧ M ≤ 12)
    (hD : 1 ≤ D ∧ D ≤ 31) :
    (rollForward Y M D).Valid ∧ (rollForward Y M D).Year = Y ∧
    time.dayNumber (rollForward Y M D).Year (rollForward Y M D).Month (rollForward Y M D).Day =
      time.dayNumber Y M D := by
  have hlen := daysInMonth_eq_monthLen Y M hM
  have hle := daysInMonth_le Y M hM
  unfold rollForward
  by_cases h : D ≤ daysInMonth Y M
  · rw [if_pos h]
    exact ⟨⟨hM.1, hM.2, hD.1, h⟩, rfl, rfl⟩
  · rw [if_neg h]
    have hM12 : M ≠ 12 := by
      rintro rfl
      have : daysInMonth Y 12 = 31 := by unfold daysInMonth; rfl
      omega
    rw [if_neg hM12]
    have hM' : 1 ≤ M + 1 ∧ M + 1 ≤ 12 := by omega
    have hle' := daysInMonth_le Y (M + 1) hM'
    refine ⟨⟨hM'.1, hM'.2, ?_, ?_⟩, rfl, ?_⟩
    · show 1 ≤ D - daysInMonth Y M
      omega
    · show D - daysInMonth Y M ≤ daysInMonth Y (M + 1)
      omega
    · show time.dayNumber Y (M + 1) (D - daysInMonth Y M) = time.dayNumber Y M D
      unfold time.dayNumber
      rw [hlen, ydayOf_rollover _ M D (by omega)]

/-- Adding years and months to a calendar date follows the roll-forward rule. -/
theorem add_ym (d : Date) (years months : Int) (hv : d.Valid)
    (hy : representable d.Year) (hyy : representable (d.Year + years))
    (hY : representable (d.Year + years + (d.Month - 1 + months) / 12)) :
    d.add years months 0 =
      rollForward (d.Year + years + (d.Month - 1 + months) / 12)
        ((d.Month - 1 + months) % 12 + 1) d.Day := by
  have hM : 1 ≤ (d.Month - 1 + months) % 12 + 1 ∧ (d.Month - 1 + months) % 12 + 1 ≤ 12 := by
    omega
  have hD : 1 ≤ d.Day ∧ d.Day ≤ 31 := by
    have := daysInMonth_le d.Year d.Month ⟨hv.1, hv.2.1⟩
    exact ⟨hv.2.2.1, by have := hv.2.2.2; omega⟩
  obtain ⟨hb0, hb1⟩ := time.dayNumber_bounds _ _ _ hY hM hD
  rw [add_abs d years months 0 hv hy hyy hY, add_zero, time.u64_of_range _ (by omega) (by omega)]
  exact ofAbs_dayNumber _ _ _ hY hM hD

/-- The day delta is counted on top of the rolled-over year and month result. -/
theorem add_days (d : Date) (years months days : Int) (hv : d.Valid)
    (hy : representable d.Year) (hyy : representable (d.Year + years))
    (hY : representable (d.Year + years + (d.Month - 1 + months) / 12)) :
    d.add years months days = (d.add years months 0).AddDays days := by
  have hM : 1 ≤ (d.Month - 1 + months) % 12 + 1 ∧ (d.Month - 1 + months) % 12 + 1 ≤ 12 := by
    omega
  have hD : 1 ≤ d.Day ∧ d.Day ≤ 31 := by
    have := daysInMonth_le d.Year d.Month ⟨hv.1, hv.2.1⟩
    exact ⟨hv.2.2.1, by have := hv.2.2.2; omega⟩
  obtain ⟨hrv, hry, hrn⟩ := rollForward_props _ _ _ hM hD
  rw [add_ym d years months hv hy hyy hY]
  generalize rollForward (d.Year + years + (d.Month - 1 + months) / 12)
        ((d.Month - 1 + months) % 12 + 1) d.Day = r at hrv hry hrn
  have e1 : r.Year + 0 + (r.Month - 1 + 0) / 12 = r.Year := by
    have := hrv.1; have := hrv.2.1; omega
  have e2 : (r.Month - 1 + 0) % 12 + 1 = r.Month := by
    have := hrv.1; have := hrv.2.1; omega
  have hr : representable r.Year := by rw [hry]; exact hY
  unfold Date.AddDays
  rw [add_abs d years months days hv hy hyy hY,
    add_abs r 0 0 days hrv hr (by rw [add_zero]; exact hr) (by rw [e1]; exact hr), e1, e2, hrn]

end date

namespace time

theorem skip_dash (v w : List Nat) : skip v [45] = .ok w ↔ v = 45 :: w := by
  cases v with
  | nil => simp [skip]
  | cons a v =>
    by_cases h : a = 45
    · subst h; simp [skip]
    · simp [skip, h]

theorem getnum_cons (a b : Nat) (v : List Nat) :
    getnum (a :: b :: v) true =
      if (48 ≤ a ∧ a ≤ 57) ∧ (48 ≤ b ∧ b ≤ 57) then
        .ok (((a : Int) - 48) * 10 + ((b : Int) - 48), v)
      else .error () := by
  by_cases ha : 48 ≤ a ∧ a ≤ 57 <;> by_cases hb : 48 ≤ b ∧ b ≤ 57 <;>
    simp [getnum, isDigit, ha, hb]

theorem getnum_short (v : List Nat) (h : v.length < 2) : getnum v true = .error () := by
  rcases v with _ | ⟨a, _ | ⟨b, v⟩⟩
  · simp [getnum, isDigit]
  · by_cases ha : 48 ≤ a ∧ a ≤ 57 <;> simp [getnum, isDigit, ha]
  · simp only [List.length_cons] at h
    omega

theorem getnum_fixed (v w : List Nat) (n : Int) :
    getnum v true = .ok (n, w) ↔
      ∃ a b : Nat, (48 ≤ a ∧ a ≤ 57) ∧ (48 ≤ b ∧ b ≤ 57) ∧ v = a :: b :: w ∧
        n = ((a : Int) - 48) * 10 + ((b : Int) - 48) := by
  constructor
  · intro h
    rcases v with _ | ⟨a, _ | ⟨b, v⟩⟩
    · rw [getnum_short _ (by simp)] at h; cases h
    · rw [getnum_short _ (by simp)] at h; cases h
    · rw [getnum_cons] at h
      split_ifs at h with hd
      · injection h with h
        injection h with h1 h2
        exact ⟨a, b, hd.1, hd.2, by rw [h2], h1.symm⟩
  · rintro ⟨a, b, ha, hb, rfl, rfl⟩
    rw [getnum_cons, if_pos ⟨ha, hb⟩]

theorem leadingInt_digit (c : Nat) (s : List Nat) (x : Int) (hc : 48 ≤ c ∧ c ≤ 57)
    (hx : 0 ≤ x ∧ x ≤ 999) :
    leadingInt (c :: s) x = leadingInt s (x * 10 + ((c : Int) - 48)) := by
  have h1 : ¬ (c < 48 ∨ c > 57) := by omega
  have h2 : ¬ (x > 9223372036854775808 / 10) := by omega
  have h3 : u64 (x * 10 + (c : Int) - 48) = x * 10 + ((c : Int) - 48) := by
    rw [u64_of_range _ (by omega) (by omega)]; omega
  have h4 : ¬ (x * 10 + ((c : Int) - 48) > 9223372036854775808) := by omega
  rw [leadingInt]
  simp only [h1, h2, h3, h4, if_false]

theorem leadingInt_nondigit (c : Nat) (s : List Nat) (x : Int) (hc : ¬ (48 ≤ c ∧ c ≤ 57)) :
    leadingInt (c :: s) x = .ok (x, c :: s) := by
  have h1 : c < 48 ∨ c > 57 := by omega
  rw [leadingInt]
  simp only [h1, if_true]

/-- Function `atoi` on four bytes of which the first is a digit. -/
theorem atoi_four (a b c e : Nat) (ha : 48 ≤ a ∧ a ≤ 57) :
    atoi [a, b, c, e] =
      if (48 ≤ b ∧ b ≤ 57) ∧ (48 ≤ c ∧ c ≤ 57) ∧ (48 ≤ e ∧ e ≤ 57) then
        .ok (1000 * ((a : Int) - 48) + 100 * ((b : Int) - 48) + 10 * ((c : Int) - 48)
          + ((e : Int) - 48))
      else .error () := by
  have n1 : ¬ (a = 45 ∨ a = 43) := by omega
  have n2 : ¬ a = 45 := by omega
  have n3 : ¬ a = 43 := by omega
  unfold atoi
  simp only [n2, n3, decide_False, or_self, if_false, Bool.false_eq_true]
  rw [leadingInt_digit a _ 0 ha (by decide)]
  by_cases hb : 48 ≤ b ∧ b ≤ 57
  · rw [leadingInt_digit b _ _ hb (by omega)]
    by_cases hc : 48 ≤ c ∧ c ≤ 57
    · rw [leadingInt_digit c _ _ hc (by omega)]
      by_cases he : 48 ≤ e ∧ e ≤ 57
      · rw [leadingInt_digit e _ _ he (by omega), if_pos ⟨hb, hc, he⟩]
        simp only [leadingInt, List.length_nil, gt_iff_lt, lt_self_iff_false, if_false,
          Bool.false_eq_true]
        rw [wrap64_of_isInt64 _ (by unfold isInt64; omega)]
        congr 1
        ring
      · rw [leadingInt_nondigit e _ _ he, if_neg (by tauto)]
        simp
    · rw [leadingInt_nondigit c _ _ hc, if_neg (by tauto)]
      simp
  · rw [leadingInt_nondigit b _ _ hb, if_neg (by tauto)]
    simp

theorem isDigit_zero (a : Nat) (s : List Nat) :
    isDigit (a :: s) 0 = decide (48 ≤ a ∧ a ≤ 57) := rfl

/-- Function `ParseDateOnly` succeeds exactly on the texts of the form `DDDD-DD-DD`
whose month and day exist, and returns the instant `time.Date` builds from the fields. -/
theorem ParseDateOnly_ok (s : List Nat) (t : Time) :
    ParseDateOnly s = .ok t ↔
      ∃ y m d : Int, date.isoForm s y m d ∧ (1 ≤ m ∧ m ≤ 12) ∧ (1 ≤ d ∧ d ≤ daysIn m y) ∧
        t = time.Date y m d 0 0 0 0 := by
  constructor
  · intro h
    rcases s with _ | ⟨a, _ | ⟨b, _ | ⟨c, _ | ⟨e, s1⟩⟩⟩⟩
    · simp [ParseDateOnly] at h
    · simp [ParseDateOnly] at h
    · simp [ParseDateOnly] at h
    · simp [ParseDateOnly] at h
    · unfold ParseDateOnly at h
      by_cases ha : 48 ≤ a ∧ a ≤ 57
      · have hlen : ¬ ((a :: b :: c :: e :: s1).length < 4 ∨
            (!isDigit (a :: b :: c :: e :: s1) 0) = true) := by
          simp [isDigit_zero, ha]
        rw [if_neg hlen] at h
        simp only [List.take, List.drop] at h
        rw [atoi_four a b c e ha] at h
        by_cases hbce : (48 ≤ b ∧ b ≤ 57) ∧ (48 ≤ c ∧ c ≤ 57) ∧ (48 ≤ e ∧ e ≤ 57)
        · rw [if_pos hbce] at h
          simp only [] at h
          cases hs : skip s1 [45] with
          | error x => rw [hs] at h; simp at h
          | ok v =>
            rw [hs] at h
            simp only [] at h
            rw [skip_dash] at hs
            cases hg : getnum v true with
            | error x => rw [hg] at h; simp at h
            | ok p =>
              obtain ⟨m, v2⟩ := p
              rw [hg] at h
              simp only [] at h
              obtain ⟨f, g, hf, hg', rfl, rfl⟩ := (getnum_fixed _ _ _).mp hg
              have e1 : ((f : Int) - 48) * 10 + ((g : Int) - 48) =
                  10 * ((f : Int) - 48) + ((g : Int) - 48) := by ring
              rw [e1] at h
              split_ifs at h with hmr
              cases hs2 : skip v2 [45] with
              | error x => rw [hs2] at h; simp at h
              | ok v3 =>
                rw [hs2] at h
                simp only [] at h
                rw [skip_dash] at hs2
                cases hg2 : getnum v3 true with
                | error x => rw [hg2] at h; simp at h
                | ok p2 =>
                  obtain ⟨d, v4⟩ := p2
                  rw [hg2] at h
                  simp only [] at h
                  obtain ⟨i, j, hi, hj, rfl, rfl⟩ := (getnum_fixed _ _ _).mp hg2
                  have e2 : ((i : Int) - 48) * 10 + ((j : Int) - 48) =
                      10 * ((i : Int) - 48) + ((j : Int) - 48) := by ring
                  rw [e2] at h
                  split_ifs at h with hx hdr
                  injection h with h
                  have hv4 : v4 = [] := by
                    cases v4 with
                    | nil => rfl
                    | cons z zs => simp at hx
                  subst hv4 hs2 hs
                  refine ⟨_, _, _, ⟨a, b, c, e, f, g, i, j, ha, hbce.1, hbce.2.1, hbce.2.2, hf, hg',
                    hi, hj, rfl, rfl, rfl, rfl⟩, ?_, ?_, ?_⟩
                  · omega
                  · omega
                  · rw [← h]
        · rw [if_neg hbce] at h
          simp at h
      · have hlen : ((a :: b :: c :: e :: s1).length < 4 ∨
            (!isDigit (a :: b :: c :: e :: s1) 0) = true) := by
          simp [isDigit_zero, ha]
        rw [if_pos hlen] at h
        cases h
  · rintro ⟨y, m, d, ⟨a, b, c, e, f, g, i, j, ha, hb, hc, he, hf, hg, hi, hj, rfl, rfl, rfl, rfl⟩,
      hm, hd, rfl⟩
    unfold date.digitByte at ha hb hc he hf hg hi hj
    unfold ParseDateOnly
    have hlen : ¬ ([a, b, c, e, 45, f, g, 45, i, j].length < 4 ∨
        (!isDigit [a, b, c, e, 45, f, g, 45, i, j] 0) = true) := by
      simp [isDigit_zero, ha]
    rw [if_neg hlen]
    simp only [List.take, List.drop]
    rw [atoi_four a b c e ha, if_pos ⟨hb, hc, he⟩]
    simp only [skip, ne_eq, not_true_eq_false, if_false]
    rw [getnum_cons, if_pos ⟨hf, hg⟩]
    simp only []
    rw [if_neg (by omega)]
    simp only [skip, ne_eq, not_true_eq_false, if_false]
    rw [getnum_cons, if_pos ⟨hi, hj⟩]
    simp only [List.length_nil, ne_eq, not_true_eq_false, if_false]
    have e1 : ((f : Int) - 48) * 10 + ((g : Int) - 48) = 10 * ((f : Int) - 48) + ((g : Int) - 48) := by
      ring
    have e2 : ((i : Int) - 48) * 10 + ((j : Int) - 48) = 10 * ((i : Int) - 48) + ((j : Int) - 48) := by
      ring
    rw [e1, e2, if_neg (by omega)]

end time

namespace fmt

theorem fmtInteger_four (n : Nat) (h : n < 10000) :
    fmtInteger 4 (n : Int) = [48 + n / 1000, 48 + n / 100 % 10, 48 + n / 10 % 10, 48 + n % 10] := by
  have hneg : ¬ ((n : Int) < 0) := by omega
  unfold fmtInteger
  simp only [hneg, decide_False, Bool.false_eq_true, if_false, Int.toNat_ofNat]
  by_cases h1 : n < 10
  · have a : ¬ n ≥ 10 := by omega
    simp only [fmtDigits, a, if_false, List.length_singleton, List.replicate, List.cons_append,
      List.nil_append, List.cons.injEq, and_true, true_and]
    omega
  · by_cases h2 : n < 100
    · have a : n ≥ 10 := by omega
      have b : ¬ n / 10 ≥ 10 := by omega
      simp only [fmtDigits, a, b, if_true, if_false, List.length_cons, List.length_nil,
        List.replicate, List.cons_append, List.nil_append, List.cons.injEq, and_true, true_and]
      omega
    · by_cases h3 : n < 1000
      · have a : n ≥ 10 := by omega
        have b : n / 10 ≥ 10 := by omega
        have c : ¬ n / 10 / 10 ≥ 10 := by omega
        simp only [fmtDigits, a, b, c, if_true, if_false, List.length_cons, List.length_nil,
          List.replicate, List.cons_append, List.nil_append, List.cons.injEq, and_true, true_and]
        omega
      · have a : n ≥ 10 := by omega
        have b : n / 10 ≥ 10 := by omega
        have c : n / 10 / 10 ≥ 10 := by omega
        have e : ¬ n / 10 / 10 / 10 ≥ 10 := by omega
        simp only [fmtDigits, a, b, c, e, if_true, if_false, List.length_cons, List.length_nil,
          List.replicate, List.cons_append, List.nil_append, List.cons.injEq, and_true, true_and]
        omega

theorem fmtInteger_two (n : Nat) (h : n < 100) :
    fmtInteger 2 (n : Int) = [48 + n / 10, 48 + n % 10] := by
  have hneg : ¬ ((n : Int) < 0) := by omega
  unfold fmtInteger
  simp only [hneg, decide_False, Bool.false_eq_true, if_false, Int.toNat_ofNat]
  by_cases h1 : n < 10
  · have a : ¬ n ≥ 10 := by omega
    simp only [fmtDigits, a, if_false, List.length_singleton, List.replicate, List.cons_append,
      List.nil_append, List.cons.injEq, and_true, true_and]
    omega
  · have a : n ≥ 10 := by omega
    have b : ¬ n / 10 ≥ 10 := by omega
    simp only [fmtDigits, a, b, if_true, if_false, List.length_cons, List.length_nil,
      List.replicate, List.cons_append, List.nil_append, List.cons.injEq, and_true, true_and]
    omega

end fmt

namespace date

theorem daysIn_eq_daysInMonth (y m : Int) (hm : 1 ≤ m ∧ m ≤ 12) :
    time.daysIn m y = daysInMonth y m := by
  rw [daysInMonth_eq_monthLen y m hm]
  rfl

/-- The canonical text of a calendar date of a year 0..9999 has the fixed-width form. -/
theorem String_isoForm (d : Date) (hv : d.Valid) (hy : 0 ≤ d.Year ∧ d.Year ≤ 9999) :
    isoForm d.String d.Year d.Month d.Day := by
  obtain ⟨hm1, hm2, hd1, hd2⟩ := hv
  have hd31 := (daysInMonth_le d.Year d.Month ⟨hm1, hm2⟩).2
  obtain ⟨y, hy'⟩ : ∃ y : Nat, d.Year = (y : Int) := ⟨d.Year.toNat, by omega⟩
  obtain ⟨m, hm'⟩ : ∃ m : Nat, d.Month = (m : Int) := ⟨d.Month.toNat, by omega⟩
  obtain ⟨n, hn'⟩ : ∃ n : Nat, d.Day = (n : Int) := ⟨d.Day.toNat, by omega⟩
  unfold Date.String
  rw [hy', hm', hn', fmt.fmtInteger_four y (by omega), fmt.fmtInteger_two m (by omega),
    fmt.fmtInteger_two n (by omega)]
  refine ⟨48 + y / 1000, 48 + y / 100 % 10, 48 + y / 10 % 10, 48 + y % 10, 48 + m / 10,
    48 + m % 10, 48 + n / 10, 48 + n % 10, ?_, ?_, ?_, ?_, ?_, ?_, ?_, ?_, rfl, ?_, ?_, ?_⟩ <;>
    (try unfold digitByte) <;> omega

/-- Function `FromISO8601` returns `r` exactly on the texts of the fixed-width form whose
fields are the calendar date `r`. -/
theorem FromISO8601_ok (s : List Nat) (r : Date) :
    FromISO8601 s = .ok r ↔ (isoForm s r.Year r.Month r.Day ∧ r.Valid) := by
  have hread : ∀ y m d : Int, isoForm s y m d → (1 ≤ m ∧ m ≤ 12) →
      (1 ≤ d ∧ d ≤ daysInMonth y m) → (time.Date y m d 0 0 0 0).Date = (y, m, d) := by
    intro y m d hf hm hd
    have hy : 0 ≤ y ∧ y ≤ 9999 := by
      obtain ⟨a, b, c, e, -, -, -, -, ha, hb, hc, he, -, -, -, -, -, rfl, -, -⟩ := hf
      unfold digitByte at ha hb hc he
      omega
    have := (Time_of_valid ⟨y, m, d⟩ ⟨hm.1, hm.2, hd.1, hd.2⟩
      (by unfold time.minYear time.maxYear; constructor <;> (simp only []; omega))).2.1
    exact this
  unfold FromISO8601
  constructor
  · intro h
    cases hp : time.ParseDateOnly s with
    | error x => rw [hp] at h; cases h
    | ok t =>
      rw [hp] at h
      injection h with h
      obtain ⟨y, m, d, hf, hm, hd, rfl⟩ := (time.ParseDateOnly_ok s t).mp hp
      rw [daysIn_eq_daysInMonth y m hm] at hd
      rw [hread y m d hf hm hd] at h
      subst h
      exact ⟨hf, hm.1, hm.2, hd.1, hd.2⟩
  · rintro ⟨hf, hm1, hm2, hd1, hd2⟩
    have hp : time.ParseDateOnly s = .ok (time.Date r.Year r.Month r.Day 0 0 0 0) :=
      (time.ParseDateOnly_ok s _).mpr ⟨r.Year, r.Month, r.Day, hf, ⟨hm1, hm2⟩,
        ⟨hd1, by rw [daysIn_eq_daysInMonth _ _ ⟨hm1, hm2⟩]; exact hd2⟩, rfl⟩
    rw [hp]
    simp only []
    rw [hread r.Year r.Month r.Day hf ⟨hm1, hm2⟩ ⟨hd1, hd2⟩]

end date

/-! ## Lemmas: month boundaries -/

namespace time

theorem yearDays_succ (Y : Int) :
    (leapOff Y → yearDays (Y + 1) = yearDays Y + 366) ∧
    (¬ leapOff Y → yearDays (Y + 1) = yearDays Y + 365) := by
  unfold yearDays leapOff
  constructor <;> intro h <;> omega

end time

namespace date

/-- The counter value from which `add` reads its result, also when the month delta
leads into the year after the last representable one. -/
theorem add_abs_wide (d : Date) (years months days : Int) (hv : d.Valid)
    (hy : representable d.Year) (hyy : representable (d.Year + years))
    (hY : time.minYear ≤ d.Year + years + (d.Month - 1 + months) / 12 ∧
      d.Year + years + (d.Month - 1 + months) / 12 ≤ time.maxYear + 1) :
    d.add years months days =
      ofAbs (u64 (86400 * (time.dayNumber (d.Year + years + (d.Month - 1 + months) / 12)
        ((d.Month - 1 + months) % 12 + 1) d.Day + days))) := by
  obtain ⟨hm1, hm2, hd1, hd2⟩ := hv
  unfold representable at hy hyy
  unfold time.minYear time.maxYear at hy hyy hY
  have e1 : wrap64 (d.Year + years) = d.Year + years :=
    time.wrap64_of_isInt64 _ (by unfold isInt64; omega)
  have e2 : wrap64 (d.Month + months) = d.Month + months :=
    time.wrap64_of_isInt64 _ (by unfold isInt64; omega)
  have e3 : wrap64 (d.Month + months - 1) = d.Month - 1 + months := by
    rw [time.wrap64_of_isInt64 _ (by unfold isInt64; omega)]; omega
  have hn : time.norm (wrap64 (d.Year + years)) (wrap64 (wrap64 (d.Month + months) - 1)) 12 =
      (d.Year + years + (d.Month - 1 + months) / 12, (d.Month - 1 + months) % 12 + 1 - 1) := by
    rw [e1, e2, e3, time.norm_12 _ _ (by omega) (by omega)]
    simp
  rw [add_eq d years months days ⟨hm1, hm2, hd1, hd2⟩
    (by unfold time.minYear time.maxYear; exact hy), FromTime_eq_ofAbs,
    time.abs_Date _ _ _ 0 0 0 0 _ _ hn (by omega) (by unfold time.minYear; omega)
      (by decide) (by decide) (by decide) (by decide)]
  congr 1
  have e4 : ∀ Y M x : Int, time.dayNumber Y M x = time.dayNumber Y M d.Day + (x - d.Day) := by
    intro Y M x
    unfold time.dayNumber time.ydayOf
    ring
  rw [e4 _ _ (wrap64 (d.Day + days))]
  have e5 := u64_mul_wrap64 (86400 * (time.dayNumber (d.Year + years + (d.Month - 1 + months) / 12)
        ((d.Month - 1 + months) % 12 + 1) d.Day - d.Day)) (d.Day + days)
  have l : 86400 * (time.dayNumber (d.Year + years + (d.Month - 1 + months) / 12)
        ((d.Month - 1 + months) % 12 + 1) d.Day + (wrap64 (d.Day + days) - d.Day)) +
        (0 * 3600 + 0 * 60 + 0)
      = 86400 * (time.dayNumber (d.Year + years + (d.Month - 1 + months) / 12)
        ((d.Month - 1 + months) % 12 + 1) d.Day - d.Day) + 86400 * wrap64 (d.Day + days) := by
    ring
  have r : 86400 * (time.dayNumber (d.Year + years + (d.Month - 1 + months) / 12)
        ((d.Month - 1 + months) % 12 + 1) d.Day + days)
      = 86400 * (time.dayNumber (d.Year + years + (d.Month - 1 + months) / 12)
        ((d.Month - 1 + months) % 12 + 1) d.Day - d.Day) + 86400 * (d.Day + days) := by
    ring
  rw [l, r, e5]

/-- Day 0 of the month after month `m` is the last day of month `m`. -/
theorem dayNumber_day_zero (y m : Int) (hm : 1 ≤ m ∧ m ≤ 12) :
    time.dayNumber (y + m / 12) (m % 12 + 1) 0 = time.dayNumber y m (daysInMonth y m) := by
  obtain ⟨hm1, hm2⟩ := hm
  rw [daysInMonth_eq_monthLen y m ⟨hm1, hm2⟩]
  by_cases h12 : m = 12
  · subst h12
    obtain ⟨v0, v1, v2, v3, v4, v5, v6, v7, v8, v9, v10, v11, v12⟩ := time.daysBefore_vals
    have e1 : y + 12 / 12 = y + 1 := by omega
    have e2 : (12 : Int) % 12 + 1 = 1 := by decide
    have hs := time.yearDays_succ (y - time.absoluteZeroYear)
    have e3 : y + 1 - time.absoluteZeroYear = y - time.absoluteZeroYear + 1 := by ring
    rw [e1, e2]
    unfold time.dayNumber
    rw [e3]
    by_cases hl : time.isLeap y = true
    · have hl' := (time.isLeap_leapOff y).mp hl
      rw [hs.1 hl', hl]
      simp [time.ydayOf, time.monthLen, v0, v11, v12]
      ring
    · have hl' : ¬ time.leapOff (y - time.absoluteZeroYear) := fun h =>
        hl ((time.isLeap_leapOff y).mpr h)
      have hf : time.isLeap y = false := by simpa using hl
      rw [hs.2 hl', hf]
      simp [time.ydayOf, time.monthLen, v0, v11, v12]
      ring
  · have e1 : y + m / 12 = y := by omega
    have e2 : m % 12 + 1 = m + 1 := by omega
    rw [e1, e2]
    unfold time.dayNumber
    have := ydayOf_rollover (time.isLeap y) m (time.monthLen (time.isLeap y) m) (by omega)
    rw [sub_self] at this
    rw [this]

end date

/-! ## Lemmas: decimal digits of `fmt` -/

namespace fmt

theorem decimal_lt_ten (n : Nat) (h : n < 10) : decimal n = [48 + n] := by
  unfold decimal
  by_cases h0 : n = 0
  · subst h0; rfl
  · rw [if_neg h0, Nat.digits_of_lt 10 n h0 h]
    rfl

theorem decimal_step (n : Nat) (h : 10 ≤ n) : decimal n = decimal (n / 10) ++ [48 + n % 10] := by
  have h0 : n ≠ 0 := by omega
  have h1 : n / 10 ≠ 0 := by omega
  unfold decimal
  rw [if_neg h0, if_neg h1, Nat.digits_def' (by decide) (by omega)]
  simp

/-- The digit loop of `fmtInteger` writes the decimal expansion, given enough fuel. -/
theorem fmtDigits_eq (fuel : Nat) : ∀ (n : Nat) (buf : List Nat), n < 10 ^ (fuel + 1) →
    fmtDigits fuel n buf = decimal n ++ buf := by
  induction fuel with
  | zero =>
    intro n buf h
    have h10 : n < 10 := by simpa using h
    simp [fmtDigits, decimal_lt_ten n h10]
  | succ k ih =>
    intro n buf h
    by_cases h10 : n < 10
    · have a : ¬ n ≥ 10 := by omega
      simp [fmtDigits, a, decimal_lt_ten n h10]
    · have a : n ≥ 10 := by omega
      have hq : n / 10 < 10 ^ (k + 1) := by
        rw [Nat.div_lt_iff_lt_mul (by decide)]
        calc n < 10 ^ (k + 1 + 1) := h
          _ = 10 ^ (k + 1) * 10 := by ring
      have e : 48 + n - n / 10 * 10 = 48 + n % 10 := by omega
      rw [fmtDigits, if_pos a]
      simp only []
      rw [ih (n / 10) _ hq, decimal_step n a, e]
      simp

theorem decimal_digits (n : Nat) : ∀ b ∈ decimal n, 48 ≤ b ∧ b ≤ 57 := by
  intro b hb
  unfold decimal at hb
  by_cases h0 : n = 0
  · rw [if_pos h0] at hb
    simp at hb
    omega
  · rw [if_neg h0] at hb
    simp only [List.mem_map, List.mem_reverse] at hb
    obtain ⟨k, hk, rfl⟩ := hb
    have := Nat.digits_lt_base (by decide : 1 < 10) hk
    omega

theorem decimal_length (n : Nat) (h : 10000 ≤ n) : 5 ≤ (decimal n).length := by
  have h0 : n ≠ 0 := by omega
  unfold decimal
  rw [if_neg h0]
  simp only [List.length_map, List.length_reverse]
  by_contra hc
  have hl : (Nat.digits 10 n).length ≤ 4 := by omega
  have h1 : n < 10 ^ (Nat.digits 10 n).length := Nat.lt_base_pow_length_digits (by decide)
  have h2 : 10 ^ (Nat.digits 10 n).length ≤ 10 ^ 4 := Nat.pow_le_pow_right (by decide) hl
  omega

/-- The verb `%0Nd` on a non-negative `int`: the decimal expansion, padded with zeros. -/
theorem fmtInteger_nonneg (wid : Nat) (x : Int) (h0 : 0 ≤ x) (h1 : x ≤ 9223372036854775807) :
    fmtInteger wid x = zeroPad wid (decimal x.toNat) := by
  have hneg : ¬ (x < 0) := by omega
  have hlt : x.toNat < 10 ^ (20 + 1) := by
    have : x.toNat ≤ 9223372036854775807 := by omega
    calc x.toNat ≤ 9223372036854775807 := this
      _ < 10 ^ (20 + 1) := by norm_num
  unfold fmtInteger zeroPad
  simp only [hneg, decide_False, Bool.false_eq_true, if_false]
  rw [fmtDigits_eq 20 _ [] hlt]
  simp

end fmt

/-! ## Lemmas: day counting and weekdays -/

namespace time

theorem yearDays_upper_next (Y : Int) (h : Y ≤ 584554049253) :
    yearDays Y ≤ 213503982334289 := by
  unfold yearDays
  omega

theorem yearDays_lower_next (Y : Int) (h : 584554049253 ≤ Y) :
    213503982334289 ≤ yearDays Y := by
  unfold yearDays
  omega

/-- The day count of a calendar date lies within the counts of its year. -/
theorem dayNumber_in_year (y m d : Int) (hm : 1 ≤ m ∧ m ≤ 12)
    (hd : 1 ≤ d ∧ d ≤ monthLen (isLeap y) m) :
    yearDays (y - absoluteZeroYear) ≤ dayNumber y m d ∧
    dayNumber y m d < yearDays (y - absoluteZeroYear + 1) := by
  obtain ⟨h0, h1⟩ := ydayOf_range (isLeap y) m d hm hd
  obtain ⟨hs1, hs2⟩ := yearDays_succ (y - absoluteZeroYear)
  unfold dayNumber
  constructor
  · omega
  · by_cases hl : leapOff (y - absoluteZeroYear)
    · rw [hs1 hl]
      omega
    · rw [hs2 hl]
      have hn : ¬ isLeap y = true := fun h => hl ((isLeap_leapOff y).mp h)
      rcases h1 with h1 | ⟨_, h1⟩
      · omega
      · exact absurd h1 hn

theorem absWeekday_day (N : Int) (h0 : 0 ≤ N) (h1 : N ≤ 213503982334599) :
    absWeekday (86400 * N) = (N + 1) % 7 := by
  unfold absWeekday secondsPerDay secondsPerWeek
  simp only []
  rw [u64_of_range _ (by omega) (by omega), tdiv_of_nonneg _ _ (by omega) (by decide)]
  omega

end time

namespace date

theorem dayNumber_range (d : Date) (hv : d.Valid) (hy : representable d.Year) :
    0 ≤ time.dayNumber d.Year d.Month d.Day ∧
    time.dayNumber d.Year d.Month d.Day ≤ time.lastDay := by
  obtain ⟨hm1, hm2, hd1, hd2⟩ := hv
  rw [daysInMonth_eq_monthLen _ _ ⟨hm1, hm2⟩] at hd2
  obtain ⟨h1, h2⟩ := time.dayNumber_in_year d.Year d.Month d.Day ⟨hm1, hm2⟩ ⟨hd1, hd2⟩
  unfold representable time.minYear time.maxYear at hy
  have h3 := time.yearDays_upper_next (d.Year - time.absoluteZeroYear + 1)
    (by unfold time.absoluteZeroYear; omega)
  have h4 := time.yearDays_nonneg (d.Year - time.absoluteZeroYear)
    (by unfold time.absoluteZeroYear; omega)
  unfold time.lastDay
  omega

/-- What `FromTime` reads from a counter value: a calendar date with the day count of
the counter value. -/
theorem ofAbs_props (a : Int) (h0 : 0 ≤ a) (h1 : a < 18446744073709551616) :
    (ofAbs a).Valid ∧ (time.minYear ≤ (ofAbs a).Year ∧ (ofAbs a).Year ≤ time.maxYear + 1) ∧
    time.dayNumber (ofAbs a).Year (ofAbs a).Month (ofAbs a).Day = a / 86400 := by
  obtain ⟨y, m, d, he, hy, hm, hd, hn⟩ := time.absDate_spec a h0 h1
  unfold ofAbs Date.Valid
  simp only [he]
  rw [daysInMonth_eq_monthLen y m hm]
  exact ⟨⟨hm.1, hm.2, hd.1, hd.2⟩, hy, hn⟩

theorem ofAbs_representable (a : Int) (h0 : 0 ≤ a) (h1 : a / 86400 ≤ time.lastDay) :
    representable (ofAbs a).Year := by
  unfold time.lastDay at h1
  obtain ⟨hv, hy, hn⟩ := ofAbs_props a h0 (by omega)
  obtain ⟨hm1, hm2, hd1, hd2⟩ := hv
  rw [daysInMonth_eq_monthLen _ _ ⟨hm1, hm2⟩] at hd2
  obtain ⟨h2, -⟩ := time.dayNumber_in_year _ _ _ ⟨hm1, hm2⟩ ⟨hd1, hd2⟩
  unfold representable
  refine ⟨hy.1, ?_⟩
  by_contra hc
  have := time.yearDays_lower_next ((ofAbs a).Year - time.absoluteZeroYear)
    (by unfold time.maxYear at hc; unfold time.absoluteZeroYear; omega)
  omega

/-- The counter value of the instant of a date that `FromTime` has read. -/
theorem ofAbs_Time_abs (a : Int) (h0 : 0 ≤ a) (h1 : a < 18446744073709551616) :
    (ofAbs a).Time.abs = 86400 * (a / 86400) := by
  obtain ⟨hv, hy, hn⟩ := ofAbs_props a h0 h1
  obtain ⟨hm1, hm2, hd1, hd2⟩ := hv
  have hnorm : time.norm (ofAbs a).Year (wrap64 ((ofAbs a).Month - 1)) 12 =
      ((ofAbs a).Year, (ofAbs a).Month - 1) := by
    rw [time.wrap64_of_isInt64 _ (by unfold isInt64; omega)]
    exact time.norm_id _ _ _ (by omega) (by omega)
  unfold Date.Time startOfDay
  rw [time.abs_Date _ _ _ 0 0 0 0 _ _ hnorm ⟨hm1, hm2⟩
    ⟨hy.1, by have := hy.2; unfold time.maxYear at this; omega⟩
    (by decide) (by decide) (by decide) (by decide), hn]
  rw [time.u64_of_range _ (by omega) (by omega)]
  omega

/-- A calendar date of a representable year is what `FromTime` reads from its counter. -/
theorem eq_ofAbs (d : Date) (hv : d.Valid) (hy : representable d.Year) :
    d = ofAbs (86400 * time.dayNumber d.Year d.Month d.Day) := by
  have hd31 := (daysInMonth_le d.Year d.Month ⟨hv.1, hv.2.1⟩).2
  rw [ofAbs_dayNumber d.Year d.Month d.Day hy ⟨hv.1, hv.2.1⟩
    ⟨hv.2.2.1, by have := hv.2.2.2; omega⟩]
  unfold rollForward
  rw [if_pos hv.2.2.2]

/-- Adding days to a calendar date of a representable year counts days on the counter. -/
theorem AddDays_ofAbs (d : Date) (j : Int) (hv : d.Valid) (hy : representable d.Year) :
    d.AddDays j = ofAbs (u64 (86400 * (time.dayNumber d.Year d.Month d.Day + j))) := by
  have hm1 := hv.1
  have hm2 := hv.2.1
  have e1 : d.Year + 0 + (d.Month - 1 + 0) / 12 = d.Year := by omega
  have e2 : (d.Month - 1 + 0) % 12 + 1 = d.Month := by omega
  unfold Date.AddDays
  rw [add_abs d 0 0 j hv hy (by rw [add_zero]; exact hy) (by rw [e1]; exact hy), e1, e2]

/-- The weekday of a calendar date of a representable year, from its day count. -/
theorem Weekday_eq (d : Date) (hv : d.Valid) (hy : representable d.Year) :
    d.Time.Weekday = (time.dayNumber d.Year d.Month d.Day + 1) % 7 := by
  obtain ⟨h0, h1⟩ := dayNumber_range d hv hy
  unfold time.lastDay at h1
  unfold time.Time.Weekday
  rw [(Time_of_valid d hv hy).1, time.absWeekday_day _ h0 (by omega)]

theorem weekOffset_eq (N : Int) : weekOffset ((N + 1) % 7) = N % 7 := by
  unfold weekOffset
  split_ifs <;> omega

/-- The Monday that `FirstOfWeek` returns, on the counter. -/
theorem FirstOfWeek_ofAbs (d : Date) (hv : d.Valid) (hy : representable d.Year) :
    d.FirstOfWeek = d.AddDays (-(weekOffset d.Time.Weekday)) ∧
    d.FirstOfWeek = ofAbs (86400 * (time.dayNumber d.Year d.Month d.Day -
      time.dayNumber d.Year d.Month d.Day % 7)) := by
  obtain ⟨h0, h1⟩ := dayNumber_range d hv hy
  unfold time.lastDay at h1
  have hwd := Weekday_eq d hv hy
  have hk := weekOffset_eq (time.dayNumber d.Year d.Month d.Day)
  have hfirst : d.FirstOfWeek = d.AddDays (-(weekOffset d.Time.Weekday)) := by
    unfold Date.FirstOfWeek date.FirstOfWeek
    simp only []
    by_cases h1' : d.Time.Weekday = 1
    · rw [if_pos h1', h1']
      have e : -(weekOffset 1) = 0 := by decide
      rw [e, AddDays_ofAbs d 0 hv hy, add_zero, time.u64_of_range _ (by omega) (by omega),
        ← eq_ofAbs d hv hy]
      unfold FromTime
      rw [(Time_of_valid d hv hy).2.1]
    · rw [if_neg h1']
      by_cases h0' : d.Time.Weekday = 0
      · rw [if_pos h0', h0']
        rfl
      · rw [if_neg h0']
        have hr : 0 ≤ d.Time.Weekday ∧ d.Time.Weekday ≤ 6 := by rw [hwd]; omega
        have e : wrap64 (wrap64 (-d.Time.Weekday) + 1) = -(weekOffset d.Time.Weekday) := by
          rw [time.wrap64_of_isInt64 (-d.Time.Weekday) (by unfold isInt64; omega),
            time.wrap64_of_isInt64 _ (by unfold isInt64; omega)]
          unfold weekOffset
          rw [if_neg h0']
          ring
        rw [e]
        rfl
  refine ⟨hfirst, ?_⟩
  rw [hfirst, hwd, hk, AddDays_ofAbs d _ hv hy, time.u64_of_range _ (by omega) (by omega)]
  congr 1

/-- The Sunday that `LastOfWeek` returns, on the counter. -/
theorem LastOfWeek_ofAbs (d : Date) (hv : d.Valid) (hy : representable d.Year) :
    d.LastOfWeek = (if d.Time.Weekday = 0 then d else d.AddDays (7 - d.Time.Weekday)) ∧
    d.LastOfWeek = ofAbs (86400 * (time.dayNumber d.Year d.Month d.Day -
      time.dayNumber d.Year d.Month d.Day % 7 + 6)) := by
  obtain ⟨h0, h1⟩ := dayNumber_range d hv hy
  unfold time.lastDay at h1
  have hwd := Weekday_eq d hv hy
  have hr : 0 ≤ d.Time.Weekday ∧ d.Time.Weekday ≤ 6 := by rw [hwd]; omega
  have hlast : d.LastOfWeek =
      (if d.Time.Weekday = 0 then d else d.AddDays (7 - d.Time.Weekday)) := by
    unfold Date.LastOfWeek date.LastOfWeek
    simp only []
    by_cases h0' : d.Time.Weekday = 0
    · rw [if_pos h0', if_pos h0']
      unfold FromTime
      rw [(Time_of_valid d hv hy).2.1]
    · rw [if_neg h0', if_neg h0', time.wrap64_of_isInt64 _ (by unfold isInt64; omega)]
      rfl
  refine ⟨hlast, ?_⟩
  rw [hlast]
  by_cases h0' : d.Time.Weekday = 0
  · rw [if_pos h0']
    have e : time.dayNumber d.Year d.Month d.Day - time.dayNumber d.Year d.Month d.Day % 7 + 6 =
        time.dayNumber d.Year d.Month d.Day := by
      rw [hwd] at h0'
      omega
    rw [e]
    exact eq_ofAbs d hv hy
  · rw [if_neg h0', AddDays_ofAbs d _ hv hy, time.u64_of_range _ (by omega) (by omega)]
    congr 2
    rw [hwd] at h0' ⊢
    omega

/-- The week of a calendar date of a representable year: the date is day `weekOffset` of
the week that starts at its `FirstOfWeek`, which is a Monday, and whose day 6 is its
`LastOfWeek`, which is a Sunday. -/
theorem week_props (d : Date) (hv : d.Valid) (hy : representable d.Year) :
    (0 ≤ weekOffset d.Time.Weekday ∧ weekOffset d.Time.Weekday ≤ 6) ∧
    d.FirstOfWeek.Valid ∧ representable d.FirstOfWeek.Year ∧
    time.dayNumber d.FirstOfWeek.Year d.FirstOfWeek.Month d.FirstOfWeek.Day =
      time.dayNumber d.Year d.Month d.Day - time.dayNumber d.Year d.Month d.Day % 7 ∧
    d.FirstOfWeek.Time.Weekday = 1 ∧
    d.FirstOfWeek.AddDays (weekOffset d.Time.Weekday) = d ∧
    d.FirstOfWeek.AddDays 6 = d.LastOfWeek ∧
    d.LastOfWeek.Time.Weekday = 0 := by
  obtain ⟨h0, h1⟩ := dayNumber_range d hv hy
  unfold time.lastDay at h1
  have hwd := Weekday_eq d hv hy
  have hk := weekOffset_eq (time.dayNumber d.Year d.Month d.Day)
  obtain ⟨-, hF⟩ := FirstOfWeek_ofAbs d hv hy
  obtain ⟨-, hL⟩ := LastOfWeek_ofAbs d hv hy
  have hq : 86400 * (time.dayNumber d.Year d.Month d.Day -
      time.dayNumber d.Year d.Month d.Day % 7) / 86400 =
      time.dayNumber d.Year d.Month d.Day - time.dayNumber d.Year d.Month d.Day % 7 := by
    omega
  obtain ⟨hFv, -, hFn⟩ := ofAbs_props (86400 * (time.dayNumber d.Year d.Month d.Day -
      time.dayNumber d.Year d.Month d.Day % 7)) (by omega) (by omega)
  have hFr := ofAbs_representable (86400 * (time.dayNumber d.Year d.Month d.Day -
      time.dayNumber d.Year d.Month d.Day % 7)) (by omega) (by unfold time.lastDay; omega)
  rw [← hF] at hFv hFn hFr
  rw [hq] at hFn
  refine ⟨by rw [hwd, hk]; omega, hFv, hFr, hFn, ?_, ?_, ?_, ?_⟩
  · unfold time.Time.Weekday
    rw [hF, ofAbs_Time_abs _ (by omega) (by omega), hq, time.absWeekday_day _ (by omega) (by omega)]
    omega
  · rw [AddDays_ofAbs _ _ hFv hFr, hFn, hwd, hk]
    have e : time.dayNumber d.Year d.Month d.Day - time.dayNumber d.Year d.Month d.Day % 7 +
        time.dayNumber d.Year d.Month d.Day % 7 = time.dayNumber d.Year d.Month d.Day := by ring
    rw [e, time.u64_of_range _ (by omega) (by omega)]
    exact (eq_ofAbs d hv hy).symm
  · rw [AddDays_ofAbs _ _ hFv hFr, hFn, hL, time.u64_of_range _ (by omega) (by omega)]
  · have hq2 : 86400 * (time.dayNumber d.Year d.Month d.Day -
        time.dayNumber d.Year d.Month d.Day % 7 + 6) / 86400 =
        time.dayNumber d.Year d.Month d.Day - time.dayNumber d.Year d.Month d.Day % 7 + 6 := by
      omega
    unfold time.Time.Weekday
    rw [hL, ofAbs_Time_abs _ (by omega) (by omega), hq2,
      time.absWeekday_day _ (by omega) (by omega)]
    omega

end date

/-! ## Lemmas: `Time.Sub` on the instants of dates -/

namespace time

theorem tdiv_tmod_cases (d k : Int) (hk : 0 < k) :
    (0 ≤ d ∧ d.tdiv k = d / k ∧ d.tmod k = d % k) ∨
    (d < 0 ∧ d.tdiv k = -((-d) / k) ∧ d.tmod k = -((-d) % k)) := by
  by_cases h : 0 ≤ d
  · exact Or.inl ⟨h, Int.tdiv_eq_ediv h (by omega), Int.tmod_eq_emod h (by omega)⟩
  · have e1 : d.tdiv k = -((-d) / k) := by
      have := Int.neg_tdiv (-d) k
      rw [neg_neg] at this
      rw [this, Int.tdiv_eq_ediv (by omega) (by omega)]
    refine Or.inr ⟨by omega, e1, ?_⟩
    rw [Int.tmod_def, e1, Int.emod_def]
    ring

theorem wrap64_range (x : Int) : isInt64 (wrap64 x) := by
  unfold isInt64 wrap64
  omega

/-- Adding a duration `d` to the instant `u` gives the instant `t` exactly if `d` is the
difference of the two in nanoseconds; both instants have no nanoseconds and `t` has an
even count of seconds. -/
theorem Add_Equal_iff (t u : Time) (d : Int) (ht : t.wall = 0) (hu : u.wall = 0)
    (hti : isInt64 t.ext) (hui : isInt64 u.ext) (hte : t.ext % 2 = 0) (hd : isInt64 d) :
    (u.Add d).Equal t = true ↔ d = (t.ext - u.ext) * 1000000000 := by
  unfold isInt64 at hti hui hd
  unfold Time.Equal Time.Add Time.addSec Time.sec Time.nsec
  simp only [ht, hu, decide_eq_true_eq]
  rcases tdiv_tmod_cases d 1000000000 (by decide) with ⟨h0, hq, hr⟩ | ⟨h0, hq, hr⟩
  · rw [hq, hr]
    have hr1 : 0 ≤ d % 1000000000 := by omega
    have hr2 : d % 1000000000 < 1000000000 := by omega
    have c1 : ¬ ((0 : Int) % 1073741824 + d % 1000000000 ≥ 1000000000) := by omega
    have c2 : ¬ ((0 : Int) % 1073741824 + d % 1000000000 < 0) := by omega
    simp only [c1, c2, if_false]
    have hw : wrap64 (u.ext + d / 1000000000) = u.ext + d / 1000000000 ∨
        wrap64 (u.ext + d / 1000000000) = u.ext + d / 1000000000 - 18446744073709551616 := by
      unfold wrap64; omega
    have hs := wrap64_range (u.ext + d / 1000000000)
    unfold isInt64 at hs
    generalize wrap64 (u.ext + d / 1000000000) = s at hw hs ⊢
    split_ifs with k1 k2 <;> simp only [decide_eq_decide] at k1 <;> dsimp only <;> omega
  · rw [hq, hr]
    have hr1 : 0 ≤ (-d) % 1000000000 := by omega
    have hr2 : (-d) % 1000000000 < 1000000000 := by omega
    have c1 : ¬ ((0 : Int) % 1073741824 + -(-d % 1000000000) ≥ 1000000000) := by omega
    simp only [c1, if_false]
    by_cases hz : (-d) % 1000000000 = 0
    · have c2 : ¬ ((0 : Int) % 1073741824 + -(-d % 1000000000) < 0) := by omega
      simp only [c2, if_false]
      have hw : wrap64 (u.ext + -(-d / 1000000000)) = u.ext + -(-d / 1000000000) ∨
          wrap64 (u.ext + -(-d / 1000000000)) =
            u.ext + -(-d / 1000000000) + 18446744073709551616 := by
        unfold wrap64; omega
      have hs := wrap64_range (u.ext + -(-d / 1000000000))
      unfold isInt64 at hs
      generalize wrap64 (u.ext + -(-d / 1000000000)) = s at hw hs ⊢
      split_ifs with k1 k2 <;> simp only [decide_eq_decide] at k1 <;> dsimp only <;> omega
    · have c2 : (0 : Int) % 1073741824 + -(-d % 1000000000) < 0 := by omega
      simp only [c2, if_true]
      constructor
      · rintro ⟨-, h2⟩
        split_ifs at h2 <;> dsimp only at h2 <;> omega
      · intro h
        omega

end time

namespace time

/-- Method `Time.Sub` on two instants without nanoseconds whose counts of seconds are
even: the difference in nanoseconds if it fits a duration, else the minimum or maximum
duration. -/
theorem Sub_char (t u : Time) (ht : t.wall = 0) (hu : u.wall = 0)
    (hti : isInt64 t.ext) (hui : isInt64 u.ext) (hte : t.ext % 2 = 0) :
    t.Sub u =
      if -9223372036 ≤ t.ext - u.ext ∧ t.ext - u.ext ≤ 9223372036 then
        (t.ext - u.ext) * 1000000000
      else if t.ext < u.ext then minDuration
      else maxDuration := by
  have hd := wrap64_range (wrap64 (wrap64 (t.sec - u.sec) * Second) + (t.nsec - u.nsec))
  have key := Add_Equal_iff t u _ ht hu hti hui hte hd
  have hval : wrap64 (wrap64 (wrap64 (t.sec - u.sec) * Second) + (t.nsec - u.nsec)) =
      wrap64 ((t.ext - u.ext) * 1000000000) := by
    unfold Time.sec Time.nsec Second wrap64
    rw [ht, hu]
    omega
  unfold Time.Sub
  simp only []
  rw [hval] at key ⊢
  unfold isInt64 at hti hui
  by_cases hex : -9223372036 ≤ t.ext - u.ext ∧ t.ext - u.ext ≤ 9223372036
  · have hw : wrap64 ((t.ext - u.ext) * 1000000000) = (t.ext - u.ext) * 1000000000 :=
      wrap64_of_isInt64 _ (by unfold isInt64; omega)
    rw [if_pos hex, if_pos (key.mpr hw), hw]
  · have hne : ¬ (wrap64 ((t.ext - u.ext) * 1000000000) = (t.ext - u.ext) * 1000000000) := by
      intro h
      have := wrap64_range ((t.ext - u.ext) * 1000000000)
      rw [h] at this
      unfold isInt64 at this
      omega
    have hne' : ¬ ((u.Add (wrap64 ((t.ext - u.ext) * 1000000000))).Equal t = true) :=
      fun h => hne (key.mp h)
    rw [if_neg hex, if_neg hne']
    unfold Time.Before Time.sec Time.nsec
    rw [ht, hu]
    by_cases hlt : t.ext < u.ext
    · rw [if_pos hlt, if_pos (by simp [hlt])]
    · rw [if_neg hlt, if_neg (by simp [hlt])]

end time

namespace date

/-- The instant of a date, whatever its fields: no nanoseconds, an even count of seconds. -/
theorem Time_shape (d : Date) :
    d.Time.wall = 0 ∧ isInt64 d.Time.ext ∧ d.Time.ext % 2 = 0 := by
  unfold Date.Time startOfDay time.Date
  simp only [time.norm_id 0 0 1000000000 (by decide) (by decide),
    time.norm_id 0 0 60 (by decide) (by decide),
    time.norm_id _ 0 24 (by decide) (by decide)]
  unfold time.unixTime
  simp only []
  refine ⟨by decide, time.wrap64_range _, ?_⟩
  unfold time.secondsPerDay time.secondsPerHour time.secondsPerMinute time.absoluteToInternal
    time.internalToUnix time.unixToInternal
  generalize u64 (_ + (_ - 1)) = x
  unfold wrap64 u64
  omega

/-- Function `DiffInDays` from the counts of seconds of the two instants. -/
theorem DiffInDays_char (a b : Date) :
    DiffInDays a b =
      if -9223372036 ≤ a.Time.ext - b.Time.ext ∧ a.Time.ext - b.Time.ext ≤ 9223372036 then
        (if 0 ≤ a.Time.ext - b.Time.ext then a.Time.ext - b.Time.ext
          else -(a.Time.ext - b.Time.ext)) * 1000000000 / 86400000000000
      else 106751 := by
  obtain ⟨ha1, ha2, ha3⟩ := Time_shape a
  obtain ⟨hb1, hb2, -⟩ := Time_shape b
  unfold DiffInDays
  simp only []
  rw [time.Sub_char a.Time b.Time ha1 hb1 ha2 hb2 ha3]
  have h24 : 24 * time.Hour = 86400000000000 := by decide
  rw [h24]
  by_cases hex : -9223372036 ≤ a.Time.ext - b.Time.ext ∧ a.Time.ext - b.Time.ext ≤ 9223372036
  · rw [if_pos hex, if_pos hex]
    unfold time.Duration.Abs time.minDuration
    by_cases hs : 0 ≤ a.Time.ext - b.Time.ext
    · rw [if_pos hs, if_pos (by omega), time.tdiv_of_nonneg _ _ (by omega) (by decide)]
    · rw [if_neg hs, if_neg (by omega), if_neg (by omega),
        time.wrap64_of_isInt64 _ (by unfold isInt64; omega),
        time.tdiv_of_nonneg _ _ (by omega) (by decide)]
      congr 1
      ring
  · rw [if_neg hex, if_neg hex]
    by_cases hlt : a.Time.ext < b.Time.ext
    · rw [if_pos hlt]
      decide
    · rw [if_neg hlt]
      decide

/-- The seconds field of the midnight of a calendar date, as long as it does not wrap:
up to day 213503981521232 of the counter, which lies in the year 292277024627. -/
theorem Time_ext (d : Date) (hv : d.Valid) (hy : representable d.Year)
    (hN : time.dayNumber d.Year d.Month d.Day ≤ 213503981521232) :
    d.Time.ext = 86400 * time.dayNumber d.Year d.Month d.Day - 9223371966579724800 := by
  obtain ⟨h0, -⟩ := dayNumber_range d hv hy
  obtain ⟨habs, -, -, -⟩ := Time_of_valid d hv hy
  obtain ⟨-, hi, -⟩ := Time_shape d
  unfold time.Time.abs wrap64 u64 time.internalToUnix time.unixToInternal
    time.internalToAbsolute at habs
  unfold isInt64 at hi
  simp only [] at habs
  generalize time.dayNumber d.Year d.Month d.Day = N at *
  generalize d.Time.ext = e at *
  omega

/-- What `DiffInDays` returns for two calendar dates whose midnights do not wrap: the
number of days between them if that is at most 106751, and 106751 for every longer gap. -/
theorem DiffInDays_days (a b : Date) (hva : a.Valid) (hya : representable a.Year)
    (hNa : time.dayNumber a.Year a.Month a.Day ≤ 213503981521232)
    (hvb : b.Valid) (hyb : representable b.Year)
    (hNb : time.dayNumber b.Year b.Month b.Day ≤ 213503981521232) :
    DiffInDays a b =
      min 106751 |time.dayNumber a.Year a.Month a.Day - time.dayNumber b.Year b.Month b.Day| := by
  rw [DiffInDays_char a b, Time_ext a hva hya hNa, Time_ext b hvb hyb hNb]
  generalize time.dayNumber a.Year a.Month a.Day = A
  generalize time.dayNumber b.Year b.Month b.Day = B
  rcases abs_cases (A - B) with ⟨h1, h2⟩ | ⟨h1, h2⟩
  · rw [h1]
    by_cases hk : A - B ≤ 106751
    · rw [if_pos (by omega), if_pos (by omega), min_eq_right hk]
      omega
    · rw [if_neg (by omega), min_eq_left (by omega)]
  · rw [h1]
    by_cases hk : -(A - B) ≤ 106751
    · rw [if_pos (by omega), if_neg (by omega), min_eq_right hk]
      omega
    · rw [if_neg (by omega), min_eq_left (by omega)]

/-- What `DiffInDays d (d.AddDays n)` returns, for a calendar date and a day count that
stay where the midnights do not wrap: `|n|` up to 106751 days, and 106751 beyond. -/
theorem DiffInDays_AddDays (d : Date) (n : Int) (hv : d.Valid) (hy : representable d.Year)
    (h0 : 0 ≤ time.dayNumber d.Year d.Month d.Day + n)
    (h1 : time.dayNumber d.Year d.Month d.Day + n ≤ 213503981521232)
    (hN : time.dayNumber d.Year d.Month d.Day ≤ 213503981521232) :
    DiffInDays d (d.AddDays n) = min 106751 |n| := by
  have hu : u64 (86400 * (time.dayNumber d.Year d.Month d.Day + n)) =
      86400 * (time.dayNumber d.Year d.Month d.Day + n) :=
    time.u64_of_range _ (by omega) (by omega)
  have hA := AddDays_ofAbs d n hv hy
  rw [hu] at hA
  have hlt : 86400 * (time.dayNumber d.Year d.Month d.Day + n) < 18446744073709551616 := by
    omega
  obtain ⟨hv2, -, hn2⟩ := ofAbs_props _ (by omega : 0 ≤ 86400 *
    (time.dayNumber d.Year d.Month d.Day + n)) hlt
  have hr2 := ofAbs_representable (86400 * (time.dayNumber d.Year d.Month d.Day + n))
    (by omega) (by unfold time.lastDay; omega)
  rw [← hA] at hv2 hn2 hr2
  have hq : 86400 * (time.dayNumber d.Year d.Month d.Day + n) / 86400 =
      time.dayNumber d.Year d.Month d.Day + n := by omega
  rw [hq] at hn2
  rw [DiffInDays_days d (d.AddDays n) hv hy hN hv2 hr2 (by rw [hn2]; exact h1), hn2]
  congr 1
  rw [show time.dayNumber d.Year d.Month d.Day - (time.dayNumber d.Year d.Month d.Day + n) = -n
    by ring, abs_neg]

end date

/-! ## Texts of digits and hyphens: what `String` writes, and the quoting of `encoding/json` -/

namespace fmt

/-- The verb `%0Nd` on an `int` writes digits, after a hyphen for a negative number. -/
theorem fmtInteger_plain (wid : Nat) (x : Int) (h : isInt64 x) :
    plainText (fmtInteger wid x) := by
  unfold isInt64 at h
  have hd : ∀ u : Nat, u ≤ 9223372036854775808 → fmtDigits 20 u [] = decimal u := by
    intro u hu
    have hlt : u < 10 ^ (20 + 1) := by
      calc u ≤ 9223372036854775808 := hu
        _ < 10 ^ (20 + 1) := by norm_num
    rw [fmtDigits_eq 20 u [] hlt]
    simp
  intro b hb
  unfold fmtInteger at hb
  by_cases hneg : x < 0
  · have hu : (-x).toNat ≤ 9223372036854775808 := by omega
    simp only [hneg, decide_True, if_true, hd _ hu, List.mem_cons, List.mem_append,
      List.mem_replicate] at hb
    rcases hb with hb | hb | hb
    · left; exact hb
    · right; omega
    · right; exact decimal_digits _ b hb
  · have hu : x.toNat ≤ 9223372036854775808 := by omega
    simp only [hneg, decide_False, Bool.false_eq_true, if_false, hd _ hu, List.mem_append,
      List.mem_replicate] at hb
    rcases hb with hb | hb
    · right; omega
    · right; exact decimal_digits _ b hb

end fmt

namespace date

/-- The text that `String` writes for `int` fields holds digits and hyphens only. -/
theorem String_plain (d : Date) (hy : isInt64 d.Year) (hm : isInt64 d.Month)
    (hd : isInt64 d.Day) : plainText d.String := by
  intro b hb
  unfold Date.String at hb
  simp only [List.mem_append, List.mem_singleton] at hb
  rcases hb with (((hb | hb) | hb) | hb) | hb
  · exact fmt.fmtInteger_plain 4 _ hy b hb
  · left; exact hb
  · exact fmt.fmtInteger_plain 2 _ hm b hb
  · left; exact hb
  · exact fmt.fmtInteger_plain 2 _ hd b hb

end date

/-- The reference implementation meets what is assumed of `encoding/json`. -/
theorem Json.plain_lawful : Json.plain.Lawful := by
  intro s hs
  refine ⟨rfl, ?_⟩
  show Json.plain.Unmarshal (34 :: (s ++ [34])) = .ok s
  unfold Json.plain
  simp only [List.getLast?_append, List.getLast?_singleton, List.dropLast_concat]
  simp [hs]

namespace date

/-- A call of `Date.UnmarshalJSON` that returns an error leaves the receiver as it was. -/
theorem UnmarshalJSON_error (j : Json) (d : Date) (data : List Nat) :
    (d.UnmarshalJSON j data).2 ≠ none → (d.UnmarshalJSON j data).1 = d := by
  unfold Date.UnmarshalJSON
  cases j.Unmarshal data with
  | error e => intro _; rfl
  | ok str =>
    dsimp only
    cases FromISO8601 str with
    | error e => intro _; rfl
    | ok date => intro h; exact absurd rfl h

end date

/-! ## Timestamps with a location -/

namespace time

/-- In the location UTC the counter of `Time.absIn` is that of `Time.abs`. -/
theorem absIn_UTC (t : Time) : t.absIn UTC = t.abs := by
  unfold Time.absIn Time.abs UTC wrap64 u64
  simp only []
  omega

/-- A fixed zone shifts the counter by its offset, as long as nothing wraps. -/
theorem absIn_FixedZone (t : Time) (off : Int)
    (h0 : 0 ≤ t.abs + off) (h1 : t.abs + off < 9223372036854775808) :
    t.absIn (FixedZone off) = t.abs + off := by
  unfold Time.abs wrap64 u64 internalToUnix unixToInternal internalToAbsolute at h0 h1
  unfold Time.absIn Time.abs FixedZone wrap64 u64 internalToUnix unixToInternal
    internalToAbsolute
  simp only [] at h0 h1 ⊢
  omega

end time

namespace date

/-- What `Date.Scan` stores for a `time.Time`: the calendar date that the counter of the
`Time` in its location shows. -/
theorem Scan_time (d : Date) (t : time.Time) (l : time.Location) :
    d.Scan (.time t l) = (ofAbs (t.absIn l), none) ∧ (ofAbs (t.absIn l)).Valid := by
  have hr : 0 ≤ t.absIn l ∧ t.absIn l < 18446744073709551616 := by
    unfold time.Time.absIn
    exact time.u64_range _
  exact ⟨rfl, (ofAbs_props _ hr.1 hr.2).1⟩

end date

namespace fmt

/-- The verb `%02d` on a negative number down to -99: the sign, then the digits of the
absolute value without padding. -/
theorem fmtInteger_two_neg (n : Nat) (h1 : 1 ≤ n) (h2 : n ≤ 99) :
    fmtInteger 2 (-(n : Int)) = 45 :: (if n < 10 then [48 + n] else [48 + n / 10, 48 + n % 10]) := by
  interval_cases n <;> rfl

end fmt

/-! ## The claims -/

namespace date

/-- C1: `New y m d` returns the date `{y, m, d}` unchanged, without error, if the month is
in 1..12 and the day is in 1..`daysInMonth y m`, and returns an error otherwise. -/
theorem New_spec (y m d : Int) :
    ((1 ≤ m ∧ m ≤ 12 ∧ 1 ≤ d ∧ d ≤ daysInMonth y m) → New y m d = .ok ⟨y, m, d⟩) ∧
    (¬ (1 ≤ m ∧ m ≤ 12 ∧ 1 ≤ d ∧ d ≤ daysInMonth y m) → ∃ e, New y m d = .error e) := by
  unfold New
  constructor
  · rintro ⟨h1, h2, h3, h4⟩
    have a : ¬ (m > 12 ∨ m < 1) := by omega
    have b : ¬ d < 1 := by omega
    have c : ¬ d > daysInMonth y m := by omega
    simp only [a, b, c, if_false]
  · intro h
    by_cases a : m > 12 ∨ m < 1
    · exact ⟨_, by rw [if_pos a]⟩
    · by_cases b : d < 1
      · exact ⟨_, by rw [if_neg a, if_pos b]⟩
      · have c : d > daysInMonth y m := by omega
        exact ⟨_, by rw [if_neg a, if_neg b]; simp only []; rw [if_pos c]⟩

/-- C1, at 2004-02-29 (accepted) and at 2003-02-29 (rejected). -/
theorem New_spec_witness :
    New 2004 2 29 = .ok ⟨2004, 2, 29⟩ ∧ ∃ e, New 2003 2 29 = .error e :=
  ⟨(New_spec 2004 2 29).1 (by decide), (New_spec 2003 2 29).2 (by decide)⟩

/-- C2: for every integer year, negative ones and zero included, `isLeapYear` is true
exactly if the year is divisible by 400, or divisible by 4 and not by 100. -/
theorem isLeapYear_spec (year : Int) :
    isLeapYear year = true ↔ (400 ∣ year ∨ (4 ∣ year ∧ ¬ 100 ∣ year)) := by
  have t : ∀ x k : Int, x.tmod k = 0 ↔ k ∣ x :=
    fun _ _ => ⟨Int.dvd_of_tmod_eq_zero, Int.tmod_eq_zero_of_dvd⟩
  unfold isLeapYear
  simp only [t]
  by_cases h4 : (400 : Int) ∣ year
  · simp [h4]
  · by_cases h1 : (100 : Int) ∣ year
    · simp [h4, h1]
    · simp [h4, h1]

/-- C3, as stated, fails: 1 January of the year 10000 and 1 January of the year -1 are
calendar dates, their texts are `10000-01-01` and `-001-01-01`, and `FromISO8601` rejects
both. -/
theorem roundtrip_counterexample :
    (⟨10000, 1, 1⟩ : Date).Valid ∧
    (⟨10000, 1, 1⟩ : Date).String = ascii "10000-01-01" ∧
    FromISO8601 (⟨10000, 1, 1⟩ : Date).String = .error .bad ∧
    (⟨-1, 1, 1⟩ : Date).Valid ∧
    (⟨-1, 1, 1⟩ : Date).String = ascii "-001-01-01" ∧
    FromISO8601 (⟨-1, 1, 1⟩ : Date).String = .error .bad := by
  decide

/-- C3, amended: for every calendar date `d` of a year 0..9999,
`FromISO8601 d.String` succeeds and returns `d`. -/
theorem roundtrip (d : Date) (hv : d.Valid) (hy : 0 ≤ d.Year ∧ d.Year ≤ 9999) :
    FromISO8601 d.String = .ok d :=
  (FromISO8601_ok d.String d).mpr ⟨String_isoForm d hv hy, hv⟩

/-- C3, amended, at 2004-02-29. -/
theorem roundtrip_witness :
    FromISO8601 (⟨2004, 2, 29⟩ : Date).String = .ok ⟨2004, 2, 29⟩ :=
  roundtrip ⟨2004, 2, 29⟩ (by decide) (by decide)

/-- C4: `FromISO8601 s` succeeds exactly if `s` is ten bytes of the form `DDDD-DD-DD`
whose month field is in 1..12 and whose day field is in 1..`daysInMonth`; the date it
returns has the values of the three fields; in every other case it returns an error,
as for `2023-08-32` and `2003-02-29`. -/
theorem FromISO8601_spec (s : List Nat) :
    (∀ r : Date, FromISO8601 s = .ok r ↔
      (isoForm s r.Year r.Month r.Day ∧ 1 ≤ r.Month ∧ r.Month ≤ 12 ∧ 1 ≤ r.Day ∧
        r.Day ≤ daysInMonth r.Year r.Month)) ∧
    ((¬ ∃ y m d : Int, isoForm s y m d ∧ 1 ≤ m ∧ m ≤ 12 ∧ 1 ≤ d ∧ d ≤ daysInMonth y m) →
      ∃ e, FromISO8601 s = .error e) ∧
    (∃ e, FromISO8601 (ascii "2023-08-32") = .error e) ∧
    (∃ e, FromISO8601 (ascii "2003-02-29") = .error e) := by
  refine ⟨fun r => FromISO8601_ok s r, ?_, ⟨.dayOutOfRange, by decide⟩,
    ⟨.dayOutOfRange, by decide⟩⟩
  intro h
  cases hr : FromISO8601 s with
  | error e => exact ⟨e, rfl⟩
  | ok r =>
    exact absurd ⟨r.Year, r.Month, r.Day, (FromISO8601_ok s r).mp hr⟩ h

/-- C4, at the text `2004-02-29`, which is accepted, and at `2004-2-29`, which is not of
the form. -/
theorem FromISO8601_spec_witness :
    FromISO8601 (ascii "2004-02-29") = .ok ⟨2004, 2, 29⟩ ∧
    ∃ e, FromISO8601 (ascii "2004-2-29") = .error e :=
  ⟨((FromISO8601_spec (ascii "2004-02-29")).1 ⟨2004, 2, 29⟩).mpr
      ⟨⟨50, 48, 48, 52, 48, 50, 50, 57, by decide, by decide, by decide, by decide, by decide,
        by decide, by decide, by decide, by decide, by decide, by decide, by decide⟩,
       by decide⟩,
   (FromISO8601_spec (ascii "2004-2-29")).2.1 (by
      rintro ⟨y, m, d, ⟨a, b, c, e, f, g, i, j, -, -, -, -, -, -, -, -, hs, -⟩, -⟩
      have hl : (ascii "2004-2-29").length = 9 := by decide
      have := congrArg List.length hs
      rw [hl] at this
      simp at this)⟩

/-- C5: whatever the fields of the date and whatever the three deltas, the result of
`add`, and so of `AddDays`, `AddMonths` and `AddYears`, is a calendar date: its month is
in 1..12 and its day in 1..`daysInMonth`. -/
theorem add_valid (d : Date) (years months days : Int) :
    (1 ≤ (d.add years months days).Month ∧ (d.add years months days).Month ≤ 12 ∧
      1 ≤ (d.add years months days).Day ∧
      (d.add years months days).Day ≤
        daysInMonth (d.add years months days).Year (d.add years months days).Month) ∧
    (d.AddDays days).Valid ∧ (d.AddMonths months).Valid ∧ (d.AddYears years).Valid :=
  ⟨FromTime_valid _, FromTime_valid _, FromTime_valid _, FromTime_valid _⟩

/-- C6, as stated, fails: the calendar date 1 January of year 1000000000000 is beyond
the years that the seconds counter of `time.Time` holds, and `AddMonths 0` does not
return it. -/
theorem AddMonths_rollForward_counterexample :
    (⟨1000000000000, 1, 1⟩ : Date).Valid ∧
    (1 : Int) ≤ daysInMonth (1000000000000 + (1 - 1 + 0) / 12) ((1 - 1 + 0) % 12 + 1) ∧
    ¬ ((⟨1000000000000, 1, 1⟩ : Date).AddMonths 0 =
        ⟨1000000000000 + (1 - 1 + 0) / 12, (1 - 1 + 0) % 12 + 1, 1⟩) := by
  decide

/-- C6, amended: for a calendar date of a representable year and a delta `n` whose
target year `y'` is representable, `AddMonths n` is the roll-forward rule at
`t = (m - 1) + n`, `y' = y + ⌊t / 12⌋`, `m' = t mod 12 + 1`, and `AddYears n` is the same
rule at `t = (m - 1) + 12 n`. -/
theorem AddMonths_AddYears_rollForward (d : Date) (n : Int) (hv : d.Valid)
    (hy : representable d.Year) :
    (representable (d.Year + (d.Month - 1 + n) / 12) →
      d.AddMonths n =
        rollForward (d.Year + (d.Month - 1 + n) / 12) ((d.Month - 1 + n) % 12 + 1) d.Day) ∧
    (representable (d.Year + (d.Month - 1 + 12 * n) / 12) →
      d.AddYears n =
        rollForward (d.Year + (d.Month - 1 + 12 * n) / 12) ((d.Month - 1 + 12 * n) % 12 + 1)
          d.Day) := by
  have hm1 := hv.1
  have hm2 := hv.2.1
  constructor
  · intro h
    have h' : representable (d.Year + 0 + (d.Month - 1 + n) / 12) := by rw [add_zero]; exact h
    have := add_ym d 0 n hv hy (by rw [add_zero]; exact hy) h'
    rw [add_zero] at this
    exact this
  · intro h
    have e1 : d.Year + (d.Month - 1 + 12 * n) / 12 = d.Year + n := by omega
    have e2 : (d.Month - 1 + 12 * n) % 12 + 1 = d.Month := by omega
    have e3 : d.Year + n + (d.Month - 1 + 0) / 12 = d.Year + n := by omega
    have e4 : (d.Month - 1 + 0) % 12 + 1 = d.Month := by omega
    rw [e1] at h
    have := add_ym d n 0 hv hy h (by rw [e3]; exact h)
    rw [e3, e4] at this
    rw [e1, e2]
    exact this

/-- C6, amended, at 2004-02-29: one month later is 2004-03-29, one year later is
2005-03-01 and not 2005-02-28, four years later is 2008-02-29. -/
theorem AddMonths_AddYears_rollForward_witness :
    (⟨2004, 2, 29⟩ : Date).AddMonths 1 = ⟨2004, 3, 29⟩ ∧
    (⟨2004, 2, 29⟩ : Date).AddYears 1 = ⟨2005, 3, 1⟩ ∧
    (⟨2004, 2, 29⟩ : Date).AddYears 4 = ⟨2008, 2, 29⟩ :=
  ⟨((AddMonths_AddYears_rollForward ⟨2004, 2, 29⟩ 1 (by decide) (by decide)).1
      (by decide)).trans (by decide),
   ((AddMonths_AddYears_rollForward ⟨2004, 2, 29⟩ 1 (by decide) (by decide)).2
      (by decide)).trans (by decide),
   ((AddMonths_AddYears_rollForward ⟨2004, 2, 29⟩ 4 (by decide) (by decide)).2
      (by decide)).trans (by decide)⟩

/-- C7, as stated, fails: for 2000-01-01 with 1000000000000 years the instant is beyond
the seconds counter, and 200000000000000 days counted on the combined call and on the
intermediate result give different dates. -/
theorem add_days_counterexample :
    (⟨2000, 1, 1⟩ : Date).Valid ∧
    ¬ ((⟨2000, 1, 1⟩ : Date).add 1000000000000 0 200000000000000 =
        ((⟨2000, 1, 1⟩ : Date).add 1000000000000 0 0).AddDays 200000000000000) := by
  decide

/-- C7, amended: for a calendar date of a representable year, and deltas whose year
after the year delta and whose year after the month delta are representable,
`d.add years months days` equals `(d.add years months 0).AddDays days`, for every
day delta. -/
theorem add_eq_add_AddDays (d : Date) (years months days : Int) (hv : d.Valid)
    (hy : representable d.Year) (hyy : representable (d.Year + years))
    (hY : representable (d.Year + years + (d.Month - 1 + months) / 12)) :
    d.add years months days = (d.add years months 0).AddDays days :=
  add_days d years months days hv hy hyy hY

/-- C7, amended, at 2023-08-24 with 2 years, 30 months and 15 days. -/
theorem add_eq_add_AddDays_witness :
    (⟨2023, 8, 24⟩ : Date).add 2 30 15 = ((⟨2023, 8, 24⟩ : Date).add 2 30 0).AddDays 15 :=
  add_eq_add_AddDays ⟨2023, 8, 24⟩ 2 30 15 (by decide) (by decide) (by decide) (by decide)

/-- C8, as stated, fails: 2004-02-29 plus 1 year and 1 month in one call is 2005-03-29,
while a year, then a month, then no days gives 2005-04-01. -/
theorem add_sequential_counterexample :
    (⟨2004, 2, 29⟩ : Date).Valid ∧
    (⟨2004, 2, 29⟩ : Date).add 1 1 0 = ⟨2005, 3, 29⟩ ∧
    (((⟨2004, 2, 29⟩ : Date).AddYears 1).AddMonths 1).AddDays 0 = ⟨2005, 4, 1⟩ ∧
    ¬ ((⟨2004, 2, 29⟩ : Date).add 1 1 0 =
        (((⟨2004, 2, 29⟩ : Date).AddYears 1).AddMonths 1).AddDays 0) := by
  decide

/-- C8, amended: for a calendar date of a representable year and deltas that keep the
years representable, `add` adds the year and the month delta to the fields together, rolls
over once and then counts the days: `d.add years months days` equals
`(d.AddMonths (12 * years + months)).AddDays days`; and it equals
`((d.AddYears years).AddMonths months).AddDays days` whenever the year step alone does not
roll over, that is `d.Day ≤ daysInMonth (d.Year + years) d.Month`. -/
theorem add_eq_sequential (d : Date) (years months days : Int) (hv : d.Valid)
    (hy : representable d.Year) (hyy : representable (d.Year + years))
    (hY : representable (d.Year + years + (d.Month - 1 + months) / 12)) :
    d.add years months days = (d.AddMonths (12 * years + months)).AddDays days ∧
    (d.Day ≤ daysInMonth (d.Year + years) d.Month →
      d.add years months days = ((d.AddYears years).AddMonths months).AddDays days) := by
  have hm1 := hv.1
  have hm2 := hv.2.1
  have hd1 := hv.2.2.1
  have key := add_ym d years months hv hy hyy hY
  constructor
  · have e1 : d.Year + 0 + (d.Month - 1 + (12 * years + months)) / 12 =
        d.Year + years + (d.Month - 1 + months) / 12 := by omega
    have e2 : (d.Month - 1 + (12 * years + months)) % 12 + 1 = (d.Month - 1 + months) % 12 + 1 := by
      omega
    have h := add_ym d 0 (12 * years + months) hv hy (by rw [add_zero]; exact hy)
      (by rw [e1]; exact hY)
    rw [e1, e2, ← key] at h
    rw [add_days d years months days hv hy hyy hY]
    unfold Date.AddMonths
    rw [h]
  · intro hroll
    have e3 : d.Year + years + (d.Month - 1 + 0) / 12 = d.Year + years := by omega
    have e4 : (d.Month - 1 + 0) % 12 + 1 = d.Month := by omega
    have hyears : d.AddYears years = ⟨d.Year + years, d.Month, d.Day⟩ := by
      have h := add_ym d years 0 hv hy hyy (by rw [e3]; exact hyy)
      rw [e3, e4] at h
      unfold Date.AddYears
      rw [h]
      unfold rollForward
      rw [if_pos hroll]
    have hev : (⟨d.Year + years, d.Month, d.Day⟩ : Date).Valid := ⟨hm1, hm2, hd1, hroll⟩
    have h2 := add_ym ⟨d.Year + years, d.Month, d.Day⟩ 0 months hev hyy
      (by rw [add_zero]; exact hyy) (by rw [add_zero]; exact hY)
    simp only [add_zero] at h2
    rw [← key] at h2
    rw [add_days d years months days hv hy hyy hY, hyears]
    unfold Date.AddMonths
    rw [h2]

/-- C8, amended, at the two pinned cases: 2023-08-24 plus 20 years, 5 months and 3 days
is 2044-01-27, and plus 2 years, 30 months and 15 days is 2028-03-10, also step by step. -/
theorem add_eq_sequential_witness :
    (((⟨2023, 8, 24⟩ : Date).AddYears 20).AddMonths 5).AddDays 3 = ⟨2044, 1, 27⟩ ∧
    (((⟨2023, 8, 24⟩ : Date).AddYears 2).AddMonths 30).AddDays 15 = ⟨2028, 3, 10⟩ ∧
    ((⟨2023, 8, 24⟩ : Date).AddMonths (12 * 2 + 30)).AddDays 15 = ⟨2028, 3, 10⟩ :=
  ⟨((add_eq_sequential ⟨2023, 8, 24⟩ 20 5 3 (by decide) (by decide) (by decide)
      (by decide)).2 (by decide)).symm.trans (by decide),
   ((add_eq_sequential ⟨2023, 8, 24⟩ 2 30 15 (by decide) (by decide) (by decide)
      (by decide)).2 (by decide)).symm.trans (by decide),
   ((add_eq_sequential ⟨2023, 8, 24⟩ 2 30 15 (by decide) (by decide) (by decide)
      (by decide)).1).symm.trans (by decide)⟩

/-- C9: `a.IsBefore b` holds exactly if `(a.Year, a.Month, a.Day)` is lexicographically
smaller than `(b.Year, b.Month, b.Day)`, and `a.IsAfter b` holds exactly if `b.IsBefore a`. -/
theorem IsBefore_IsAfter_spec (a b : Date) :
    (a.IsBefore b = true ↔ lexLt (a.Year, a.Month, a.Day) (b.Year, b.Month, b.Day)) ∧
    (a.IsAfter b = true ↔ b.IsBefore a = true) := by
  unfold Date.IsBefore Date.IsAfter lexLt
  constructor
  · split_ifs <;> simp <;> omega
  · split_ifs <;> simp <;> omega

/-- C10: the order is a strict total order: of `a.IsBefore b`, `a.Equal b` and
`a.IsAfter b` exactly one holds, `IsBefore` is irreflexive, and `IsBefore` is transitive. -/
theorem order_strict_total (a b c : Date) :
    ((a.IsBefore b = true ∨ a.Equal b = true ∨ a.IsAfter b = true) ∧
      ¬ (a.IsBefore b = true ∧ a.Equal b = true) ∧
      ¬ (a.IsBefore b = true ∧ a.IsAfter b = true) ∧
      ¬ (a.Equal b = true ∧ a.IsAfter b = true)) ∧
    a.IsBefore a = false ∧
    (a.IsBefore b = true → b.IsBefore c = true → a.IsBefore c = true) := by
  unfold Date.IsBefore Date.IsAfter Date.Equal
  refine ⟨⟨?_, ?_, ?_, ?_⟩, ?_, ?_⟩
  · (split_ifs <;> simp)
    omega
  · split_ifs <;> simp <;> omega
  · split_ifs <;> simp <;> omega
  · split_ifs <;> simp <;> omega
  · simp
  · split_ifs <;> simp <;> omega

/-- C10, at 2023-08-24, 2023-08-25 and 2024-01-01. -/
theorem order_strict_total_witness :
    (⟨2023, 8, 24⟩ : Date).IsBefore ⟨2024, 1, 1⟩ = true :=
  (order_strict_total ⟨2023, 8, 24⟩ ⟨2023, 8, 25⟩ ⟨2024, 1, 1⟩).2.2 (by decide) (by decide)

/-- C11: `a.Compare b` is exactly -1, 0 or 1; it is -1 exactly if `a.IsBefore b`, 0 exactly
if `a.Equal b`, and 1 exactly if `a.IsAfter b`. -/
theorem Compare_spec (a b : Date) :
    (a.Compare b = -1 ∨ a.Compare b = 0 ∨ a.Compare b = 1) ∧
    (a.Compare b = -1 ↔ a.IsBefore b = true) ∧
    (a.Compare b = 0 ↔ a.Equal b = true) ∧
    (a.Compare b = 1 ↔ a.IsAfter b = true) := by
  unfold Date.Compare Date.IsBefore Date.IsAfter Date.Equal
  refine ⟨?_, ?_, ?_, ?_⟩
  · split_ifs <;> simp
  · split_ifs <;> simp <;> omega
  · split_ifs <;> simp <;> omega
  · split_ifs <;> simp <;> omega

/-- C12, as stated, fails: 15 January of the year 1000000000000 is a calendar date beyond
the years that the seconds counter of `time.Time` holds; `StartOfMonth` and `EndOfMonth`,
which go through that counter, return neither the first nor the last day of its month. -/
theorem StartOfMonth_counterexample :
    (⟨1000000000000, 1, 15⟩ : Date).Valid ∧
    ¬ ((⟨1000000000000, 1, 15⟩ : Date).StartOfMonth = (⟨1000000000000, 1, 15⟩ : Date).FirstOfMonth) ∧
    ¬ ((⟨1000000000000, 1, 15⟩ : Date).EndOfMonth = (⟨1000000000000, 1, 15⟩ : Date).LastOfMonth) := by
  decide

/-- C12, amended: for every calendar date `d` of a representable year, `d.StartOfMonth`
equals `d.FirstOfMonth`, which is `{d.Year, d.Month, 1}`, and `d.EndOfMonth` equals
`d.LastOfMonth`, which is `{d.Year, d.Month, daysInMonth d.Year d.Month}`. -/
theorem StartOfMonth_EndOfMonth_spec (d : Date) (hv : d.Valid) (hy : representable d.Year) :
    d.StartOfMonth = d.FirstOfMonth ∧ d.FirstOfMonth = ⟨d.Year, d.Month, 1⟩ ∧
    d.EndOfMonth = d.LastOfMonth ∧
    d.LastOfMonth = ⟨d.Year, d.Month, daysInMonth d.Year d.Month⟩ := by
  have hm : 1 ≤ d.Month ∧ d.Month ≤ 12 := ⟨hv.1, hv.2.1⟩
  have hd1 := hv.2.2.1
  have hle := daysInMonth_le d.Year d.Month hm
  have hd31 : d.Day ≤ 31 := by have := hv.2.2.2; omega
  have hy' := hy
  unfold representable time.minYear time.maxYear at hy'
  refine ⟨?_, rfl, ?_, rfl⟩
  · have e0 : wrap64 (wrap64 (-d.Day) + 1) = 1 - d.Day := by
      rw [time.wrap64_of_isInt64 (-d.Day) (by unfold isInt64; omega),
        time.wrap64_of_isInt64 _ (by unfold isInt64; omega)]
      ring
    have e1 : d.Year + 0 + (d.Month - 1 + 0) / 12 = d.Year := by omega
    have e2 : (d.Month - 1 + 0) % 12 + 1 = d.Month := by omega
    have e3 : time.dayNumber d.Year d.Month d.Day + (1 - d.Day) = time.dayNumber d.Year d.Month 1 := by
      unfold time.dayNumber time.ydayOf
      ring
    obtain ⟨hb0, hb1⟩ := time.dayNumber_bounds d.Year d.Month 1 hy hm (by decide)
    unfold Date.StartOfMonth Date.FirstOfMonth
    rw [e0, add_abs d 0 0 (1 - d.Day) hv hy (by rw [add_zero]; exact hy) (by rw [e1]; exact hy),
      e1, e2, e3, time.u64_of_range _ (by omega) (by omega),
      ofAbs_dayNumber d.Year d.Month 1 hy hm (by decide)]
    unfold rollForward
    rw [if_pos (by omega)]
  · have e0 : wrap64 (-d.Day) = -d.Day := time.wrap64_of_isInt64 _ (by unfold isInt64; omega)
    have e1 : d.Year + 0 + (d.Month - 1 + 1) / 12 = d.Year + d.Month / 12 := by omega
    have e2 : (d.Month - 1 + 1) % 12 + 1 = d.Month % 12 + 1 := by omega
    have e3 : ∀ Y M : Int, time.dayNumber Y M d.Day + -d.Day = time.dayNumber Y M 0 := by
      intro Y M
      unfold time.dayNumber time.ydayOf
      ring
    obtain ⟨hb0, hb1⟩ := time.dayNumber_bounds d.Year d.Month (daysInMonth d.Year d.Month) hy hm
      (by omega)
    unfold Date.EndOfMonth Date.LastOfMonth
    rw [e0, add_abs_wide d 0 1 (-d.Day) hv hy (by rw [add_zero]; exact hy)
        (by rw [e1]; unfold time.minYear time.maxYear; omega),
      e1, e2, e3, dayNumber_day_zero d.Year d.Month hm,
      time.u64_of_range _ (by omega) (by omega),
      ofAbs_dayNumber d.Year d.Month _ hy hm (by omega)]
    unfold rollForward
    rw [if_pos (le_refl _)]

/-- C12, amended, at 2024-02-15 and at 2023-12-31, the last month of a year. -/
theorem StartOfMonth_EndOfMonth_spec_witness :
    (⟨2024, 2, 15⟩ : Date).StartOfMonth = ⟨2024, 2, 1⟩ ∧
    (⟨2024, 2, 15⟩ : Date).EndOfMonth = ⟨2024, 2, 29⟩ ∧
    (⟨2023, 12, 31⟩ : Date).EndOfMonth = ⟨2023, 12, 31⟩ :=
  ⟨(StartOfMonth_EndOfMonth_spec ⟨2024, 2, 15⟩ (by decide) (by decide)).1.trans (by decide),
   (StartOfMonth_EndOfMonth_spec ⟨2024, 2, 15⟩ (by decide) (by decide)).2.2.1.trans (by decide),
   (StartOfMonth_EndOfMonth_spec ⟨2023, 12, 31⟩ (by decide) (by decide)).2.2.1.trans (by decide)⟩

/-- C17, as stated, fails: for a negative year Go's `%` gives a negative remainder and
`%02d` writes its sign: the calendar date 28 February of the year -1 gives `-10228`, which
is not six digits, and that of the year -123 gives the seven bytes `-230228`. -/
theorem ShortString_counterexample :
    (⟨-1, 2, 28⟩ : Date).Valid ∧
    (⟨-1, 2, 28⟩ : Date).ShortString = ascii "-10228" ∧
    ¬ (∀ b ∈ (⟨-1, 2, 28⟩ : Date).ShortString, digitByte b) ∧
    (⟨-123, 2, 28⟩ : Date).Valid ∧
    (⟨-123, 2, 28⟩ : Date).ShortString = ascii "-230228" := by
  decide

/-- C17, amended: for every calendar date `d`, `d.ShortString` is exactly six decimal
digits if and only if the year is non-negative or a multiple of 100, which is to say that
Go's `year % 100` is not negative; the text is then the two digits of `year mod 100`, the
two digits of the month and the two digits of the day: `{1, 2, 29}` gives `010229`,
`{4892, 2, 29}` gives `920229` and `{-100, 1, 1}` gives `000101`.  For every other year Go's
`year % 100` is `-n` with `n` in 1..99, and the text is a minus sign, `n` without padding,
the two digits of the month and the two digits of the day. -/
theorem ShortString_spec (d : Date) (hv : d.Valid) :
    ((0 ≤ d.Year ∨ d.Year % 100 = 0) ↔ 0 ≤ d.Year.tmod 100) ∧
    ((0 ≤ d.Year ∨ d.Year % 100 = 0) →
      d.ShortString =
        [48 + (d.Year % 100).toNat / 10, 48 + (d.Year % 100).toNat % 10,
         48 + d.Month.toNat / 10, 48 + d.Month.toNat % 10,
         48 + d.Day.toNat / 10, 48 + d.Day.toNat % 10]) ∧
    (¬ (0 ≤ d.Year ∨ d.Year % 100 = 0) →
      (1 ≤ (-(d.Year.tmod 100)).toNat ∧ (-(d.Year.tmod 100)).toNat ≤ 99) ∧
      d.ShortString =
        45 :: ((if (-(d.Year.tmod 100)).toNat < 10 then [48 + (-(d.Year.tmod 100)).toNat]
            else [48 + (-(d.Year.tmod 100)).toNat / 10, 48 + (-(d.Year.tmod 100)).toNat % 10]) ++
          [48 + d.Month.toNat / 10, 48 + d.Month.toNat % 10,
           48 + d.Day.toNat / 10, 48 + d.Day.toNat % 10])) ∧
    ((d.ShortString.length = 6 ∧ ∀ b ∈ d.ShortString, digitByte b) ↔
      (0 ≤ d.Year ∨ d.Year % 100 = 0)) ∧
    (⟨1, 2, 29⟩ : Date).ShortString = ascii "010229" ∧
    (⟨4892, 2, 29⟩ : Date).ShortString = ascii "920229" ∧
    (⟨-100, 1, 1⟩ : Date).ShortString = ascii "000101" := by
  obtain ⟨hm1, hm2, hd1, hd2⟩ := hv
  have hd31 := (daysInMonth_le d.Year d.Month ⟨hm1, hm2⟩).2
  have em : d.Month = ((d.Month.toNat : Nat) : Int) := by rw [Int.toNat_of_nonneg (by omega)]
  have ed : d.Day = ((d.Day.toNat : Nat) : Int) := by rw [Int.toNat_of_nonneg (by omega)]
  have hT := time.tdiv_tmod_cases d.Year 100 (by decide)
  have hiff : (0 ≤ d.Year ∨ d.Year % 100 = 0) ↔ 0 ≤ d.Year.tmod 100 := by
    rcases hT with ⟨h0, -, h2⟩ | ⟨h0, -, h2⟩ <;> rw [h2] <;> omega
  have hgood : (0 ≤ d.Year ∨ d.Year % 100 = 0) →
      d.ShortString =
        [48 + (d.Year % 100).toNat / 10, 48 + (d.Year % 100).toNat % 10,
         48 + d.Month.toNat / 10, 48 + d.Month.toNat % 10,
         48 + d.Day.toNat / 10, 48 + d.Day.toNat % 10] := by
    intro hg
    have ey : d.Year.tmod 100 = (((d.Year % 100).toNat : Nat) : Int) := by
      rw [Int.toNat_of_nonneg (by omega)]
      rcases hT with ⟨h0, -, h2⟩ | ⟨h0, -, h2⟩ <;> omega
    unfold Date.ShortString
    rw [ey, fmt.fmtInteger_two _ (by omega)]
    conv_lhs => rw [em, ed]
    rw [fmt.fmtInteger_two _ (by omega), fmt.fmtInteger_two _ (by omega)]
    rfl
  have hbad : ¬ (0 ≤ d.Year ∨ d.Year % 100 = 0) →
      (1 ≤ (-(d.Year.tmod 100)).toNat ∧ (-(d.Year.tmod 100)).toNat ≤ 99) ∧
      d.ShortString =
        45 :: ((if (-(d.Year.tmod 100)).toNat < 10 then [48 + (-(d.Year.tmod 100)).toNat]
            else [48 + (-(d.Year.tmod 100)).toNat / 10, 48 + (-(d.Year.tmod 100)).toNat % 10]) ++
          [48 + d.Month.toNat / 10, 48 + d.Month.toNat % 10,
           48 + d.Day.toNat / 10, 48 + d.Day.toNat % 10]) := by
    intro hb
    have hr : -99 ≤ d.Year.tmod 100 ∧ d.Year.tmod 100 ≤ -1 := by
      rcases hT with ⟨h0, -, h2⟩ | ⟨h0, -, h2⟩ <;> rw [h2] <;> omega
    have hn : 1 ≤ (-(d.Year.tmod 100)).toNat ∧ (-(d.Year.tmod 100)).toNat ≤ 99 := by omega
    have ey : d.Year.tmod 100 = -(((-(d.Year.tmod 100)).toNat : Nat) : Int) := by
      rw [Int.toNat_of_nonneg (by omega)]
      ring
    refine ⟨hn, ?_⟩
    generalize (-(d.Year.tmod 100)).toNat = n at hn ey ⊢
    unfold Date.ShortString
    rw [ey, fmt.fmtInteger_two_neg n hn.1 hn.2]
    conv_lhs => rw [em, ed]
    rw [fmt.fmtInteger_two _ (by omega), fmt.fmtInteger_two _ (by omega)]
    simp
  refine ⟨hiff, hgood, hbad, ?_, by decide, by decide, by decide⟩
  constructor
  · rintro ⟨-, hdig⟩
    by_contra hb
    have h45 := hdig 45 (by rw [(hbad hb).2]; exact List.mem_cons_self _ _)
    unfold digitByte at h45
    omega
  · intro hg
    rw [hgood hg]
    refine ⟨rfl, ?_⟩
    intro b hb
    simp only [List.mem_cons, List.mem_singleton, List.not_mem_nil, or_false] at hb
    unfold digitByte
    omega

/-- C17, amended, at 2023-08-24. -/
theorem ShortString_spec_witness :
    (⟨2023, 8, 24⟩ : Date).ShortString = ascii "230824" :=
  ((ShortString_spec ⟨2023, 8, 24⟩ (by decide)).2.1 (Or.inl (by decide))).trans (by decide)

/-- C18: for every calendar date `d` of a non-negative year (an `int`), `d.String` is the
decimal expansion of the year with zeros in front up to four digits, a hyphen, the two
digits of the month, a hyphen and the two digits of the day; it has exactly ten bytes for
a year up to 9999, and a year of more than four digits is written in full, without
padding. -/
theorem String_spec (d : Date) (hv : d.Valid) (hy : 0 ≤ d.Year)
    (hi : d.Year ≤ 9223372036854775807) :
    d.String =
      fmt.zeroPad 4 (fmt.decimal d.Year.toNat) ++ [45] ++
        [48 + d.Month.toNat / 10, 48 + d.Month.toNat % 10] ++ [45] ++
        [48 + d.Day.toNat / 10, 48 + d.Day.toNat % 10] ∧
    (d.Year ≤ 9999 → d.String.length = 10) ∧
    (9999 < d.Year → fmt.zeroPad 4 (fmt.decimal d.Year.toNat) = fmt.decimal d.Year.toNat) := by
  obtain ⟨hm1, hm2, hd1, hd2⟩ := hv
  have hd31 := (daysInMonth_le d.Year d.Month ⟨hm1, hm2⟩).2
  have em : d.Month = ((d.Month.toNat : Nat) : Int) := by rw [Int.toNat_of_nonneg (by omega)]
  have ed : d.Day = ((d.Day.toNat : Nat) : Int) := by rw [Int.toNat_of_nonneg (by omega)]
  refine ⟨?_, ?_, ?_⟩
  · unfold Date.String
    rw [fmt.fmtInteger_nonneg 4 d.Year hy hi]
    conv_lhs => rw [em, ed]
    rw [fmt.fmtInteger_two _ (by omega), fmt.fmtInteger_two _ (by omega)]
  · intro h
    obtain ⟨y1, y2, y3, y4, m1, m2, d1, d2, -, -, -, -, -, -, -, -, hs, -⟩ :=
      String_isoForm d ⟨hm1, hm2, hd1, hd2⟩ ⟨hy, h⟩
    rw [hs]
    rfl
  · intro h
    have hl := fmt.decimal_length d.Year.toNat (by omega)
    unfold fmt.zeroPad
    have e : 4 - (fmt.decimal d.Year.toNat).length = 0 := by omega
    rw [e]
    rfl

/-- C18, at 2023-08-15: ten bytes. -/
theorem String_spec_witness : (⟨2023, 8, 15⟩ : Date).String.length = 10 :=
  (String_spec ⟨2023, 8, 15⟩ (by decide) (by decide) (by decide)).2.1 (by decide)

/-- C13, as stated, fails: 1 January of the year 1000000000000 is a calendar date beyond
the years that the seconds counter of `time.Time` holds; its `FirstOfWeek` is a date of
the year -169108098508, and the date is none of the seven days of the week that starts
there. -/
theorem FirstOfWeek_counterexample :
    (⟨1000000000000, 1, 1⟩ : Date).Valid ∧
    (⟨1000000000000, 1, 1⟩ : Date).FirstOfWeek = ⟨-169108098508, 4, 11⟩ ∧
    ∀ j ∈ [(0 : Int), 1, 2, 3, 4, 5, 6],
      ¬ ((⟨1000000000000, 1, 1⟩ : Date).FirstOfWeek.AddDays j = ⟨1000000000000, 1, 1⟩) := by
  decide

/-- C13, amended: for every calendar date `d` of a representable year, with `k` the
offset of its weekday (6 for a Sunday, else the Monday-based index minus 1),
`d.FirstOfWeek` equals `d.AddDays (-k)`, `k` is the only offset in 0..6 with that
property, `d.FirstOfWeek` falls on a Monday, `d` is day `k` of the week that starts there,
and every day of that week (of a representable year) has the same `FirstOfWeek`. -/
theorem FirstOfWeek_spec (d : Date) (hv : d.Valid) (hy : representable d.Year) :
    (0 ≤ weekOffset d.Time.Weekday ∧ weekOffset d.Time.Weekday ≤ 6) ∧
    d.FirstOfWeek = d.AddDays (-(weekOffset d.Time.Weekday)) ∧
    (∀ j : Int, 0 ≤ j → j ≤ 6 → d.AddDays (-j) = d.FirstOfWeek →
      j = weekOffset d.Time.Weekday) ∧
    d.FirstOfWeek.Time.Weekday = 1 ∧
    d.FirstOfWeek.AddDays (weekOffset d.Time.Weekday) = d ∧
    (∀ j : Int, 0 ≤ j → j ≤ 6 → representable (d.FirstOfWeek.AddDays j).Year →
      (d.FirstOfWeek.AddDays j).FirstOfWeek = d.FirstOfWeek) := by
  obtain ⟨h0, h1⟩ := dayNumber_range d hv hy
  unfold time.lastDay at h1
  have hwd := Weekday_eq d hv hy
  have hk := weekOffset_eq (time.dayNumber d.Year d.Month d.Day)
  obtain ⟨hF1, hF⟩ := FirstOfWeek_ofAbs d hv hy
  obtain ⟨hkr, hFv, hFr, hFn, hFw, hFd, -, -⟩ := week_props d hv hy
  refine ⟨hkr, hF1, ?_, hFw, hFd, ?_⟩
  · intro j hj0 hj6 hj
    rw [AddDays_ofAbs d (-j) hv hy, hF] at hj
    have hq : 86400 * (time.dayNumber d.Year d.Month d.Day -
        time.dayNumber d.Year d.Month d.Day % 7) / 86400 =
        time.dayNumber d.Year d.Month d.Day - time.dayNumber d.Year d.Month d.Day % 7 := by
      omega
    obtain ⟨-, -, hn1⟩ := ofAbs_props (u64 (86400 * (time.dayNumber d.Year d.Month d.Day + -j)))
      (time.u64_range _).1 (time.u64_range _).2
    obtain ⟨-, -, hn2⟩ := ofAbs_props (86400 * (time.dayNumber d.Year d.Month d.Day -
        time.dayNumber d.Year d.Month d.Day % 7)) (by omega) (by omega)
    rw [hj, hn2, hq] at hn1
    rw [hwd, hk]
    by_cases hneg : 0 ≤ time.dayNumber d.Year d.Month d.Day + -j
    · rw [time.u64_of_range _ (by omega) (by omega)] at hn1
      omega
    · have e : u64 (86400 * (time.dayNumber d.Year d.Month d.Day + -j)) =
          86400 * (time.dayNumber d.Year d.Month d.Day + -j) + 18446744073709551616 := by
        unfold u64
        omega
      rw [e] at hn1
      omega
  · intro j hj0 hj6 hjr
    have he : d.FirstOfWeek.AddDays j = ofAbs (86400 * (time.dayNumber d.Year d.Month d.Day -
        time.dayNumber d.Year d.Month d.Day % 7 + j)) := by
      rw [AddDays_ofAbs _ _ hFv hFr, hFn, time.u64_of_range _ (by omega) (by omega)]
    have hq : 86400 * (time.dayNumber d.Year d.Month d.Day -
        time.dayNumber d.Year d.Month d.Day % 7 + j) / 86400 =
        time.dayNumber d.Year d.Month d.Day - time.dayNumber d.Year d.Month d.Day % 7 + j := by
      omega
    obtain ⟨hev, -, hen⟩ := ofAbs_props (86400 * (time.dayNumber d.Year d.Month d.Day -
        time.dayNumber d.Year d.Month d.Day % 7 + j)) (by omega) (by omega)
    rw [← he] at hev hen
    rw [hq] at hen
    rw [(FirstOfWeek_ofAbs _ hev hjr).2, hen, hF]
    congr 2
    omega

/-- C13, amended, at 2023-08-24, a Thursday: its `FirstOfWeek` is 2023-08-21, a Monday,
the Sunday of that week has the same `FirstOfWeek`, and so has every day from 2023-08-21
to 2023-08-27. -/
theorem FirstOfWeek_spec_witness :
    (⟨2023, 8, 24⟩ : Date).FirstOfWeek = ⟨2023, 8, 21⟩ ∧
    (⟨2023, 8, 24⟩ : Date).FirstOfWeek.Time.Weekday = 1 ∧
    ((⟨2023, 8, 24⟩ : Date).FirstOfWeek.AddDays 6).FirstOfWeek =
      (⟨2023, 8, 24⟩ : Date).FirstOfWeek ∧
    ∀ x ∈ [(21 : Int), 22, 23, 24, 25, 26, 27],
      (⟨2023, 8, x⟩ : Date).FirstOfWeek = ⟨2023, 8, 21⟩ :=
  ⟨(FirstOfWeek_spec ⟨2023, 8, 24⟩ (by decide) (by decide)).2.1.trans (by decide),
   (FirstOfWeek_spec ⟨2023, 8, 24⟩ (by decide) (by decide)).2.2.2.1,
   (FirstOfWeek_spec ⟨2023, 8, 24⟩ (by decide) (by decide)).2.2.2.2.2 6 (by decide) (by decide)
     (by decide),
   by decide⟩

/-- C14, as stated, fails: 1 January of the year 1000000000000 is a calendar date beyond
the years that the seconds counter of `time.Time` holds; its `LastOfWeek` is a date of the
year -169108098508, and the date is none of the seven days of the week that ends there. -/
theorem LastOfWeek_counterexample :
    (⟨1000000000000, 1, 1⟩ : Date).Valid ∧
    (⟨1000000000000, 1, 1⟩ : Date).LastOfWeek = ⟨-169108098508, 4, 17⟩ ∧
    ∀ j ∈ [(0 : Int), 1, 2, 3, 4, 5, 6],
      ¬ ((⟨1000000000000, 1, 1⟩ : Date).LastOfWeek.AddDays (-j) = ⟨1000000000000, 1, 1⟩) := by
  decide

/-- C14, amended: for every calendar date `d` of a representable year, `d.LastOfWeek` is
`d` itself when `d` is a Sunday and `d.AddDays (7 - weekday)` otherwise; it equals
`d.FirstOfWeek.AddDays 6`, it falls on a Sunday, and `d` is one of the days 0..6 of the
week that starts at `d.FirstOfWeek`. -/
theorem LastOfWeek_spec (d : Date) (hv : d.Valid) (hy : representable d.Year) :
    d.LastOfWeek = (if d.Time.Weekday = 0 then d else d.AddDays (7 - d.Time.Weekday)) ∧
    d.LastOfWeek = d.FirstOfWeek.AddDays 6 ∧
    d.LastOfWeek.Time.Weekday = 0 ∧
    (0 ≤ weekOffset d.Time.Weekday ∧ weekOffset d.Time.Weekday ≤ 6 ∧
      d = d.FirstOfWeek.AddDays (weekOffset d.Time.Weekday)) := by
  obtain ⟨hkr, -, -, -, -, hFd, hFL, hLw⟩ := week_props d hv hy
  exact ⟨(LastOfWeek_ofAbs d hv hy).1, hFL.symm, hLw, hkr.1, hkr.2, hFd.symm⟩

/-- C14, amended, at 2023-08-24, a Thursday, and at 2023-08-27, a Sunday. -/
theorem LastOfWeek_spec_witness :
    (⟨2023, 8, 24⟩ : Date).LastOfWeek = ⟨2023, 8, 27⟩ ∧
    (⟨2023, 8, 27⟩ : Date).LastOfWeek = ⟨2023, 8, 27⟩ :=
  ⟨(LastOfWeek_spec ⟨2023, 8, 24⟩ (by decide) (by decide)).1.trans (by decide),
   (LastOfWeek_spec ⟨2023, 8, 27⟩ (by decide) (by decide)).1.trans (by decide)⟩

/-- C16: for all dates `a` and `b`, whatever their fields, `DiffInDays a b` equals
`DiffInDays b a`, is not negative, and `DiffInDays a a` is 0. -/
theorem DiffInDays_symm_nonneg (a b : Date) :
    DiffInDays a b = DiffInDays b a ∧ 0 ≤ DiffInDays a b ∧ DiffInDays a a = 0 := by
  refine ⟨?_, ?_, ?_⟩
  · rw [DiffInDays_char a b, DiffInDays_char b a]
    by_cases hex : -9223372036 ≤ a.Time.ext - b.Time.ext ∧ a.Time.ext - b.Time.ext ≤ 9223372036
    · have hex' : -9223372036 ≤ b.Time.ext - a.Time.ext ∧
          b.Time.ext - a.Time.ext ≤ 9223372036 := by omega
      rw [if_pos hex, if_pos hex']
      congr 2
      split_ifs <;> omega
    · have hex' : ¬ (-9223372036 ≤ b.Time.ext - a.Time.ext ∧
          b.Time.ext - a.Time.ext ≤ 9223372036) := by omega
      rw [if_neg hex, if_neg hex']
  · rw [DiffInDays_char a b]
    split_ifs <;> omega
  · rw [DiffInDays_char a a]
    simp

/-- C15: at a failing input.  2000-01-01 is a calendar date and 146097 days later is
2400-01-01, yet `DiffInDays` of the two is 106751, not 146097: `time.Time.Sub` returns the
largest `Duration`, about 292 years, for a longer gap.  A gap of 106751 days is still
reported right and one of 106752 days is not; the two pinned cases of the claim, 366 and
365 days, hold. -/
theorem DiffInDays_saturation :
    (⟨2000, 1, 1⟩ : Date).Valid ∧
    (⟨2000, 1, 1⟩ : Date).AddDays 146097 = ⟨2400, 1, 1⟩ ∧
    DiffInDays ⟨2000, 1, 1⟩ ((⟨2000, 1, 1⟩ : Date).AddDays 146097) = 106751 ∧
    DiffInDays ⟨2000, 1, 1⟩ ((⟨2000, 1, 1⟩ : Date).AddDays 106751) = 106751 ∧
    DiffInDays ⟨2000, 1, 1⟩ ((⟨2000, 1, 1⟩ : Date).AddDays 106752) = 106751 ∧
    DiffInDays ⟨1700, 1, 1⟩ ⟨2023, 1, 1⟩ = 106751 ∧
    DiffInDays ⟨2004, 2, 28⟩ ⟨2005, 2, 28⟩ = 366 ∧
    DiffInDays ⟨2005, 2, 28⟩ ⟨2006, 2, 28⟩ = 365 := by
  decide

/-- C20: `Date.Scan` returns no error exactly on a `time.Time`, and then the receiver
holds the year, month and day of it, read in the location of the `Time`: a calendar date,
which for a `Time` in UTC is `FromTime` of it and in a zone of a fixed offset is the date
of the counter moved by the offset; the instant 2023-08-24 23:30 UTC gives
2023-08-24 in UTC, 2023-08-25 in a zone two hours east and, as does 2023-08-24 02:00 UTC,
2023-08-23 in a zone five hours west.  On every other value the receiver is left as it
was and the error names the type of the value, `<nil>` for nil.  `NullDate.Scan` accepts
nil, after which `Valid` is false and the date is left as it was; on a `time.Time` it
sets `Valid` and the date of it; on every other value it returns the error that names
the type of the value. -/
theorem Scan_spec (d : Date) (n : NullDate) (v : Value) :
    ((d.Scan v).2 = none ↔ ∃ t l, v = .time t l) ∧
    (∀ t l, d.Scan (.time t l) = (⟨t.Year l, t.Month l, t.Day l⟩, none) ∧
      (d.Scan (.time t l)).1 = ofAbs (t.absIn l) ∧ (d.Scan (.time t l)).1.Valid) ∧
    (∀ t, (d.Scan (.time t time.UTC)).1 = FromTime t) ∧
    (∀ t off, 0 ≤ t.abs + off → t.abs + off < 9223372036854775808 →
      (d.Scan (.time t (time.FixedZone off))).1 = ofAbs (t.abs + off)) ∧
    (d.Scan (.time (time.Date 2023 8 24 23 30 0 0) time.UTC)).1 = ⟨2023, 8, 24⟩ ∧
    (d.Scan (.time (time.Date 2023 8 24 23 30 0 0) (time.FixedZone 7200))).1
      = ⟨2023, 8, 25⟩ ∧
    (d.Scan (.time (time.Date 2023 8 24 23 30 0 0) (time.FixedZone (-18000)))).1
      = ⟨2023, 8, 24⟩ ∧
    (d.Scan (.time (time.Date 2023 8 24 2 0 0 0) (time.FixedZone (-18000)))).1
      = ⟨2023, 8, 23⟩ ∧
    ((¬ ∃ t l, v = .time t l) → d.Scan v = (d, some (.cannotScan v.typeName "Date"))) ∧
    d.Scan .nil = (d, some (.cannotScan "<nil>" "Date")) ∧
    d.Scan (.other "string") = (d, some (.cannotScan "string" "Date")) ∧
    n.Scan .nil = (⟨false, n.Date⟩, none) ∧
    (∀ t l, n.Scan (.time t l) = (⟨true, ⟨t.Year l, t.Month l, t.Day l⟩⟩, none) ∧
      (n.Scan (.time t l)).1.Date = (d.Scan (.time t l)).1) ∧
    (∀ w, n.Scan (.other w) = (n, some (.cannotScan w "NullTime"))) ∧
    ((n.Scan v).2 = none ↔ (v = .nil ∨ ∃ t l, v = .time t l)) := by
  have hutc : ∀ t : time.Time, (d.Scan (.time t time.UTC)).1 = FromTime t := by
    intro t
    rw [(Scan_time d t time.UTC).1, time.absIn_UTC]
    rfl
  have hfix : ∀ (t : time.Time) (off : Int), 0 ≤ t.abs + off →
      t.abs + off < 9223372036854775808 →
      (d.Scan (.time t (time.FixedZone off))).1 = ofAbs (t.abs + off) := by
    intro t off h0 h1
    rw [(Scan_time d t _).1, time.absIn_FixedZone t off h0 h1]
  refine ⟨?_, fun t l => ⟨rfl, rfl, ?_⟩, hutc, hfix, ?_, ?_, ?_, ?_,
    ?_, rfl, rfl, rfl, fun t l => ⟨rfl, rfl⟩, fun w => rfl, ?_⟩
  · cases v <;> simp [Date.Scan]
  · rw [(Scan_time d t l).1]
    exact (Scan_time d t l).2
  · rw [(Scan_time d _ _).1]
    decide
  · rw [(Scan_time d _ _).1]
    decide
  · rw [(Scan_time d _ _).1]
    decide
  · rw [(Scan_time d _ _).1]
    decide
  · intro h
    cases v with
    | nil => rfl
    | time t l => exact absurd ⟨t, l, rfl⟩ h
    | other w => rfl
  · cases v <;> simp [NullDate.Scan, Date.Scan]

/-- C19, as stated, fails: 1 January of the year 10000 is a calendar date, the valid
`NullDate` of it marshals to the quoted text `10000-01-01`, and unmarshalling that text
into a fresh `NullDate` returns the error of `FromISO8601` and leaves the `NullDate` not
valid; the valid `NullDate` of 1 January of the year -1 marshals to the quoted text
`-001-01-01`, which is not accepted either. -/
theorem NullDate_json_counterexample :
    (⟨10000, 1, 1⟩ : Date).Valid ∧
    (NullDate.mk true ⟨10000, 1, 1⟩).MarshalJSON Json.plain
      = .ok ([34] ++ ascii "10000-01-01" ++ [34]) ∧
    (NullDate.mk false ⟨0, 0, 0⟩).UnmarshalJSON Json.plain ([34] ++ ascii "10000-01-01" ++ [34])
      = (⟨false, ⟨0, 0, 0⟩⟩, some (.parse .bad)) ∧
    (⟨-1, 1, 1⟩ : Date).Valid ∧
    (NullDate.mk true ⟨-1, 1, 1⟩).MarshalJSON Json.plain
      = .ok ([34] ++ ascii "-001-01-01" ++ [34]) ∧
    ((NullDate.mk false ⟨0, 0, 0⟩).UnmarshalJSON Json.plain
      ([34] ++ ascii "-001-01-01" ++ [34])).2 ≠ none := by
  decide

/-- C19, amended: with `encoding/json` as assumed of it (`Json.Lawful`), a `NullDate`
that is not valid marshals to the bytes `null`, and a valid one, its fields being `int`s,
marshals to the text of `String` of its date between double quotes; for the `NullDate`
`n` that is `{false, zero}` or `{true, d}` with `d` a calendar date of a year 0..9999,
`n.MarshalJSON` returns bytes, and unmarshalling them into a `NullDate`, fresh or not,
returns no error and yields `n`. -/
theorem NullDate_json_roundtrip (j : Json) (hj : j.Lawful) :
    (∀ d : Date, (NullDate.mk false d).MarshalJSON j = .ok (ascii "null")) ∧
    (∀ d : Date, isInt64 d.Year → isInt64 d.Month → isInt64 d.Day →
      (NullDate.mk true d).MarshalJSON j = .ok ([34] ++ d.String ++ [34])) ∧
    (∀ n : NullDate,
      (n = ⟨false, ⟨0, 0, 0⟩⟩ ∨
        (n.Valid = true ∧ n.Date.Valid ∧ 0 ≤ n.Date.Year ∧ n.Date.Year ≤ 9999)) →
      ∃ bytes, n.MarshalJSON j = .ok bytes ∧
        ∀ r : NullDate, r.UnmarshalJSON j bytes = (n, none)) := by
  have hm : ∀ d : Date, isInt64 d.Year → isInt64 d.Month → isInt64 d.Day →
      (NullDate.mk true d).MarshalJSON j = .ok ([34] ++ d.String ++ [34]) := by
    intro d h1 h2 h3
    simp only [NullDate.MarshalJSON, Bool.not_true, Bool.false_eq_true, if_false,
      Date.MarshalJSON]
    exact (hj d.String (String_plain d h1 h2 h3)).1
  refine ⟨fun d => rfl, hm, ?_⟩
  rintro n (rfl | ⟨hV, hv, hy0, hy1⟩)
  · exact ⟨ascii "null", rfl, fun r => rfl⟩
  · obtain ⟨V, d⟩ := n
    simp only at hV hv hy0 hy1
    subst hV
    have hv0 := hv
    obtain ⟨hm1, hm2, hd1, hd2⟩ := hv0
    have hd31 := (daysInMonth_le d.Year d.Month ⟨hm1, hm2⟩).2
    have i1 : isInt64 d.Year := by unfold isInt64; omega
    have i2 : isInt64 d.Month := by unfold isInt64; omega
    have i3 : isInt64 d.Day := by unfold isInt64; omega
    refine ⟨[34] ++ d.String ++ [34], hm d i1 i2 i3, ?_⟩
    intro r
    have hne : ¬ ([34] ++ d.String ++ [34] = nullBytes) := by
      simp [nullBytes]
    have hu := (hj d.String (String_plain d i1 i2 i3)).2
    have hp : FromISO8601 d.String = .ok d :=
      (FromISO8601_ok d.String d).mpr ⟨String_isoForm d hv ⟨hy0, hy1⟩, hv⟩
    simp only [NullDate.UnmarshalJSON, if_neg hne, Date.UnmarshalJSON, hu, hp]

/-- C19, amended, with the reference implementation of the interface, at the `NullDate`
of 2004-02-29: it marshals to bytes from which a fresh `NullDate` is read back equal. -/
theorem NullDate_json_roundtrip_witness :
    Json.plain.Lawful ∧
    ∃ bytes, (NullDate.mk true ⟨2004, 2, 29⟩).MarshalJSON Json.plain = .ok bytes ∧
      ∀ r : NullDate, r.UnmarshalJSON Json.plain bytes = (⟨true, ⟨2004, 2, 29⟩⟩, none) :=
  ⟨Json.plain_lawful,
    (NullDate_json_roundtrip Json.plain Json.plain_lawful).2.2 ⟨true, ⟨2004, 2, 29⟩⟩
      (Or.inr (by decide))⟩

/-- C21: whenever `Date.UnmarshalJSON`, `Date.Scan`, `NullDate.UnmarshalJSON` or
`NullDate.Scan` returns an error, the receiver after the call is the receiver before it:
year, month and day, and `Valid` for the wrapper.  This holds whatever `encoding/json`
does. -/
theorem mutators_atomic (j : Json) (d : Date) (n : NullDate) (data : List Nat) (v : Value) :
    ((d.UnmarshalJSON j data).2 ≠ none → (d.UnmarshalJSON j data).1 = d) ∧
    ((d.Scan v).2 ≠ none → (d.Scan v).1 = d) ∧
    ((n.UnmarshalJSON j data).2 ≠ none → (n.UnmarshalJSON j data).1 = n) ∧
    ((n.Scan v).2 ≠ none → (n.Scan v).1 = n) := by
  have hN := UnmarshalJSON_error j n.Date data
  refine ⟨UnmarshalJSON_error j d data, ?_, ?_, ?_⟩
  · intro h
    cases v with
    | nil => rfl
    | time t l => exact absurd rfl h
    | other w => rfl
  · intro h
    unfold NullDate.UnmarshalJSON at h ⊢
    by_cases hnull : data = nullBytes
    · rw [if_pos hnull] at h
      exact absurd rfl h
    · rw [if_neg hnull] at h ⊢
      simp only [] at h ⊢
      cases hr : (n.Date.UnmarshalJSON j data).2 with
      | none =>
        rw [hr] at h
        exact absurd rfl h
      | some err =>
        have hk := hN (by rw [hr]; exact Option.some_ne_none err)
        simp only [hk]
  · intro h
    cases v with
    | nil => exact absurd rfl h
    | time t l => exact absurd rfl h
    | other w => rfl

/-- C21, at the two inputs of the error test, the empty input and the quoted empty text,
and at a value that is not a `time.Time`: each call returns an error and the receiver,
2023-08-24 and the valid wrapper of it, is left as it was. -/
theorem mutators_atomic_witness :
    ((⟨2023, 8, 24⟩ : Date).UnmarshalJSON Json.plain []).2 ≠ none ∧
    ((⟨2023, 8, 24⟩ : Date).UnmarshalJSON Json.plain []).1 = ⟨2023, 8, 24⟩ ∧
    ((NullDate.mk true ⟨2023, 8, 24⟩).UnmarshalJSON Json.plain [34, 34]).2 ≠ none ∧
    ((NullDate.mk true ⟨2023, 8, 24⟩).UnmarshalJSON Json.plain [34, 34]).1
      = ⟨true, ⟨2023, 8, 24⟩⟩ ∧
    ((NullDate.mk true ⟨2023, 8, 24⟩).Scan (.other "string")).1 = ⟨true, ⟨2023, 8, 24⟩⟩ :=
  ⟨by decide,
   (mutators_atomic Json.plain ⟨2023, 8, 24⟩ ⟨true, ⟨2023, 8, 24⟩⟩ [] .nil).1 (by decide),
   by decide,
   (mutators_atomic Json.plain ⟨2023, 8, 24⟩ ⟨true, ⟨2023, 8, 24⟩⟩ [34, 34]
      (.other "string")).2.2.1 (by decide),
   (mutators_atomic Json.plain ⟨2023, 8, 24⟩ ⟨true, ⟨2023, 8, 24⟩⟩ [34, 34]
      (.other "string")).2.2.2 (by decide)⟩

/-- C22: for every year and every month in 1..12, `daysInMonth` is 31 for the months 1,
3, 5, 7, 8, 10 and 12, 30 for the months 4, 6, 9 and 11, and for month 2 it is 29 if
`isLeapYear year` and 28 otherwise; the result is always between 28 and 31. -/
theorem daysInMonth_spec (year month : Int) (hm : 1 ≤ month ∧ month ≤ 12) :
    ((month = 1 ∨ month = 3 ∨ month = 5 ∨ month = 7 ∨ month = 8 ∨ month = 10 ∨ month = 12) →
      daysInMonth year month = 31) ∧
    ((month = 4 ∨ month = 6 ∨ month = 9 ∨ month = 11) → daysInMonth year month = 30) ∧
    (month = 2 → daysInMonth year month = if isLeapYear year then 29 else 28) ∧
    (28 ≤ daysInMonth year month ∧ daysInMonth year month ≤ 31) := by
  obtain ⟨w1, w2, w3, w4, w5, w6, w7, w8, w9, w10, w11, w12⟩ := monthDays_vals
  refine ⟨?_, ?_, ?_, daysInMonth_le year month hm⟩
  · intro h
    unfold daysInMonth
    rw [if_neg (by omega)]
    rcases h with h | h | h | h | h | h | h <;> rw [h] <;> assumption
  · intro h
    unfold daysInMonth
    rw [if_neg (by omega)]
    rcases h with h | h | h | h <;> rw [h] <;> assumption
  · intro h
    unfold daysInMonth
    rw [h]
    cases isLeapYear year <;> simp [w2]

/-- C22, at February of the leap year 2004 and of the common year 1900, and at April of
2023. -/
theorem daysInMonth_spec_witness :
    daysInMonth 2004 2 = 29 ∧ daysInMonth 1900 2 = 28 ∧ daysInMonth 2023 4 = 30 :=
  ⟨((daysInMonth_spec 2004 2 (by decide)).2.2.1 rfl).trans (by decide),
   ((daysInMonth_spec 1900 2 (by decide)).2.2.1 rfl).trans (by decide),
   (daysInMonth_spec 2023 4 (by decide)).2.1 (Or.inl rfl)⟩

/-- C26: for every `NullDate` `n`, `n.Scan nil` returns no error and changes only the
flag: afterwards `Valid` is false and `Date` is what it was; `UnmarshalJSON` of the bytes
`null` returns no error too, and sets `Valid` to false and `Date` to the zero date,
whatever `encoding/json` does. -/
theorem NullDate_Scan_nil_frame (j : Json) (n : NullDate) :
    (n.Scan .nil).2 = none ∧ (n.Scan .nil).1.Valid = false ∧ (n.Scan .nil).1.Date = n.Date ∧
    (n.UnmarshalJSON j (ascii "null")).2 = none ∧
    (n.UnmarshalJSON j (ascii "null")).1 = ⟨false, ⟨0, 0, 0⟩⟩ ∧
    ((NullDate.mk true ⟨2023, 9, 28⟩).Scan .nil).1 = ⟨false, ⟨2023, 9, 28⟩⟩ ∧
    ((NullDate.mk true ⟨2023, 9, 28⟩).UnmarshalJSON j (ascii "null")).1
      = ⟨false, ⟨0, 0, 0⟩⟩ :=
  ⟨rfl, rfl, rfl, rfl, rfl, rfl, rfl⟩

/-- C23, as stated, fails: 300000000000000 days after 2000-01-01 the seconds counter of
`time.Time` has wrapped, so adding 300000000000000 days and then taking them away gives
1999-12-31, while adding the sum, which is 0, gives 2000-01-01. -/
theorem AddDays_additive_counterexample :
    (⟨2000, 1, 1⟩ : Date).Valid ∧
    ((⟨2000, 1, 1⟩ : Date).AddDays 300000000000000).AddDays (-300000000000000)
      = ⟨1999, 12, 31⟩ ∧
    (⟨2000, 1, 1⟩ : Date).AddDays (300000000000000 + -300000000000000) = ⟨2000, 1, 1⟩ := by
  decide

/-- C23, amended: for a calendar date `d` of a representable year and a day count `a`
such that the day `a` days from `d` is still a day of the representable years (its day
number is between 0 and `time.lastDay`), `(d.AddDays a).AddDays b` equals
`d.AddDays (a + b)` for every `b`, also with the sum taken in 64 bits, and
`(d.AddDays a).AddDays (-a)` equals `d`. -/
theorem AddDays_additive (d : Date) (a b : Int) (hv : d.Valid) (hy : representable d.Year)
    (h0 : 0 ≤ time.dayNumber d.Year d.Month d.Day + a)
    (h1 : time.dayNumber d.Year d.Month d.Day + a ≤ time.lastDay) :
    (d.AddDays a).AddDays b = d.AddDays (a + b) ∧
    (d.AddDays a).AddDays b = d.AddDays (wrap64 (a + b)) ∧
    (d.AddDays a).AddDays (-a) = d := by
  unfold time.lastDay at h1
  have key : ∀ c : Int, (d.AddDays a).AddDays c =
      ofAbs (u64 (86400 * (time.dayNumber d.Year d.Month d.Day + a + c))) := by
    intro c
    have hu : u64 (86400 * (time.dayNumber d.Year d.Month d.Day + a)) =
        86400 * (time.dayNumber d.Year d.Month d.Day + a) :=
      time.u64_of_range _ (by omega) (by omega)
    have hA := AddDays_ofAbs d a hv hy
    rw [hu] at hA
    obtain ⟨hv2, -, hn2⟩ := ofAbs_props (86400 * (time.dayNumber d.Year d.Month d.Day + a))
      (by omega) (by omega)
    have hr2 := ofAbs_representable (86400 * (time.dayNumber d.Year d.Month d.Day + a))
      (by omega) (by unfold time.lastDay; omega)
    rw [← hA] at hv2 hn2 hr2
    have hq : 86400 * (time.dayNumber d.Year d.Month d.Day + a) / 86400 =
        time.dayNumber d.Year d.Month d.Day + a := by omega
    rw [hq] at hn2
    rw [AddDays_ofAbs (d.AddDays a) c hv2 hr2, hn2]
  refine ⟨?_, ?_, ?_⟩
  · rw [key b, AddDays_ofAbs d (a + b) hv hy, add_assoc]
  · rw [key b, AddDays_ofAbs d (wrap64 (a + b)) hv hy]
    congr 1
    unfold u64 wrap64
    omega
  · rw [key (-a)]
    have e : time.dayNumber d.Year d.Month d.Day + a + -a =
        time.dayNumber d.Year d.Month d.Day := by ring
    obtain ⟨g0, g1⟩ := dayNumber_range d hv hy
    unfold time.lastDay at g1
    rw [e, time.u64_of_range _ (by omega) (by omega)]
    exact (eq_ofAbs d hv hy).symm

/-- C23, amended, at 2004-02-28 with 1 day and 365 days, across a leap day, and back. -/
theorem AddDays_additive_witness :
    ((⟨2004, 2, 28⟩ : Date).AddDays 1).AddDays 365 = (⟨2004, 2, 28⟩ : Date).AddDays (1 + 365) ∧
    ((⟨2004, 2, 28⟩ : Date).AddDays 1).AddDays (-1) = ⟨2004, 2, 28⟩ ∧
    (⟨2004, 2, 28⟩ : Date).AddDays (1 + 365) = ⟨2005, 2, 28⟩ :=
  ⟨(AddDays_additive ⟨2004, 2, 28⟩ 1 365 (by decide) (by decide) (by decide) (by decide)).1,
   (AddDays_additive ⟨2004, 2, 28⟩ 1 365 (by decide) (by decide) (by decide) (by decide)).2.2,
   by decide⟩

/-- C24, as stated, fails: 1 January of the year 1000000000000 is a calendar date beyond
the years that the seconds counter of `time.Time` holds, and `AddDays 0` does not return
it. -/
theorem AddDays_zero_counterexample :
    (⟨1000000000000, 1, 1⟩ : Date).Valid ∧
    (⟨1000000000000, 1, 1⟩ : Date).AddDays 0 = ⟨-169108098508, 4, 15⟩ ∧
    ¬ ((⟨1000000000000, 1, 1⟩ : Date).AddDays 0 = ⟨1000000000000, 1, 1⟩) := by
  decide

/-- C24, amended: for every date value `d` of a representable year, `d.AddDays 0` equals
`d` exactly if `d` is a calendar date, month in 1..12 and day in 1..`daysInMonth`; for a
date value of any year, `d.AddDays 0 = d` only if `d` is a calendar date; the value
`{2023, 2, 30}` is turned into 2023-03-02.  Outside the representable years a calendar
date may come back or not: for 1 January of the year 1000000000000 the result is
`{-169108098508, 4, 15}`, while 1 January of the year 292277026854, the first year that
is not representable, is returned as it is. -/
theorem AddDays_zero_iff (d : Date) (hy : representable d.Year) :
    (d.AddDays 0 = d ↔
      (1 ≤ d.Month ∧ d.Month ≤ 12 ∧ 1 ≤ d.Day ∧ d.Day ≤ daysInMonth d.Year d.Month)) ∧
    (∀ e : Date, e.AddDays 0 = e → e.Valid) ∧
    (⟨2023, 2, 30⟩ : Date).AddDays 0 = ⟨2023, 3, 2⟩ ∧
    ((⟨1000000000000, 1, 1⟩ : Date).Valid ∧ ¬ representable 1000000000000 ∧
      (⟨1000000000000, 1, 1⟩ : Date).AddDays 0 = ⟨-169108098508, 4, 15⟩) ∧
    ((⟨292277026854, 1, 1⟩ : Date).Valid ∧ ¬ representable 292277026854 ∧
      representable 292277026853 ∧
      (⟨292277026854, 1, 1⟩ : Date).AddDays 0 = ⟨292277026854, 1, 1⟩) := by
  have hall : ∀ e : Date, e.AddDays 0 = e → e.Valid := by
    intro e h
    rw [← h]
    exact FromTime_valid _
  refine ⟨⟨fun h => hall d h, ?_⟩, hall, by decide, by decide, by decide⟩
  intro hv
  obtain ⟨g0, g1⟩ := dayNumber_range d hv hy
  unfold time.lastDay at g1
  rw [AddDays_ofAbs d 0 hv hy, add_zero, time.u64_of_range _ (by omega) (by omega)]
  exact (eq_ofAbs d hv hy).symm

/-- C24, amended, at 2023-08-24, which `AddDays 0` returns, and at the value
`{2023, 13, 1}`, which it does not. -/
theorem AddDays_zero_iff_witness :
    (⟨2023, 8, 24⟩ : Date).AddDays 0 = ⟨2023, 8, 24⟩ ∧
    ¬ ((⟨2023, 13, 1⟩ : Date).AddDays 0 = ⟨2023, 13, 1⟩) :=
  ⟨(AddDays_zero_iff ⟨2023, 8, 24⟩ (by decide)).1.mpr (by decide),
   fun h => absurd ((AddDays_zero_iff ⟨2023, 13, 1⟩ (by decide)).1.mp h) (by decide)⟩

/-- C25: for calendar dates `a` and `b` of years 0..9999, the texts of `String` sort like
the dates: `a.IsBefore b` holds exactly if `a.String` is smaller than `b.String` in the
byte-wise lexicographic order, and `a.Equal b` exactly if the two texts are equal. -/
theorem String_order (a b : Date) (hva : a.Valid) (hvb : b.Valid)
    (hya : 0 ≤ a.Year ∧ a.Year ≤ 9999) (hyb : 0 ≤ b.Year ∧ b.Year ≤ 9999) :
    (a.IsBefore b = true ↔ bytesLt a.String b.String = true) ∧
    (a.Equal b = true ↔ a.String = b.String) := by
  obtain ⟨p1, p2, p3, p4, p5, p6, p7, p8, hp1, hp2, hp3, hp4, hp5, hp6, hp7, hp8, hsa, hay,
    ham, had⟩ := String_isoForm a hva hya
  obtain ⟨q1, q2, q3, q4, q5, q6, q7, q8, hq1, hq2, hq3, hq4, hq5, hq6, hq7, hq8, hsb, hby,
    hbm, hbd⟩ := String_isoForm b hvb hyb
  unfold digitByte at *
  rw [hsa, hsb]
  unfold Date.IsBefore Date.Equal
  simp only [bytesLt, List.cons.injEq, Bool.or_eq_true, Bool.and_eq_true, decide_eq_true_eq,
    beq_iff_eq, Bool.or_false, and_true, Bool.decide_and, Bool.decide_or, Bool.and_false,
    lt_self_iff_false, decide_False, Bool.false_or, Bool.true_and, decide_True, beq_self_eq_true]
  rw [hay, ham, had, hby, hbm, hbd]
  constructor
  · split_ifs with k1 k2 k3
    · simp only [true_iff]
      omega
    · simp only [true_iff]
      omega
    · simp only [true_iff]
      omega
    · simp only [Bool.false_eq_true, false_iff]
      omega
  · simp only [true_and]
    omega

/-- C25, at 2023-08-24 and 2023-12-01: the first is before the second, and its text is
the smaller one; and at 0999-12-31 and 1000-01-01, where the year decides. -/
theorem String_order_witness :
    bytesLt (⟨2023, 8, 24⟩ : Date).String (⟨2023, 12, 1⟩ : Date).String = true ∧
    bytesLt (⟨999, 12, 31⟩ : Date).String (⟨1000, 1, 1⟩ : Date).String = true ∧
    (⟨2023, 12, 1⟩ : Date).IsBefore ⟨2023, 8, 24⟩ = false :=
  ⟨(String_order ⟨2023, 8, 24⟩ ⟨2023, 12, 1⟩ (by decide) (by decide) (by decide)
      (by decide)).1.mp (by decide),
   (String_order ⟨999, 12, 31⟩ ⟨1000, 1, 1⟩ (by decide) (by decide) (by decide)
      (by decide)).1.mp (by decide),
   by decide⟩

end date
